import Mathlib

/-!
# avroparser: a shallow embedding of the schema compiler and the binary decoder

The development follows the Go sources:

* `pkg/schema/util.go`    : `lowOverheadReader.ReadByte`, attribute extraction
* `pkg/schema/schema.go`  : the `Read` method of every schema node
* `pkg/schema/parser.go`  : `schemaBuilder` and `ParseSchema`
* `pkg/provider/*.go`     : `CountingReader`, `IsEof`, `StaticFileSchema.Next`
* `cmd/avro-convert`      : the driver loop of `main`

Conventions of the embedding.

* A Go `byte` is a `Fin 256`; `uint64` values are naturals reduced modulo `2^64`;
  `int64`, `int32` and `int` values are integers (wrap-around is written out
  where a conversion can overflow).
* A Go `(value, error)` result is a `Res`: `ok`, `error` (a non-nil `error`) or
  `panic` (a run-time panic, e.g. an index out of range or a nil dereference).
  `Res.fuel` is returned only when a loop model runs out of its step budget.
* `io.Reader` values are modelled by `Reader`: an in-memory byte source, whose
  `Read` delivers `min n remaining` bytes; a pipe (`os.Stdin` fed by another
  process), whose `Read` delivers at most what is left of the chunk that
  arrived first, so that it can return fewer bytes than asked for although more
  will follow; and `provider.CountingReader` around another reader.  A read of
  `n > 0` bytes from a reader with no byte left yields `io.EOF`; a read into an
  empty buffer returns `0, nil` (as `os.File` and `bytes.Buffer` do).
* `make([]T, n)` panics when `n` is negative or when `n` elements need more
  than `maxAlloc` bytes (`runtime.makeslice`); an allocation within this limit
  is taken to succeed (running out of memory is not modelled).
* Library functions (`encoding/binary`, `io.ReadFull`) are modelled after the Go
  standard library.
* Text of error messages is abbreviated; only the wrapping structure (`%w`)
  is kept exactly.
-/

namespace Avro

/-! ## Machine integers -/

/-- A Go `byte`. -/
abbrev Byte := Fin 256

/-- Reduction of a natural number to a `uint64`. -/
def u64 (n : Nat) : Nat := n % 2 ^ 64

/-- The conversion `int64(x)` of a `uint64` bit pattern. -/
def int64 (n : Nat) : Int := if n < 2 ^ 63 then (n : Int) else (n : Int) - 2 ^ 64

/-- The conversion `uint64(x)` of an `int64`. -/
def uint64 (i : Int) : Nat := (i % 2 ^ 64).toNat

/-- The conversion `int32(x)` of an `int64` (keeps the low 32 bits). -/
def int32 (i : Int) : Int := (i + 2 ^ 31) % 2 ^ 32 - 2 ^ 31

/-- The constant `math.MaxUint32`. -/
def MaxUint32 : Nat := 2 ^ 32 - 1

/-- The constant `math.MaxUint64`. -/
def MaxUint64 : Nat := 2 ^ 64 - 1

/-- The constant `binary.MaxVarintLen64`. -/
def MaxVarintLen64 : Nat := 10

/-! ## Errors and results -/

/-- Go `error` values that the program can produce. -/
inductive Err where
  /-- The sentinel `io.EOF`. -/
  | EOF
  /-- The sentinel `io.ErrUnexpectedEOF`. -/
  | ErrUnexpectedEOF
  /-- The error `binary: varint overflows a 64-bit integer`. -/
  | errOverflow
  /-- An error made by `fmt.Errorf` without `%w`. -/
  | errorf (msg : String)
  /-- An error made by `fmt.Errorf` with `%w`; `errors.Unwrap` returns `err`. -/
  | wrap (msg : String) (err : Err)
  /-- An error of a user type whose `Unwrap` method returns the error itself. -/
  | cyclic (msg : String)
deriving DecidableEq, Repr

/-- Outcome of a Go call returning `(value, error)`. -/
inductive Res (α : Type) where
  | ok (v : α)
  | error (e : Err)
  | panic (msg : String)
  | fuel
deriving DecidableEq, Repr

/-- The call returned a nil error. -/
def Res.isOk {α : Type} : Res α → Bool
  | .ok _ => true
  | _ => false

/-- The call returned a non-nil error (it neither succeeded nor panicked). -/
def Res.isError {α : Type} : Res α → Bool
  | .error _ => true
  | _ => false

/-- The call ended in a run-time panic. -/
def Res.isPanic {α : Type} : Res α → Bool
  | .panic _ => true
  | _ => false

/-! ## Byte sources -/

/-- The `io.Reader` implementations: an in-memory source holding the bytes not
yet read; a pipe holding the bytes not yet read in the chunks in which they
arrive, a `Read` being served from the first chunk only; and
`provider.CountingReader` wrapping another reader. -/
inductive Reader where
  | source (data : List Byte)
  | pipe (chunks : List (List Byte))
  | counting (bytesRead : Int) (reader : Reader)
deriving DecidableEq, Repr

/-- The bytes not yet read from the underlying source. -/
def Reader.unread : Reader → List Byte
  | .source data => data
  | .pipe chunks => chunks.flatten
  | .counting _ reader => reader.unread

/-- The call `NewCountingReader(reader)`. -/
def NewCountingReader (reader : Reader) : Reader := .counting 0 reader

/-- The method `ReadBytes()`; zero for a reader that is not a `CountingReader`. -/
def Reader.ReadBytes : Reader → Int
  | .source _ => 0
  | .pipe _ => 0
  | .counting bytesRead _ => bytesRead

/-- One `read` of `n > 0` bytes on a pipe: it returns what is left of the first
chunk, at most `n` bytes of it, and `io.EOF` when no chunk is left.  A chunk
without bytes is skipped (a pipe holds no such chunk). -/
def pipeRead : List (List Byte) → Nat → (List Byte × Option Err) × List (List Byte)
  | [], _ => (([], some .EOF), [])
  | chunk :: chunks, n =>
      if chunk.isEmpty then pipeRead chunks n
      else if (chunk.drop n).isEmpty then ((chunk.take n, none), chunks)
      else ((chunk.take n, none), chunk.drop n :: chunks)

/-- One call `Read(p)` with `len(p) = n`: the bytes stored at the front of `p`
(their number is the returned count), the returned error, and the reader after
the call.  For `CountingReader` this is `eof.go`, lines 20 to 26: the counter is
advanced when `err != nil`. -/
def Reader.Read : Reader → Nat → (List Byte × Option Err) × Reader
  | .source data, n =>
      if n = 0 then (([], none), .source data)
      else if data.isEmpty then (([], some .EOF), .source data)
      else ((data.take n, none), .source (data.drop n))
  | .pipe chunks, n =>
      if n = 0 then (([], none), .pipe chunks)
      else
        match pipeRead chunks n with
        | ((got, err), chunks') => ((got, err), .pipe chunks')
  | .counting bytesRead reader, n =>
      match reader.Read n with
      | ((got, err), reader') =>
          ((got, err),
            .counting (if err.isSome then bytesRead + got.length else bytesRead) reader')

/-- The method `lowOverheadReader.ReadByte` (`util.go`, lines 13 to 22). -/
def ReadByte (r : Reader) : Res Byte × Reader :=
  match r.Read 1 with
  | ((_, some err), r') => (.error err, r')
  | ((got, none), r') =>
      if got.length ≠ 1 then (.error (.errorf "failed to read 1 byte"), r')
      else (.ok (got.headD 0), r')

/-- The loop of `binary.ReadUvarint`: `n` iterations are left, `i` is the loop
index, `x` the accumulator and `s` the shift. -/
def ReadUvarint.loop : Nat → Nat → Nat → Nat → Reader → Res Nat × Reader
  | 0, _, _, _, r => (.error .errOverflow, r)
  | n + 1, i, x, s, r =>
      match ReadByte r with
      | (.ok b, r') =>
          if b.val < 0x80 then
            if i = MaxVarintLen64 - 1 ∧ b.val > 1 then (.error .errOverflow, r')
            else (.ok (x ||| u64 (b.val <<< s)), r')
          else ReadUvarint.loop n (i + 1) (x ||| u64 ((b.val &&& 0x7f) <<< s)) (s + 7) r'
      | (.error err, r') =>
          (.error (if 0 < i ∧ err = .EOF then .ErrUnexpectedEOF else err), r')
      | (.panic msg, r') => (.panic msg, r')
      | (.fuel, r') => (.fuel, r')

/-- The library function `binary.ReadUvarint`. -/
def ReadUvarint (r : Reader) : Res Nat × Reader :=
  ReadUvarint.loop MaxVarintLen64 0 0 0 r

/-- The library function `binary.ReadVarint`: `ReadUvarint` followed by a
zig-zag decoding (`x := int64(ux >> 1); if ux&1 != 0 { x = ^x }`). -/
def ReadVarint (r : Reader) : Res Int × Reader :=
  match ReadUvarint r with
  | (.ok ux, r') =>
      let x : Int := int64 (ux >>> 1)
      (.ok (if ux &&& 1 ≠ 0 then -x - 1 else x), r')
  | (.error err, r') => (.error err, r')
  | (.panic msg, r') => (.panic msg, r')
  | (.fuel, r') => (.fuel, r')

/-- The function `readInt` (`schema.go`, lines 46 to 56). -/
def readInt (r : Reader) : Res Int × Reader :=
  match ReadVarint r with
  | (.ok result, r') =>
      if result ≥ MaxUint32 ∨ result < 0 then
        (.error (.errorf "number is out of range for int32"), r')
      else
        (.ok (int32 (Int.xor (result >>> 1) (-(Int.land result 1)))), r')
  | (.error err, r') => (.error (.wrap "failed to read value" err), r')
  | (.panic msg, r') => (.panic msg, r')
  | (.fuel, r') => (.fuel, r')

/-- The function `readLong` (`schema.go`, lines 67 to 77).  The test
`result < 0` of the source is always false for a `uint64`. -/
def readLong (r : Reader) : Res Int × Reader :=
  match ReadUvarint r with
  | (.ok result, r') =>
      if result ≥ MaxUint64 ∨ result < 0 then
        (.error (.errorf "number is out of range for int32"), r')
      else
        (.ok (int64 ((result >>> 1) ^^^ u64 (2 ^ 64 - (result &&& 1)))), r')
  | (.error err, r') => (.error (.wrap "failed to read value" err), r')
  | (.panic msg, r') => (.panic msg, r')
  | (.fuel, r') => (.fuel, r')

/-! ## The Avro wire encoding of integers (from the Avro specification) -/

/-- The zig-zag code `(v << 1) XOR (v >> 63)` of a signed 64-bit value, as a
`uint64`. -/
def zigzag (v : Int) : Nat :=
  u64 (uint64 v <<< 1) ^^^ (if v < 0 then 2 ^ 64 - 1 else 0)

/-- The unsigned base-128 varint of `u`, least significant group first, with
the high bit of a byte set when more bytes follow; `n` bounds the number of
continuation bytes. -/
def encodeUvarint.go : Nat → Nat → List Byte
  | 0, u => [⟨u % 128, by omega⟩]
  | n + 1, u =>
      if u < 128 then [⟨u % 128, by omega⟩]
      else ⟨u % 128 + 128, by omega⟩ :: encodeUvarint.go n (u / 128)

/-- The unsigned base-128 varint of a `uint64` (at most ten bytes). -/
def encodeUvarint (u : Nat) : List Byte := encodeUvarint.go (MaxVarintLen64 - 1) u

/-- The Avro encoding of a `long` (and of an `int`). -/
def encodeLong (v : Int) : List Byte := encodeUvarint (zigzag v)

/-! ## Dynamic values: schema documents and decoded values -/

/-- A Go `interface{}` holding a parsed JSON document (the input of
`ParseSchema`): `nil`, `bool`, `int`, `float64`, `string`, `[]interface{}` or
`map[string]interface{}`.  A map is a list of entries searched from the front. -/
inductive Dyn where
  | null
  | bool (b : Bool)
  | int (i : Int)
  | float64 (bits : Nat)
  | string (s : String)
  | slice (items : List Dyn)
  | map (items : List (String × Dyn))

/-- A Go `interface{}` returned by a `Read` method.  Go strings that come from
the wire are byte sequences (`string`, keys of `map`); Go strings that come from
the schema are `String`s (`symbol`, `symbolPtr` for a `*string`, keys of
`record`).  `record` and `map` are both a Go `map[string]interface{}`. -/
inductive Value where
  | nil
  | bool (b : Bool)
  | int32 (v : Int)
  | int64 (v : Int)
  | float32 (bits : Nat)
  | float64 (bits : Nat)
  | bytes (data : List Byte)
  | string (data : List Byte)
  | symbol (s : String)
  | symbolPtr (s : String)
  | slice (items : List Value)
  | record (entries : List (String × Value))
  | map (entries : List (List Byte × Value))

/-- The assignment `m[k] = v` on a Go map kept as a list of entries with
distinct keys. -/
def mapSet {κ α : Type} [DecidableEq κ] : List (κ × α) → κ → α → List (κ × α)
  | [], k, v => [(k, v)]
  | (k', v') :: rest, k, v =>
      if k' = k then (k', v) :: rest else (k', v') :: mapSet rest k v

/-- The lookup `m[k]` on a Go map kept as a list of entries. -/
def mapGet {κ α : Type} [DecidableEq κ] : List (κ × α) → κ → Option α
  | [], _ => none
  | (k', v') :: rest, k => if k' = k then some v' else mapGet rest k

/-! ## Schema nodes (`schema.go`, `parser.go`) -/

mutual
/-- The implementations of the interface `ItemSchema`. -/
inductive ItemSchema where
  | AvroNull
  | AvroBoolean
  | AvroInt
  | AvroLong
  | AvroFloat
  | AvroDouble
  | AvroBytes
  | AvroString
  | AvroRecord (name nspace doc : String) (aliases : List String)
      (fields : List AvroRecordField)
  | AvroEnum (name nspace : String) (aliases : List String) (doc : String)
      (symbols : List String) (defaultValue : Option String)
  | AvroArray (itemSchema : ItemSchema)
  | AvroFixed (name nspace : String) (aliases : List String) (doc : String) (size : Int)
  | AvroUnion (elements : List ItemSchema)
  | AvroMap (values : ItemSchema)
  /-- The struct `avroReferenceSchema`; `ref` is `none` for a nil interface. -/
  | avroReferenceSchema (name : String) (ref : Option ItemSchema)
/-- The struct `AvroRecordField`. -/
inductive AvroRecordField where
  | mk (name doc : String) (fieldType : ItemSchema) (defaultValue : Dyn)
      (order : String) (aliases : List String)
end

/-! ## Primitive readers (`schema.go`) -/

/-- The method `AvroBoolean.Read`. -/
def AvroBoolean.Read (r : Reader) : Res Value × Reader :=
  match ReadByte r with
  | (.ok item, r') => if item = 0 then (.ok (.bool false), r') else (.ok (.bool true), r')
  | (.error err, r') => (.error (.wrap "failed to read boolean" err), r')
  | (.panic msg, r') => (.panic msg, r')
  | (.fuel, r') => (.fuel, r')

/-- The loop of `io.ReadAtLeast(r, buf, min)` with `len(buf) = min`; `buf` holds
the bytes read so far. -/
def ReadFull.loop : Nat → Nat → List Byte → Reader → Res (List Byte) × Reader
  | 0, min, buf, r => if buf.length < min then (.fuel, r) else (.ok buf, r)
  | fuel + 1, min, buf, r =>
      if buf.length < min then
        match r.Read (min - buf.length) with
        | ((got, none), r') => ReadFull.loop fuel min (buf ++ got) r'
        | ((got, some err), r') =>
            if buf.length + got.length ≥ min then (.ok (buf ++ got), r')
            else if buf.length + got.length > 0 ∧ err = .EOF then
              (.error .ErrUnexpectedEOF, r')
            else (.error err, r')
      else (.ok buf, r)

/-- The library function `io.ReadFull` on a buffer of `n` bytes. -/
def ReadFull (r : Reader) (n : Nat) : Res (List Byte) × Reader :=
  ReadFull.loop n n [] r

/-- The unsigned integer held by bytes in little-endian order. -/
def littleEndian (bs : List Byte) : Nat :=
  bs.foldr (fun b acc => b.val + 256 * acc) 0

/-- The method `AvroFloat.Read`; the float is kept as its IEEE-754 bits. -/
def AvroFloat.Read (r : Reader) : Res Value × Reader :=
  match ReadFull r 4 with
  | (.ok bs, r') => (.ok (.float32 (littleEndian bs)), r')
  | (.error err, r') => (.error err, r')
  | (.panic msg, r') => (.panic msg, r')
  | (.fuel, r') => (.fuel, r')

/-- The method `AvroDouble.Read`; the float is kept as its IEEE-754 bits. -/
def AvroDouble.Read (r : Reader) : Res Value × Reader :=
  match ReadFull r 8 with
  | (.ok bs, r') => (.ok (.float64 (littleEndian bs)), r')
  | (.error err, r') => (.error err, r')
  | (.panic msg, r') => (.panic msg, r')
  | (.fuel, r') => (.fuel, r')

/-- The constant `maxAlloc` of the Go runtime on a 64-bit platform
(`linux/amd64`): the largest number of bytes of one allocation. -/
def maxAlloc : Nat := 2 ^ 48

/-- The test of `runtime.makeslice` for `make([]T, len)` with elements of
`elemSize` bytes: the call panics with `makeslice: len out of range` when `len`
is negative or when the slice needs more than `maxAlloc` bytes. -/
def makeslicePanics (elemSize : Nat) (len : Int) : Bool :=
  decide (len < 0 ∨ maxAlloc < elemSize * len.toNat)

/-- The shared body of `AvroBytes.Read` and `readString`: a length read by
`readLong`, `make([]byte, length)` and one `Read` into the buffer. -/
def readLengthPrefixed (r : Reader) : Res (List Byte) × Reader :=
  match readLong r with
  | (.ok length, r1) =>
      if makeslicePanics 1 length then (.panic "makeslice: len out of range", r1)
      else
        match r1.Read length.toNat with
        | ((_, some err), r2) => (.error (.wrap "failed to read bytes contents" err), r2)
        | ((got, none), r2) =>
            if (got.length : Int) ≠ length then (.error (.errorf "not enough bytes"), r2)
            else (.ok got, r2)
  | (.error err, r1) => (.error err, r1)
  | (.panic msg, r1) => (.panic msg, r1)
  | (.fuel, r1) => (.fuel, r1)

/-- The method `AvroBytes.Read` (`schema.go`, lines 116 to 129). -/
def AvroBytes.Read (r : Reader) : Res Value × Reader :=
  match readLengthPrefixed r with
  | (.ok result, r') => (.ok (.bytes result), r')
  | (.error err, r') => (.error err, r')
  | (.panic msg, r') => (.panic msg, r')
  | (.fuel, r') => (.fuel, r')

/-- The function `readString` (`schema.go`, lines 140 to 153). -/
def readString (r : Reader) : Res (List Byte) × Reader := readLengthPrefixed r

/-- The method `AvroString.Read`. -/
def AvroString.Read (r : Reader) : Res Value × Reader :=
  match readString r with
  | (.ok result, r') => (.ok (.string result), r')
  | (.error err, r') => (.error err, r')
  | (.panic msg, r') => (.panic msg, r')
  | (.fuel, r') => (.fuel, r')

/-- The method `AvroEnum.Read` (`schema.go`, lines 208 to 222). -/
def AvroEnum.Read (symbols : List String) (defaultValue : Option String) (r : Reader) :
    Res Value × Reader :=
  match readInt r with
  | (.ok value, r') =>
      if value ≥ int32 symbols.length ∨ value < 0 then
        match defaultValue with
        | some d =>
            if value ≥ 0 then (.ok (.symbolPtr d), r')
            else (.error (.errorf "no enum constant defined"), r')
        | none => (.error (.errorf "no enum constant defined"), r')
      else
        match symbols.get? value.toNat with
        | some s => (.ok (.symbol s), r')
        | none => (.panic "index out of range", r')
  | (.error err, r') => (.error (.wrap "failed to read enum value" err), r')
  | (.panic msg, r') => (.panic msg, r')
  | (.fuel, r') => (.fuel, r')

/-- The method `AvroFixed.Read` (`schema.go`, lines 271 to 281). -/
def AvroFixed.Read (size : Int) (r : Reader) : Res Value × Reader :=
  if makeslicePanics 1 size then (.panic "makeslice: len out of range", r)
  else
    match r.Read size.toNat with
    | ((_, some err), r') => (.error (.wrap "failed to read fixed value" err), r')
    | ((got, none), r') =>
        if (got.length : Int) ≠ size then
          (.error (.errorf "number of fixed bytes read is not equal to expected"), r')
        else (.ok (.bytes got), r')

/-! ## Block-encoded collections (`schema.go`) -/

/-- The negation `-count` of an `int64`. -/
def neg64 (count : Int) : Int := int64 (uint64 (-count))

/-- The head of a block in `AvroArray.Read` and `AvroMap.Read` once the count is
known to be non-zero: for a negative count the count is negated and the
fast-skip long is read and dropped. -/
def readBlockHeader (count : Int) (r : Reader) : Res Int × Reader :=
  if count < 0 then
    match readLong r with
    | (.ok _, r') => (.ok (neg64 count), r')
    | (.error err, r') => (.error (.wrap "failed to read array fast skip section" err), r')
    | (.panic msg, r') => (.panic msg, r')
    | (.fuel, r') => (.fuel, r')
  else (.ok count, r)

/-- The inner loop of `AvroArray.Read` (lines 251 to 256): `n` iterations are
left and `idx` is the loop index.  The item is read first and then stored with
`result[idx] = ...`, which panics when `idx` is not below `len(result)`. -/
def AvroArray.items (readItem : Reader → Res Value × Reader) :
    Nat → Nat → List Value → Reader → Res (List Value) × Reader
  | 0, _, result, r => (.ok result, r)
  | n + 1, idx, result, r =>
      match readItem r with
      | (.ok value, r') =>
          if idx < result.length then
            AvroArray.items readItem n (idx + 1) (result.set idx value) r'
          else (.panic "index out of range", r')
      | (.error err, r') =>
          if idx < result.length then (.error (.wrap "failed to read item at idx" err), r')
          else (.panic "index out of range", r')
      | (.panic msg, r') => (.panic msg, r')
      | (.fuel, r') => (.fuel, r')

/-- The outer loop of `AvroArray.Read` (lines 233 to 257); `result` is `none`
while the slice is nil.  An `interface{}` element takes 16 bytes. -/
def AvroArray.blocks (readItem : Reader → Res Value × Reader) :
    Nat → Option (List Value) → Reader → Res Value × Reader
  | 0, _, r => (.fuel, r)
  | fuel + 1, result, r =>
      match readLong r with
      | (.ok count, r1) =>
          if count = 0 then (.ok (.slice (result.getD [])), r1)
          else
            match readBlockHeader count r1 with
            | (.ok count, r2) =>
                if result.isNone ∧ makeslicePanics 16 count then
                  (.panic "makeslice: len out of range", r2)
                else
                  match AvroArray.items readItem count.toNat 0
                      (result.getD (List.replicate count.toNat Value.nil)) r2 with
                  | (.ok result', r3) => AvroArray.blocks readItem fuel (some result') r3
                  | (.error err, r3) => (.error err, r3)
                  | (.panic msg, r3) => (.panic msg, r3)
                  | (.fuel, r3) => (.fuel, r3)
            | (.error err, r2) => (.error err, r2)
            | (.panic msg, r2) => (.panic msg, r2)
            | (.fuel, r2) => (.fuel, r2)
      | (.error err, r1) => (.error (.wrap "failed to read array length" err), r1)
      | (.panic msg, r1) => (.panic msg, r1)
      | (.fuel, r1) => (.fuel, r1)

/-- The inner loop of `AvroMap.Read` (lines 323 to 332); `n` iterations are
left. -/
def AvroMap.items (readValue : Reader → Res Value × Reader) :
    Nat → List (List Byte × Value) → Reader → Res (List (List Byte × Value)) × Reader
  | 0, result, r => (.ok result, r)
  | n + 1, result, r =>
      match readString r with
      | (.ok name, r1) =>
          match readValue r1 with
          | (.ok value, r2) => AvroMap.items readValue n (mapSet result name value) r2
          | (.error err, r2) => (.error (.wrap "failed to read item with name" err), r2)
          | (.panic msg, r2) => (.panic msg, r2)
          | (.fuel, r2) => (.fuel, r2)
      | (.error err, r1) => (.error (.wrap "failed to read name in map" err), r1)
      | (.panic msg, r1) => (.panic msg, r1)
      | (.fuel, r1) => (.fuel, r1)

/-- The outer loop of `AvroMap.Read` (lines 308 to 333). -/
def AvroMap.blocks (readValue : Reader → Res Value × Reader) :
    Nat → List (List Byte × Value) → Reader → Res Value × Reader
  | 0, _, r => (.fuel, r)
  | fuel + 1, result, r =>
      match readLong r with
      | (.ok count, r1) =>
          if count = 0 then (.ok (.map result), r1)
          else
            match readBlockHeader count r1 with
            | (.ok count, r2) =>
                match AvroMap.items readValue count.toNat result r2 with
                | (.ok result', r3) => AvroMap.blocks readValue fuel result' r3
                | (.error err, r3) => (.error err, r3)
                | (.panic msg, r3) => (.panic msg, r3)
                | (.fuel, r3) => (.fuel, r3)
            | (.error err, r2) => (.error err, r2)
            | (.panic msg, r2) => (.panic msg, r2)
            | (.fuel, r2) => (.fuel, r2)
      | (.error err, r1) => (.error (.wrap "failed to read array length" err), r1)
      | (.panic msg, r1) => (.panic msg, r1)
      | (.fuel, r1) => (.fuel, r1)

/-- A step budget for the block loops: every block reads at least the byte of
its count, so a loop over `r` makes at most `r.unread.length + 1` rounds. -/
def blockFuel (r : Reader) : Nat := r.unread.length + 1

/-! ## The decoder (`ItemSchema.Read`) -/

mutual
/-- The method `Read` of every schema node. -/
def ItemSchema.Read : ItemSchema → Reader → Res Value × Reader
  | .AvroNull, r => (.ok .nil, r)
  | .AvroBoolean, r => AvroBoolean.Read r
  | .AvroInt, r =>
      match readInt r with
      | (.ok v, r') => (.ok (.int32 v), r')
      | (.error err, r') => (.error err, r')
      | (.panic msg, r') => (.panic msg, r')
      | (.fuel, r') => (.fuel, r')
  | .AvroLong, r =>
      match readLong r with
      | (.ok v, r') => (.ok (.int64 v), r')
      | (.error err, r') => (.error err, r')
      | (.panic msg, r') => (.panic msg, r')
      | (.fuel, r') => (.fuel, r')
  | .AvroFloat, r => AvroFloat.Read r
  | .AvroDouble, r => AvroDouble.Read r
  | .AvroBytes, r => AvroBytes.Read r
  | .AvroString, r => AvroString.Read r
  | .AvroRecord _ _ _ _ fields, r => AvroRecord.ReadFields fields [] r
  | .AvroEnum _ _ _ _ symbols defaultValue, r => AvroEnum.Read symbols defaultValue r
  | .AvroArray itemSchema, r =>
      AvroArray.blocks (ItemSchema.Read itemSchema) (blockFuel r) none r
  | .AvroFixed _ _ _ _ size, r => AvroFixed.Read size r
  | .AvroUnion elements, r =>
      match readInt r with
      | (.ok idx, r') =>
          if idx < 0 ∨ idx ≥ elements.length then
            (.error (.errorf "union doesn't have element with index"), r')
          else AvroUnion.ReadElement elements idx.toNat r'
      | (.error err, r') => (.error err, r')
      | (.panic msg, r') => (.panic msg, r')
      | (.fuel, r') => (.fuel, r')
  | .AvroMap values, r => AvroMap.blocks (ItemSchema.Read values) (blockFuel r) [] r
  | .avroReferenceSchema _ none, r => (.panic "nil pointer dereference", r)
  | .avroReferenceSchema _ (some ref), r => ItemSchema.Read ref r
/-- The loop of `AvroRecord.Read` (lines 184 to 193) over the fields left, with
the map built so far. -/
def AvroRecord.ReadFields :
    List AvroRecordField → List (String × Value) → Reader → Res Value × Reader
  | [], result, r => (.ok (.record result), r)
  | .mk name _ fieldType _ _ _ :: fields, result, r =>
      match ItemSchema.Read fieldType r with
      | (.ok value, r') => AvroRecord.ReadFields fields (mapSet result name value) r'
      | (.error err, r') => (.error (.wrap "failed reading field in type" err), r')
      | (.panic msg, r') => (.panic msg, r')
      | (.fuel, r') => (.fuel, r')
/-- The call `v.elements[idx].Read(r)` of `AvroUnion.Read`. -/
def AvroUnion.ReadElement : List ItemSchema → Nat → Reader → Res Value × Reader
  | [], _, r => (.panic "index out of range", r)
  | element :: _, 0, r => ItemSchema.Read element r
  | _ :: elements, idx + 1, r => AvroUnion.ReadElement elements idx r
end

/-! ## Attribute extraction (`util.go`) -/

/-- The function `getStringValue` (`util.go`, lines 24 to 37). -/
def getStringValue (items : List (String × Dyn)) (name : String) (required : Bool) :
    Res String :=
  match mapGet items name with
  | none => if required then .error (.errorf "required field not found") else .ok ""
  | some (.string stringValue) => .ok stringValue
  | some _ => .error (.errorf "field expected to be of type string")

/-- The function `getIntValue` (`util.go`, lines 39 to 52). -/
def getIntValue (items : List (String × Dyn)) (name : String) (required : Bool) :
    Res Int :=
  match mapGet items name with
  | none => if required then .error (.errorf "required field not found") else .ok 0
  | some (.int intValue) => .ok intValue
  | some _ => .error (.errorf "field expected to be of type string")

/-- The loop of `readStringArray` (`util.go`, lines 69 to 75). -/
def readStringArray.loop : List Dyn → List String → Res (List String)
  | [], resultValues => .ok resultValues
  | .string convertedItem :: items, resultValues =>
      readStringArray.loop items (resultValues ++ [convertedItem])
  | _ :: _, _ => .error (.errorf "should be string in type")

/-- The function `readStringArray` (`util.go`, lines 54 to 77).  The call
`reflect.TypeOf(items).Kind()` panics when `items` is nil. -/
def readStringArray (data : List (String × Dyn)) (name : String) (required : Bool) :
    Res (List String) :=
  match mapGet data name with
  | none => if required then .error (.errorf "values are required") else .ok []
  | some .null => .panic "nil pointer dereference"
  | some (.slice items) => readStringArray.loop items []
  | some _ => .error (.errorf "should be an array in type")

/-! ## The schema compiler (`parser.go`) -/

/-- The struct `avroReferenceSchema` as kept in `schemaBuilder.references`. -/
structure avroReferenceSchema where
  name : String
  ref : Option ItemSchema

/-- The struct `schemaBuilder`. -/
structure schemaBuilder where
  references : List avroReferenceSchema
  namedSchemas : List (String × ItemSchema)

/-- Result of a sub-walk started at `data[name]`: `none` when the key is absent. -/
abbrev SubWalk (α : Type) := schemaBuilder → Option (Res (α × schemaBuilder))

/-- The method `readRecordField` (`parser.go`, lines 52 to 73); `readType` is the
call `builder.readSchemaElement(data["type"])`. -/
def schemaBuilder.readRecordField (readType : SubWalk ItemSchema)
    (data : List (String × Dyn)) (builder : schemaBuilder) :
    Res (AvroRecordField × schemaBuilder) :=
  match getStringValue data "name" true with
  | .ok name =>
      match getStringValue data "doc" false with
      | .ok doc =>
          match readType builder with
          | none => .error (.errorf "type is not found in avro field")
          | some (.ok (fieldType, builder')) =>
              match readStringArray data "aliases" false with
              | .ok aliases =>
                  .ok (.mk name doc fieldType ((mapGet data "default").getD .null) "" aliases,
                    builder')
              | .error err => .error err
              | .panic msg => .panic msg
              | .fuel => .fuel
          | some (.error err) => .error err
          | some (.panic msg) => .panic msg
          | some .fuel => .fuel
      | .error err => .error err
      | .panic msg => .panic msg
      | .fuel => .fuel
  | .error err => .error err
  | .panic msg => .panic msg
  | .fuel => .fuel

/-- The method `readRecord` (`parser.go`, lines 75 to 109); `readFields` is the
walk of `data["fields"]` (lines 93 to 106). -/
def schemaBuilder.readRecord (readFields : SubWalk (List AvroRecordField))
    (data : List (String × Dyn)) (builder : schemaBuilder) :
    Res (ItemSchema × schemaBuilder) :=
  match getStringValue data "name" true with
  | .ok name =>
      match getStringValue data "namespace" false with
      | .ok nspace =>
          match getStringValue data "doc" false with
          | .ok doc =>
              match readStringArray data "aliases" false with
              | .ok aliases =>
                  match (readFields builder).getD (.ok ([], builder)) with
                  | .ok (fields, builder') =>
                      let result := ItemSchema.AvroRecord name nspace doc aliases fields
                      .ok (result, { builder' with
                        namedSchemas := mapSet builder'.namedSchemas name result })
                  | .error err => .error err
                  | .panic msg => .panic msg
                  | .fuel => .fuel
              | .error err => .error err
              | .panic msg => .panic msg
              | .fuel => .fuel
          | .error err => .error err
          | .panic msg => .panic msg
          | .fuel => .fuel
      | .error err => .error err
      | .panic msg => .panic msg
      | .fuel => .fuel
  | .error err => .error err
  | .panic msg => .panic msg
  | .fuel => .fuel

/-- The method `readEnum` (`parser.go`, lines 111 to 138). -/
def schemaBuilder.readEnum (data : List (String × Dyn)) (builder : schemaBuilder) :
    Res (ItemSchema × schemaBuilder) :=
  match getStringValue data "name" true with
  | .ok name =>
      match getStringValue data "namespace" false with
      | .ok nspace =>
          match getStringValue data "doc" false with
          | .ok doc =>
              match readStringArray data "aliases" false with
              | .ok aliases =>
                  match (match mapGet data "default" with
                      | none => Res.ok none
                      | some (.string defaultValueString) => Res.ok (some defaultValueString)
                      | some _ => Res.error (.errorf "default value should be string")) with
                  | .ok defaultValue =>
                      match readStringArray data "symbols" true with
                      | .ok symbols =>
                          let result :=
                            ItemSchema.AvroEnum name nspace aliases doc symbols defaultValue
                          .ok (result, { builder with
                            namedSchemas := mapSet builder.namedSchemas name result })
                      | .error err => .error err
                      | .panic msg => .panic msg
                      | .fuel => .fuel
                  | .error err => .error err
                  | .panic msg => .panic msg
                  | .fuel => .fuel
              | .error err => .error err
              | .panic msg => .panic msg
              | .fuel => .fuel
          | .error err => .error err
          | .panic msg => .panic msg
          | .fuel => .fuel
      | .error err => .error err
      | .panic msg => .panic msg
      | .fuel => .fuel
  | .error err => .error err
  | .panic msg => .panic msg
  | .fuel => .fuel

/-- The method `readArray` (`parser.go`, lines 140 to 150); `readItems` is the
call `builder.readSchemaElement(data["items"])`. -/
def schemaBuilder.readArray (readItems : SubWalk ItemSchema) (builder : schemaBuilder) :
    Res (ItemSchema × schemaBuilder) :=
  match readItems builder with
  | none => .error (.errorf "items schema is not set for array")
  | some (.ok (itemSchema, builder')) => .ok (.AvroArray itemSchema, builder')
  | some (.error err) => .error err
  | some (.panic msg) => .panic msg
  | some .fuel => .fuel

/-- The method `readMap` (`parser.go`, lines 152 to 162); `readValues` is the
call `builder.readSchemaElement(data["values"])`. -/
def schemaBuilder.readMap (readValues : SubWalk ItemSchema) (builder : schemaBuilder) :
    Res (ItemSchema × schemaBuilder) :=
  match readValues builder with
  | none => .error (.errorf "values schema is not set for map")
  | some (.ok (values, builder')) => .ok (.AvroMap values, builder')
  | some (.error err) => .error err
  | some (.panic msg) => .panic msg
  | some .fuel => .fuel

/-- The method `readFixed` (`parser.go`, lines 164 to 184). -/
def schemaBuilder.readFixed (data : List (String × Dyn)) (builder : schemaBuilder) :
    Res (ItemSchema × schemaBuilder) :=
  match getStringValue data "name" true with
  | .ok name =>
      match getStringValue data "namespace" false with
      | .ok nspace =>
          match getStringValue data "doc" false with
          | .ok doc =>
              match readStringArray data "aliases" false with
              | .ok aliases =>
                  match getIntValue data "size" true with
                  | .ok size =>
                      let result := ItemSchema.AvroFixed name nspace aliases doc size
                      .ok (result, { builder with
                        namedSchemas := mapSet builder.namedSchemas name result })
                  | .error err => .error err
                  | .panic msg => .panic msg
                  | .fuel => .fuel
              | .error err => .error err
              | .panic msg => .panic msg
              | .fuel => .fuel
          | .error err => .error err
          | .panic msg => .panic msg
          | .fuel => .fuel
      | .error err => .error err
      | .panic msg => .panic msg
      | .fuel => .fuel
  | .error err => .error err
  | .panic msg => .panic msg
  | .fuel => .fuel

/-- The primitive cases of the `switch typeName` (`parser.go`, lines 213 to
228). -/
def primitiveSchema (typeName : String) : Option ItemSchema :=
  if typeName = "null" then some .AvroNull
  else if typeName = "boolean" then some .AvroBoolean
  else if typeName = "int" then some .AvroInt
  else if typeName = "long" then some .AvroLong
  else if typeName = "float" then some .AvroFloat
  else if typeName = "double" then some .AvroDouble
  else if typeName = "bytes" then some .AvroBytes
  else if typeName = "string" then some .AvroString
  else none

/-- The `default` case of the `switch typeName` (`parser.go`, lines 239 to
243): a placeholder is appended to `builder.references` and a copy of it is
returned. -/
def schemaBuilder.readReference (typeName : String) (builder : schemaBuilder) :
    Res (ItemSchema × schemaBuilder) :=
  let fake : avroReferenceSchema := { name := typeName, ref := none }
  .ok (.avroReferenceSchema fake.name fake.ref,
    { builder with references := builder.references ++ [fake] })

mutual
/-- The method `readSchemaElement` (`parser.go`, lines 186 to 244).  The call
`reflect.TypeOf(schema).Kind()` panics when `schema` is nil. -/
def schemaBuilder.readSchemaElement : Dyn → schemaBuilder → Res (ItemSchema × schemaBuilder)
  | .null, _ => .panic "nil pointer dereference"
  | .slice schemaItems, builder =>
      match schemaBuilder.readUnion schemaItems [] builder with
      | .ok (schemas, builder') => .ok (.AvroUnion schemas, builder')
      | .error err => .error err
      | .panic msg => .panic msg
      | .fuel => .fuel
  | .string typeName, builder =>
      match primitiveSchema typeName with
      | some node => .ok (node, builder)
      | none =>
          if typeName = "record" then
            schemaBuilder.readRecord (fun _ => none) [] builder
          else if typeName = "enum" then schemaBuilder.readEnum [] builder
          else if typeName = "array" then schemaBuilder.readArray (fun _ => none) builder
          else if typeName = "map" then schemaBuilder.readMap (fun _ => none) builder
          else if typeName = "fixed" then schemaBuilder.readFixed [] builder
          else schemaBuilder.readReference typeName builder
  | .map m, builder =>
      match mapGet m "type" with
      | none => .error (.errorf "failed to parse type of schema")
      | some (.string typeName) =>
          match primitiveSchema typeName with
          | some node => .ok (node, builder)
          | none =>
              if typeName = "record" then
                schemaBuilder.readRecord (schemaBuilder.readFieldsAt m) m builder
              else if typeName = "enum" then schemaBuilder.readEnum m builder
              else if typeName = "array" then
                schemaBuilder.readArray (schemaBuilder.readSchemaElementAt "items" m) builder
              else if typeName = "map" then
                schemaBuilder.readMap (schemaBuilder.readSchemaElementAt "values" m) builder
              else if typeName = "fixed" then schemaBuilder.readFixed m builder
              else schemaBuilder.readReference typeName builder
      | some _ => .error (.errorf "type name is expected to be string")
  | _, _ => .error (.errorf "kind of element is not supported to recover schema")
/-- The loop of `readUnion` (`parser.go`, lines 40 to 50) over the items left. -/
def schemaBuilder.readUnion :
    List Dyn → List ItemSchema → schemaBuilder → Res (List ItemSchema × schemaBuilder)
  | [], schemas, builder => .ok (schemas, builder)
  | elem :: schemaItems, schemas, builder =>
      match schemaBuilder.readSchemaElement elem builder with
      | .ok (value, builder') => schemaBuilder.readUnion schemaItems (schemas ++ [value]) builder'
      | .error err => .error err
      | .panic msg => .panic msg
      | .fuel => .fuel
/-- The call `builder.readSchemaElement(data[name])` when `data[name]` exists. -/
def schemaBuilder.readSchemaElementAt :
    String → List (String × Dyn) → SubWalk ItemSchema
  | _, [], _ => none
  | name, (key, value) :: data, builder =>
      if key = name then some (schemaBuilder.readSchemaElement value builder)
      else schemaBuilder.readSchemaElementAt name data builder
/-- The walk of `data["fields"]` in `readRecord` when the key exists. -/
def schemaBuilder.readFieldsAt : List (String × Dyn) → SubWalk (List AvroRecordField)
  | [], _ => none
  | (key, value) :: data, builder =>
      if key = "fields" then some (schemaBuilder.readFieldsValue value builder)
      else schemaBuilder.readFieldsAt data builder
/-- The kind test and the type assertion on `fields` (`parser.go`, lines 94 to
97); `reflect.TypeOf(fields).Kind()` panics when `fields` is nil. -/
def schemaBuilder.readFieldsValue :
    Dyn → schemaBuilder → Res (List AvroRecordField × schemaBuilder)
  | .null, _ => .panic "nil pointer dereference"
  | .slice fields, builder => schemaBuilder.readFieldList fields [] builder
  | _, _ => .error (.errorf "fields should be an array in type")
/-- The loop over `fields` in `readRecord` (`parser.go`, lines 97 to 105). -/
def schemaBuilder.readFieldList :
    List Dyn → List AvroRecordField → schemaBuilder →
      Res (List AvroRecordField × schemaBuilder)
  | [], fields, builder => .ok (fields, builder)
  | .map fieldDataMap :: rest, fields, builder =>
      match schemaBuilder.readRecordField
          (schemaBuilder.readSchemaElementAt "type" fieldDataMap) fieldDataMap builder with
      | .ok (fieldObject, builder') =>
          schemaBuilder.readFieldList rest (fields ++ [fieldObject]) builder'
      | .error err => .error err
      | .panic msg => .panic msg
      | .fuel => .fuel
  | _ :: _, _, _ => .error (.errorf "field data should be a map")
end

/-- The resolution loop of `schemaBuilder.read` (`parser.go`, lines 30 to 36).
The loop variable `reference` is a copy of the list element, so the assignment
`reference.ref = actualSchema` changes neither `builder.references` nor the
tree. -/
def schemaBuilder.resolve (namedSchemas : List (String × ItemSchema)) :
    List avroReferenceSchema → Res Unit
  | [] => .ok ()
  | reference :: references =>
      match mapGet namedSchemas reference.name with
      | some actualSchema =>
          let _reference : avroReferenceSchema := { reference with ref := some actualSchema }
          schemaBuilder.resolve namedSchemas references
      | none => .error (.errorf "failed to find reference to schema with name")

/-- The method `schemaBuilder.read` (`parser.go`, lines 23 to 38). -/
def schemaBuilder.read (schema : Dyn) (builder : schemaBuilder) : Res ItemSchema :=
  match schemaBuilder.readSchemaElement schema builder with
  | .ok (root, builder') =>
      match schemaBuilder.resolve builder'.namedSchemas builder'.references with
      | .ok _ => .ok root
      | .error err => .error err
      | .panic msg => .panic msg
      | .fuel => .fuel
  | .error err => .error err
  | .panic msg => .panic msg
  | .fuel => .fuel

/-- The function `ParseSchema` (`parser.go`, lines 246 to 252). -/
def ParseSchema (schema : Dyn) : Res ItemSchema :=
  schemaBuilder.read schema { references := [], namedSchemas := [] }

/-! ## The stream driver (`pkg/provider`, `cmd/avro-convert`) -/

/-- The function `IsEof` (`eof.go`, lines 32 to 45) on a non-nil error: for a
wrapped error the unwrapped error is a different value and the search goes on;
for an error that unwraps to itself the answer is `false`. -/
def IsEof.chain : Err → Bool
  | .EOF => true
  | .wrap _ unwrapped => IsEof.chain unwrapped
  | .cyclic _ => false
  | _ => false

/-- The function `IsEof`; `none` is the nil error. -/
def IsEof : Option Err → Bool
  | none => false
  | some err => IsEof.chain err

/-- The struct `DataChunk`. -/
structure DataChunk where
  name : String
  schema : ItemSchema
  data : Value

/-- The function `NewDataChunk` (`chunk.go`, lines 22 to 28). -/
def NewDataChunk (name : String) (s : ItemSchema) (r : Reader) : Res DataChunk × Reader :=
  match s.Read r with
  | (.ok data, r') => (.ok { name := name, schema := s, data := data }, r')
  | (.error err, r') => (.error err, r')
  | (.panic msg, r') => (.panic msg, r')
  | (.fuel, r') => (.fuel, r')

/-- The method `StaticFileSchema.Next` (`processor.go`, lines 40 to 46). -/
def StaticFileSchema.Next (schema : ItemSchema) (reader : Reader) :
    Res (List DataChunk) × Reader :=
  match NewDataChunk "" schema reader with
  | (.ok chunk, r') => (.ok [chunk], r')
  | (.error err, r') => (.error err, r')
  | (.panic msg, r') => (.panic msg, r')
  | (.fuel, r') => (.fuel, r')

/-- The value that `displayData` (`main.go`, lines 49 to 71) serialises, appended
to the values written so far.  The JSON serialisation itself is not modelled. -/
def displayData (data : List DataChunk) (output : List Value) : List Value :=
  match data with
  | [] => output
  | [ch] =>
      if ch.name = "" then output ++ [ch.data]
      else output ++ [.record [(ch.name, ch.data)]]
  | _ => output ++ [.record (data.foldl (fun mp ch => mapSet mp ch.name ch.data) [])]

/-- How `main` ends. -/
inductive Exit where
  /-- The loop ended with `hasData = false`; `main` returns. -/
  | clean (output : List Value)
  /-- The statement `panic(err)` of line 41. -/
  | abort (err : Err) (output : List Value)
  /-- A run-time panic raised inside `Next`. -/
  | crash (msg : String) (output : List Value)
  /-- The step budget of the model ran out. -/
  | fuel (output : List Value)

/-- The reader wrapped by a `CountingReader`. -/
def Reader.reader : Reader → Reader
  | .source data => .source data
  | .pipe chunks => .pipe chunks
  | .counting _ reader => reader

/-- The loop of `main` (`main.go`, lines 33 to 46) for at most `fuel`
iterations, over the compiled schema of the stream converter. -/
def main.loop (schema : ItemSchema) : Nat → Reader → List Value → Exit
  | 0, _, output => .fuel output
  | fuel + 1, input, output =>
      let wrapper := NewCountingReader input
      match StaticFileSchema.Next schema wrapper with
      | (.ok data, wrapper') => main.loop schema fuel wrapper'.reader (displayData data output)
      | (.error err, wrapper') =>
          if IsEof (some err) ∧ wrapper'.ReadBytes = 0 then .clean output
          else .abort err output
      | (.panic msg, _) => .crash msg output
      | (.fuel, _) => .fuel output

/-! ## Notions used to state the properties -/

/-- The reader function `f` is positionally exact on sources that fill every
read: when it succeeds on such a source holding `B`, it succeeds with the same
value on the one holding `B` followed by `R`, and leaves `R` unread after what
it left of `B`. -/
def Frame {α : Type} (f : Reader → Res α × Reader) : Prop :=
  ∀ (B R : List Byte) (v : α) (r' : Reader), f (.source B) = (.ok v, r') →
    ∃ B', r' = .source B' ∧ f (.source (B ++ R)) = (.ok v, .source (B' ++ R))

/-- The reader function `f` stays within the step budget of the model and never
gives bytes back to the source. -/
def Tame {α : Type} (f : Reader → Res α × Reader) : Prop :=
  ∀ r, (f r).1 ≠ .fuel ∧ (f r).2.unread.length ≤ r.unread.length

/-- The reader function `f` consumes at least one byte whenever it succeeds. -/
def Consuming {α : Type} (f : Reader → Res α × Reader) : Prop :=
  ∀ r v r', f r = (.ok v, r') → r'.unread.length < r.unread.length

/-- The Avro encoding of a string or of bytes: the length as a long, then the
bytes. -/
def encodeString (s : List Byte) : List Byte := encodeLong s.length ++ s

/-- One key/value pair of a map as it stands on the wire: the key, the bytes of
the encoded value and the value these bytes stand for. -/
structure MapEntry where
  key : List Byte
  bytes : List Byte
  value : Value

/-- One block of a map on the wire.  With `hint = some h` the count is written
negative and followed by the byte-size long `h`. -/
structure MapBlock where
  hint : Option Int
  entries : List MapEntry

/-- The wire bytes of the pairs of a block. -/
def encodeEntries : List MapEntry → List Byte
  | [] => []
  | e :: es => encodeString e.key ++ e.bytes ++ encodeEntries es

/-- The wire bytes of the count (and byte-size hint) of a block. -/
def MapBlock.encodeHeader (b : MapBlock) : List Byte :=
  match b.hint with
  | none => encodeLong b.entries.length
  | some hint => encodeLong (-(b.entries.length : Int)) ++ encodeLong hint

/-- The wire bytes of a map: its blocks, then the zero count. -/
def encodeMapBlocks : List MapBlock → List Byte
  | [] => encodeLong 0
  | b :: bs => b.encodeHeader ++ encodeEntries b.entries ++ encodeMapBlocks bs

/-- A block is well formed for the value schema `values`: its count is not zero
and fits a long, its hint is a long other than -2^63, and every pair has a key
that can be allocated and value bytes that decode, completely, to the value. -/
def MapBlock.WellFormed (values : ItemSchema) (b : MapBlock) : Prop :=
  0 < b.entries.length ∧ (b.entries.length : Int) < 2 ^ 63 ∧
  (∀ hint, b.hint = some hint → -2 ^ 63 < hint ∧ hint < 2 ^ 63) ∧
  ∀ e ∈ b.entries, e.key.length ≤ maxAlloc ∧
    values.Read (.source e.bytes) = (.ok e.value, .source [])

/-- All pairs of the blocks in wire order. -/
def wireEntries : List MapBlock → List MapEntry
  | [] => []
  | b :: bs => b.entries ++ wireEntries bs

/-- The value of the last pair with key `k` among pairs in wire order. -/
def lastOnWire : List MapEntry → List Byte → Option Value
  | [], _ => none
  | e :: es, k =>
      match lastOnWire es k with
      | some v => some v
      | none => if e.key = k then some e.value else none

/-- The Go map after the assignments `m[e.key] = e.value` for the pairs in
order. -/
def mapOfEntries (m : List (List Byte × Value)) : List MapEntry → List (List Byte × Value)
  | [] => m
  | e :: es => mapOfEntries (mapSet m e.key e.value) es

/-- The schema document of the recursive linked list: the record `Node` with
the fields `value: int` and `next: ["null","Node"]`. -/
def linkedListDoc : Dyn :=
  .map [("type", .string "record"), ("name", .string "Node"),
    ("fields", .slice [
      .map [("name", .string "value"), ("type", .string "int")],
      .map [("name", .string "next"), ("type", .slice [.string "null", .string "Node"])]])]

/-- The tree that `ParseSchema` returns for `linkedListDoc`. -/
def linkedListTree : ItemSchema :=
  .AvroRecord "Node" "" "" [] [
    .mk "value" "" .AvroInt .null "" [],
    .mk "next" "" (.AvroUnion [.AvroNull, .avroReferenceSchema "Node" none]) .null "" []]

/-- A schema document with a reference that precedes the declaration of its
target: the union of the name `E` and the enum `E` with the symbol `A`. -/
def forwardReferenceDoc : Dyn :=
  .slice [.string "E",
    .map [("type", .string "enum"), ("name", .string "E"),
      ("symbols", .slice [.string "A"])]]

/-- The schema document of a record `R` with the fields `a: long` and
`b: long`. -/
def twoLongsDoc : Dyn :=
  .map [("type", .string "record"), ("name", .string "R"),
    ("fields", .slice [
      .map [("name", .string "a"), ("type", .string "long")],
      .map [("name", .string "b"), ("type", .string "long")]])]

/-- The tree that `ParseSchema` returns for `twoLongsDoc`. -/
def twoLongsTree : ItemSchema :=
  .AvroRecord "R" "" "" [] [
    .mk "a" "" .AvroLong .null "" [], .mk "b" "" .AvroLong .null "" []]

/-- The reader has no byte left: a read of one or more bytes returns `0, io.EOF`,
a read into an empty buffer returns `0, nil`, and the reader stays as it is. -/
def Reader.Exhausted (r : Reader) : Prop :=
  ∀ n, r.Read n = (([], if n = 0 then none else some .EOF), r)

/-- The three ways a node can behave on a source with no byte left. -/
inductive EmptyOutcome where
  /-- The node needs no byte. -/
  | succeeds
  /-- The node needs a byte. -/
  | fails
  /-- Before it asks for a byte, decoding reaches an unbound Reference or a Fixed
  whose size `make` rejects. -/
  | crashes
deriving DecidableEq, Repr

mutual
/-- The class of a node on a source with no byte left.  Null needs no byte, nor
does a Fixed of size 0; a Record goes through its fields in order and is decided
by the first field that needs a byte or crashes; a bound Reference behaves as
its target; every other node starts by reading. -/
def ItemSchema.onEmpty : ItemSchema → EmptyOutcome
  | .AvroNull => .succeeds
  | .AvroBoolean => .fails
  | .AvroInt => .fails
  | .AvroLong => .fails
  | .AvroFloat => .fails
  | .AvroDouble => .fails
  | .AvroBytes => .fails
  | .AvroString => .fails
  | .AvroRecord _ _ _ _ fields => AvroRecordField.onEmpty fields
  | .AvroEnum _ _ _ _ _ _ => .fails
  | .AvroArray _ => .fails
  | .AvroFixed _ _ _ _ size =>
      if makeslicePanics 1 size then .crashes else if size = 0 then .succeeds else .fails
  | .AvroUnion _ => .fails
  | .AvroMap _ => .fails
  | .avroReferenceSchema _ none => .crashes
  | .avroReferenceSchema _ (some ref) => ItemSchema.onEmpty ref
/-- The class of the first field type that does not succeed; `succeeds` when
every field type needs no byte. -/
def AvroRecordField.onEmpty : List AvroRecordField → EmptyOutcome
  | [] => .succeeds
  | .mk _ _ fieldType _ _ _ :: fields =>
      match ItemSchema.onEmpty fieldType with
      | .succeeds => AvroRecordField.onEmpty fields
      | .fails => .fails
      | .crashes => .crashes
end

/-- The library function `errors.Unwrap` on a non-nil error; `none` is nil. -/
def Err.Unwrap : Err → Option Err
  | .wrap _ err => some err
  | .cyclic msg => some (.cyclic msg)
  | _ => none

/-- The error reached from `err` by `n` calls of `errors.Unwrap`, when the chain
is that long. -/
def Err.unwrapN : Nat → Err → Option Err
  | 0, err => some err
  | n + 1, err =>
      match err.Unwrap with
      | some unwrapped => Err.unwrapN n unwrapped
      | none => none

/-- The field `name` of an `AvroRecordField`. -/
def AvroRecordField.name : AvroRecordField → String
  | .mk name _ _ _ _ _ => name

/-- The field `fieldType` of an `AvroRecordField`. -/
def AvroRecordField.fieldType : AvroRecordField → ItemSchema
  | .mk _ _ fieldType _ _ _ => fieldType

/-- The fields decode one after another, in the order of the list, from
consecutive positions: the first from `r`, each next one from where the one
before stopped, the last one stopping at `r'`; `values` pairs every field name
with the value decoded for it, in the same order. -/
def DecodesInOrder : List AvroRecordField → Reader → List (String × Value) → Reader → Prop
  | [], r, values, r' => values = [] ∧ r' = r
  | f :: fields, r, values, r' =>
      ∃ v r1 rest, values = (f.name, v) :: rest ∧ f.fieldType.Read r = (.ok v, r1) ∧
        DecodesInOrder fields r1 rest r'

/-- The Go map after the assignments `result[name] = value` for the pairs in
order, starting from the map `result`. -/
def recordOf (result : List (String × Value)) : List (String × Value) → List (String × Value)
  | [] => result
  | (name, value) :: rest => recordOf (mapSet result name value) rest

/-- The names that the `switch typeName` of `readSchemaElement` handles itself:
the eight primitive names and the five composite tags. -/
def reservedTypeNames : List String :=
  ["null", "boolean", "int", "long", "float", "double", "bytes", "string",
    "record", "enum", "array", "map", "fixed"]

/-- A schema document that declares the enum `E` twice: the union of the enum
`E` with the symbol `A` and the enum `E` with the symbol `B`. -/
def duplicateEnumDoc : Dyn :=
  .slice [
    .map [("type", .string "enum"), ("name", .string "E"), ("symbols", .slice [.string "A"])],
    .map [("type", .string "enum"), ("name", .string "E"), ("symbols", .slice [.string "B"])]]

/-- A schema document of a fixed type whose `size` is the Go `int` -1. -/
def negativeFixedDoc : Dyn :=
  .map [("type", .string "fixed"), ("name", .string "F"), ("size", .int (-1))]

mutual
/-- Every composite mapping that the walk of the schema document reaches has its
required attributes, the `fields` of a record aside: a record has `name`, each
of its field mappings has `name` and `type`, an enum has `name` and `symbols`,
an array has `items`, a map has `values`, a fixed has `name` and `size`; the
same holds inside the branches of a union, the `type` of a field, the `items`
of an array and the `values` of a map. -/
def Dyn.requiredPresent : Dyn → Bool
  | .slice schemaItems => Dyn.requiredPresentAll schemaItems
  | .map m =>
      match mapGet m "type" with
      | some (.string typeName) =>
          match primitiveSchema typeName with
          | some _ => true
          | none =>
              if typeName = "record" then
                (mapGet m "name").isSome && Dyn.requiredPresentFieldsAt m
              else if typeName = "enum" then
                (mapGet m "name").isSome && (mapGet m "symbols").isSome
              else if typeName = "array" then Dyn.requiredPresentAt "items" m
              else if typeName = "map" then Dyn.requiredPresentAt "values" m
              else if typeName = "fixed" then
                (mapGet m "name").isSome && (mapGet m "size").isSome
              else true
      | _ => true
  | _ => true
/-- Every schema document of the list satisfies `Dyn.requiredPresent`. -/
def Dyn.requiredPresentAll : List Dyn → Bool
  | [] => true
  | schema :: schemaItems => Dyn.requiredPresent schema && Dyn.requiredPresentAll schemaItems
/-- The attribute `data[name]` exists and satisfies `Dyn.requiredPresent`. -/
def Dyn.requiredPresentAt : String → List (String × Dyn) → Bool
  | _, [] => false
  | name, (key, value) :: data =>
      if key = name then Dyn.requiredPresent value else Dyn.requiredPresentAt name data
/-- The attribute `data["fields"]`, when it exists, satisfies
`Dyn.requiredPresentFieldsValue`. -/
def Dyn.requiredPresentFieldsAt : List (String × Dyn) → Bool
  | [] => true
  | (key, value) :: data =>
      if key = "fields" then Dyn.requiredPresentFieldsValue value
      else Dyn.requiredPresentFieldsAt data
/-- The field mappings of a `fields` sequence have `name` and `type`. -/
def Dyn.requiredPresentFieldsValue : Dyn → Bool
  | .slice fields => Dyn.requiredPresentFieldList fields
  | _ => true
/-- Every field mapping of the list has `name` and has a `type` that satisfies
`Dyn.requiredPresent`. -/
def Dyn.requiredPresentFieldList : List Dyn → Bool
  | [] => true
  | .map fieldDataMap :: rest =>
      (mapGet fieldDataMap "name").isSome && Dyn.requiredPresentAt "type" fieldDataMap
        && Dyn.requiredPresentFieldList rest
  | _ :: rest => Dyn.requiredPresentFieldList rest
end

/-- The attribute `data[name]` is absent or holds a value other than nil. -/
def notNilAt (data : List (String × Dyn)) (name : String) : Bool :=
  match mapGet data name with
  | some .null => false
  | _ => true

mutual
/-- No position that the walk of the schema document inspects with
`reflect.TypeOf` holds nil: the document itself, the branches of a union, the
`type` of a field, the `items` of an array and the `values` of a map are not
nil, and neither is an attribute `fields`, `aliases` or `symbols` that the walk
reads. -/
def Dyn.nilFree : Dyn → Bool
  | .null => false
  | .slice schemaItems => Dyn.nilFreeAll schemaItems
  | .map m =>
      match mapGet m "type" with
      | some (.string typeName) =>
          match primitiveSchema typeName with
          | some _ => true
          | none =>
              if typeName = "record" then notNilAt m "aliases" && Dyn.nilFreeFieldsAt m
              else if typeName = "enum" then notNilAt m "aliases" && notNilAt m "symbols"
              else if typeName = "array" then Dyn.nilFreeAt "items" m
              else if typeName = "map" then Dyn.nilFreeAt "values" m
              else if typeName = "fixed" then notNilAt m "aliases"
              else true
      | _ => true
  | _ => true
/-- Every schema document of the list satisfies `Dyn.nilFree`. -/
def Dyn.nilFreeAll : List Dyn → Bool
  | [] => true
  | schema :: schemaItems => Dyn.nilFree schema && Dyn.nilFreeAll schemaItems
/-- The attribute `data[name]`, when it exists, satisfies `Dyn.nilFree`. -/
def Dyn.nilFreeAt : String → List (String × Dyn) → Bool
  | _, [] => true
  | name, (key, value) :: data =>
      if key = name then Dyn.nilFree value else Dyn.nilFreeAt name data
/-- The attribute `data["fields"]`, when it exists, satisfies
`Dyn.nilFreeFieldsValue`. -/
def Dyn.nilFreeFieldsAt : List (String × Dyn) → Bool
  | [] => true
  | (key, value) :: data =>
      if key = "fields" then Dyn.nilFreeFieldsValue value else Dyn.nilFreeFieldsAt data
/-- The value of `fields` is not nil and its field mappings satisfy
`Dyn.nilFreeFieldList`. -/
def Dyn.nilFreeFieldsValue : Dyn → Bool
  | .null => false
  | .slice fields => Dyn.nilFreeFieldList fields
  | _ => true
/-- In every field mapping of the list the `type`, when it exists, satisfies
`Dyn.nilFree` and `aliases` is not nil. -/
def Dyn.nilFreeFieldList : List Dyn → Bool
  | [] => true
  | .map fieldDataMap :: rest =>
      Dyn.nilFreeAt "type" fieldDataMap && notNilAt fieldDataMap "aliases"
        && Dyn.nilFreeFieldList rest
  | _ :: rest => Dyn.nilFreeFieldList rest
end

/-- The schema document of an array of longs. -/
def longArrayDoc : Dyn :=
  .map [("type", .string "array"), ("items", .string "long")]

/-! # Theorems -/

/-! ## Zig-zag varints -/

theorem xor_ones {n a : Nat} (h : a < 2 ^ n) : a ^^^ (2 ^ n - 1) = 2 ^ n - 1 - a := by
  apply Nat.eq_of_testBit_eq
  intro i
  have e : 2 ^ n - 1 - a = 2 ^ n - (a + 1) := by omega
  rw [e, Nat.testBit_two_pow_sub_succ h, Nat.testBit_xor, Nat.testBit_two_pow_sub_one]
  by_cases hi : i < n
  · simp [hi]
  · have : a < 2 ^ i := lt_of_lt_of_le h (Nat.pow_le_pow_right (by decide) (by omega))
    simp [hi, Nat.testBit_lt_two_pow this]

theorem or_shift {s x : Nat} (y : Nat) (h : x < 2 ^ s) : x ||| (y <<< s) = x + y * 2 ^ s := by
  rw [Nat.shiftLeft_eq, Nat.or_comm, Nat.mul_comm y, ← Nat.mul_add_lt_is_or h, Nat.add_comm]

theorem ReadByte_cons (b : Byte) (rest : List Byte) :
    ReadByte (.source (b :: rest)) = (.ok b, .source rest) := by
  simp [ReadByte, Reader.Read]

theorem ReadByte_nil : ReadByte (.source []) = (.error .EOF, .source []) := by
  simp [ReadByte, Reader.Read]

theorem ReadUvarint_loop_last {n i x s : Nat} {b : Byte} {r r' : Reader}
    (hb : ReadByte r = (.ok b, r')) (h1 : b.val < 0x80)
    (h2 : ¬ (i = MaxVarintLen64 - 1 ∧ b.val > 1)) :
    ReadUvarint.loop (n + 1) i x s r = (.ok (x ||| u64 (b.val <<< s)), r') := by
  rw [ReadUvarint.loop, hb]
  simp only [h1, h2, if_true, if_false]

theorem ReadUvarint_loop_more {n i x s : Nat} {b : Byte} {r r' : Reader}
    (hb : ReadByte r = (.ok b, r')) (h1 : ¬ b.val < 0x80) :
    ReadUvarint.loop (n + 1) i x s r
      = ReadUvarint.loop n (i + 1) (x ||| u64 ((b.val &&& 0x7f) <<< s)) (s + 7) r' := by
  rw [ReadUvarint.loop, hb]
  simp only [h1, if_false]

theorem u64_shift {u s : Nat} (hu : u < 2 ^ (64 - s)) (hs : s ≤ 64) : u64 (u <<< s) = u <<< s := by
  unfold u64
  apply Nat.mod_eq_of_lt
  rw [Nat.shiftLeft_eq]
  have hpow : (2:Nat) ^ (64 - s) * 2 ^ s = 2 ^ 64 := by
    rw [← Nat.pow_add]; congr 1; omega
  calc u * 2 ^ s < 2 ^ (64 - s) * 2 ^ s :=
        Nat.mul_lt_mul_of_pos_right hu (Nat.two_pow_pos s)
    _ = 2 ^ 64 := hpow

theorem ReadUvarint_loop_encode (rest : List Byte) :
    ∀ (k i x s u : Nat), i + k = 9 → s = 7 * i → x < 2 ^ s → u < 2 ^ (64 - s) →
      ReadUvarint.loop (k + 1) i x s (.source (encodeUvarint.go k u ++ rest))
        = (.ok (x + u * 2 ^ s), .source rest) := by
  intro k
  induction k with
  | zero =>
    intro i x s u hi hs hx hu
    have hs63 : s = 63 := by omega
    subst hs63
    have hu2 : u < 2 := by simpa using hu
    have hmod : u % 128 = u := Nat.mod_eq_of_lt (by omega)
    simp only [encodeUvarint.go, List.singleton_append]
    rw [ReadUvarint_loop_last (ReadByte_cons _ _) (by simp only [hmod]; omega)
      (by simp only [hmod]; omega)]
    simp only [hmod]
    rw [u64_shift hu (by omega), or_shift u hx]
  | succ k ih =>
    intro i x s u hi hs hx hu
    have hs' : s ≤ 56 := by omega
    by_cases hsmall : u < 128
    · have hmod : u % 128 = u := Nat.mod_eq_of_lt hsmall
      simp only [encodeUvarint.go, hsmall, if_true, List.singleton_append]
      rw [ReadUvarint_loop_last (ReadByte_cons _ _) (by simp only [hmod]; omega)
        (by simp only [hmod, MaxVarintLen64]; omega)]
      simp only [hmod]
      rw [u64_shift hu (by omega), or_shift u hx]
    · have hand : (u % 128 + 128) &&& 127 = u % 128 := by
        have := Nat.and_pow_two_sub_one_eq_mod (u % 128 + 128) 7
        simp only [Nat.reducePow, Nat.add_one_sub_one] at this
        rw [this]; omega
      have hm : u % 128 < 128 := Nat.mod_lt _ (by decide)
      have hmu : u % 128 < 2 ^ (64 - s) :=
        lt_of_lt_of_le hm (by
          have : (128:Nat) = 2 ^ 7 := by decide
          rw [this]; exact Nat.pow_le_pow_right (by decide) (by omega))
      simp only [encodeUvarint.go, hsmall, if_false, List.cons_append]
      rw [ReadUvarint_loop_more (ReadByte_cons _ _) (by simp only []; omega)]
      simp only [hand]
      rw [u64_shift hmu (by omega), or_shift _ hx]
      have h128 : (2:Nat) ^ 7 = 128 := by decide
      have hp := Nat.two_pow_pos s
      have hx' : x + u % 128 * 2 ^ s < 2 ^ (s + 7) := by
        rw [Nat.pow_add, h128]
        nlinarith
      have hu' : u / 128 < 2 ^ (64 - (s + 7)) := by
        rw [Nat.div_lt_iff_lt_mul (by decide)]
        have : (2:Nat) ^ (64 - (s + 7)) * 128 = 2 ^ (64 - s) := by
          rw [← h128, ← Nat.pow_add]; congr 1; omega
        rw [this]; exact hu
      rw [ih (i + 1) _ (s + 7) (u / 128) (by omega) (by omega) hx' hu']
      congr 2
      rw [Nat.pow_add, h128]
      nlinarith [Nat.div_add_mod u 128]

theorem ReadUvarint_encodeUvarint (u : Nat) (hu : u < 2 ^ 64) (rest : List Byte) :
    ReadUvarint (.source (encodeUvarint u ++ rest)) = (.ok u, .source rest) := by
  unfold ReadUvarint encodeUvarint
  have := ReadUvarint_loop_encode rest 9 0 0 0 u (by omega) (by omega) (by simp) (by simpa using hu)
  simpa [MaxVarintLen64] using this

theorem zigzag_eq (v : Int) (h1 : -2 ^ 63 ≤ v) (h2 : v < 2 ^ 63) :
    (zigzag v : Int) = if 0 ≤ v then 2 * v else -2 * v - 1 := by
  unfold zigzag u64 uint64
  by_cases hv : 0 ≤ v
  · have : ¬ v < 0 := by omega
    simp only [this, hv, if_true, if_false, Nat.xor_zero, Nat.shiftLeft_eq]
    omega
  · have hv' : v < 0 := by omega
    simp only [hv', hv, if_true, if_false, Nat.shiftLeft_eq]
    rw [xor_ones (Nat.mod_lt _ (by decide))]
    omega

theorem zigzag_lt (v : Int) (h1 : -2 ^ 63 ≤ v) (h2 : v < 2 ^ 63) : zigzag v < 2 ^ 64 := by
  have h := zigzag_eq v h1 h2
  split at h <;> omega

theorem zigzagDecode_eq (u : Nat) (h : u < 2 ^ 64) :
    int64 ((u >>> 1) ^^^ u64 (2 ^ 64 - (u &&& 1)))
      = if u % 2 = 0 then (u / 2 : Int) else -(u / 2 : Int) - 1 := by
  unfold int64 u64
  rw [Nat.and_one_is_mod, Nat.shiftRight_eq_div_pow]
  by_cases hu : u % 2 = 0
  · simp only [hu, if_true, Nat.sub_zero, Nat.mod_self, Nat.xor_zero]
    have : u / 2 ^ 1 < 2 ^ 63 := by omega
    simp only [this, if_true]
    omega
  · have h1 : u % 2 = 1 := by omega
    have h3 : u / 2 ^ 1 < 2 ^ 64 := by omega
    have h2 : (2 ^ 64 - 1) % 2 ^ 64 = 2 ^ 64 - 1 := by decide
    simp only [h1, h2, if_false, one_ne_zero]
    rw [xor_ones h3]
    have : ¬ (2 ^ 64 - 1 - u / 2 ^ 1 < 2 ^ 63) := by omega
    simp only [this, if_false]
    omega

/-- Every long except the smallest one is read back from its encoding, whatever
follows it in the source. -/
theorem readLong_encodeLong (v : Int) (h1 : -2 ^ 63 < v) (h2 : v < 2 ^ 63)
    (rest : List Byte) :
    readLong (.source (encodeLong v ++ rest)) = (.ok v, .source rest) := by
  have hz := zigzag_eq v (by omega) h2
  have hlt := zigzag_lt v (by omega) h2
  unfold readLong encodeLong
  rw [ReadUvarint_encodeUvarint _ hlt]
  have hne : ¬ (zigzag v ≥ MaxUint64 ∨ zigzag v < 0) := by
    simp only [MaxUint64]
    split at hz <;> omega
  simp only [hne, if_false]
  rw [zigzagDecode_eq _ hlt]
  congr 2
  split at hz <;> split <;> omega

/-- The examples of the long round trip: 00, 01, 02, 03, 7f and 80 01 are read
as 0, -1, 1, -2, -64 and 64. -/
theorem readLong_examples :
    readLong (.source [0x00]) = (.ok 0, .source []) ∧
    readLong (.source [0x01]) = (.ok (-1), .source []) ∧
    readLong (.source [0x02]) = (.ok 1, .source []) ∧
    readLong (.source [0x03]) = (.ok (-2), .source []) ∧
    readLong (.source [0x7f]) = (.ok (-64), .source []) ∧
    readLong (.source [0x80, 0x01]) = (.ok 64, .source []) := by
  decide

/-- C1 (code defect): the Avro encoding of the smallest long, -2^63, is the ten
bytes ff ff ff ff ff ff ff ff ff 01, and `readLong` answers it with an error
instead of returning -2^63; the round trip fails for this value. -/
theorem C1_readLong_rejects_min_long :
    encodeLong (-2 ^ 63) = [0xff, 0xff, 0xff, 0xff, 0xff, 0xff, 0xff, 0xff, 0xff, 0x01] ∧
    readLong (.source (encodeLong (-2 ^ 63)))
      = (.error (.errorf "number is out of range for int32"), .source []) := by
  decide

/-- C2 (code defect): on the single byte 06 the long reader returns 3, which is
inside the int32 range, while `readInt` returns -2: `binary.ReadVarint` has
already zig-zag decoded the varint and `readInt` decodes it a second time. -/
theorem C2_readInt_disagrees_with_readLong :
    readLong (.source [0x06]) = (.ok 3, .source []) ∧
    readInt (.source [0x06]) = (.ok (-2), .source []) := by
  decide

/-- C3 (code defect): under the union of null and string, the bytes
02 06 66 6f 6f (discriminator 1, then the string foo) are not decoded as branch
1: `readInt` turns the discriminator into -1 and `AvroUnion.Read` fails,
although the string branch alone decodes 06 66 6f 6f to foo. -/
theorem C3_union_discriminator_misread :
    (ItemSchema.AvroUnion [.AvroNull, .AvroString]).Read
        (.source (encodeLong 1 ++ [0x06, 0x66, 0x6f, 0x6f]))
      = (.error (.errorf "union doesn't have element with index"),
          .source [0x06, 0x66, 0x6f, 0x6f]) ∧
    ItemSchema.AvroString.Read (.source [0x06, 0x66, 0x6f, 0x6f])
      = (.ok (.string [0x66, 0x6f, 0x6f]), .source []) := by
  constructor <;> rfl

/-- C4 (code defect): for an array of longs, the bytes 02 02 | 01 02 04 | 00
(a block of one item 1, a block with count -1, byte-size hint 1 and item 2, the
terminator) decode to the one-element sequence [2]: the second block is stored
from index 0 again and overwrites the first, so N+M = 2 items are not
returned. -/
theorem C4_array_second_block_overwrites :
    (ItemSchema.AvroArray .AvroLong).Read
        (.source (encodeLong 1 ++ encodeLong 1
          ++ (encodeLong (-1) ++ encodeLong 1 ++ encodeLong 2) ++ encodeLong 0))
      = (.ok (.slice [.int64 2]), .source []) := by
  rfl

/-! ## Positional exactness of the readers -/

theorem Frame.post {α β : Type} {f : Reader → Res α × Reader} (hf : Frame f)
    (F : Reader → Res β × Reader) (g : α → Res β)
    (hok : ∀ r v r', f r = (.ok v, r') → F r = (g v, r'))
    (hnot : ∀ r, (f r).1.isOk = false → (F r).1.isOk = false) : Frame F := by
  intro B R w r' h
  cases hfb : f (.source B) with
  | mk res r1 =>
    cases res with
    | ok v =>
      rw [hok _ _ _ hfb] at h
      obtain ⟨B', hB', hext⟩ := hf B R v r1 hfb
      injection h with h1 h2
      subst h2
      exact ⟨B', hB', by rw [hok _ _ _ hext, h1]⟩
    | error e =>
      have := hnot (.source B) (by rw [hfb]; rfl)
      rw [h] at this; exact absurd this (by simp [Res.isOk])
    | panic m =>
      have := hnot (.source B) (by rw [hfb]; rfl)
      rw [h] at this; exact absurd this (by simp [Res.isOk])
    | fuel =>
      have := hnot (.source B) (by rw [hfb]; rfl)
      rw [h] at this; exact absurd this (by simp [Res.isOk])

theorem ReadByte_frame : Frame ReadByte := by
  intro B R v r' h
  cases B with
  | nil => rw [ReadByte_nil] at h; cases h
  | cons b t =>
    rw [ReadByte_cons] at h
    injection h with h1 h2
    injection h1 with h1
    subst h1; subst h2
    exact ⟨t, rfl, by rw [List.cons_append, ReadByte_cons]⟩

theorem ReadUvarint_loop_frame : ∀ (n i x s : Nat), Frame (ReadUvarint.loop n i x s) := by
  intro n
  induction n with
  | zero => intro i x s B R v r' h; simp [ReadUvarint.loop] at h
  | succ n ih =>
    intro i x s B R v r' h
    cases B with
    | nil => simp [ReadUvarint.loop, ReadByte_nil] at h
    | cons b t =>
      rw [ReadUvarint.loop, ReadByte_cons] at h
      rw [List.cons_append, ReadUvarint.loop, ReadByte_cons]
      simp only [] at h ⊢
      split at h
      · split at h
        · cases h
        · rename_i h1 h2
          simp only [h1, h2, if_true, if_false]
          injection h with h3 h4
          subst h4
          exact ⟨t, rfl, by rw [h3]⟩
      · rename_i h1
        simp only [h1, if_false]
        exact ih _ _ _ t R v r' h

theorem ReadUvarint_frame : Frame ReadUvarint := ReadUvarint_loop_frame _ _ _ _

theorem readLong_frame : Frame readLong := by
  apply ReadUvarint_frame.post readLong (fun result =>
    if result ≥ MaxUint64 ∨ result < 0 then .error (.errorf "number is out of range for int32")
    else .ok (int64 ((result >>> 1) ^^^ u64 (2 ^ 64 - (result &&& 1)))))
  · intro r v r' h
    simp only [readLong, h]
    split <;> rfl
  · intro r h
    unfold readLong
    split <;> simp_all [Res.isOk]

theorem ReadVarint_frame : Frame ReadVarint := by
  apply ReadUvarint_frame.post ReadVarint (fun ux =>
    .ok (if ux &&& 1 ≠ 0 then -(int64 (ux >>> 1)) - 1 else int64 (ux >>> 1)))
  · intro r v r' h
    simp only [ReadVarint, h]
  · intro r h
    unfold ReadVarint
    split <;> simp_all [Res.isOk]

theorem readInt_frame : Frame readInt := by
  apply ReadVarint_frame.post readInt (fun result =>
    if result ≥ MaxUint32 ∨ result < 0 then .error (.errorf "number is out of range for int32")
    else .ok (int32 (Int.xor (result >>> 1) (-(Int.land result 1)))))
  · intro r v r' h
    simp only [readInt, h]
    split <;> rfl
  · intro r h
    unfold readInt
    split <;> simp_all [Res.isOk]

theorem Reader_Read_source_full {B : List Byte} {n : Nat} {got : List Byte} {r' : Reader}
    (R : List Byte) (h : (Reader.source B).Read n = ((got, none), r'))
    (hlen : got.length = n) :
    ∃ B', r' = .source B' ∧ (Reader.source (B ++ R)).Read n = ((got, none), .source (B' ++ R)) := by
  unfold Reader.Read at h ⊢
  by_cases hn : n = 0
  · simp only [hn, if_true] at h ⊢
    injection h with h1 h2
    subst h2
    exact ⟨B, rfl, by rw [h1]⟩
  · simp only [hn, if_false] at h ⊢
    cases B with
    | nil => simp at h
    | cons b t =>
      simp only [List.isEmpty_cons, Bool.false_eq_true, if_false, List.cons_append] at h ⊢
      injection h with h1 h2
      injection h1 with h1 _
      subst h2
      have hle : n ≤ (b :: t).length := by
        rw [← hlen, ← h1, List.length_take]; exact Nat.min_le_right _ _
      refine ⟨(b :: t).drop n, rfl, ?_⟩
      have e1 : List.take n (b :: (t ++ R)) = got := by
        rw [← List.cons_append, List.take_append_of_le_length hle, h1]
      have e2 : List.drop n (b :: (t ++ R)) = (b :: t).drop n ++ R := by
        rw [← List.cons_append, List.drop_append_of_le_length hle]
      rw [e1, e2]

theorem Reader_Read_source_reader (B : List Byte) (n : Nat) :
    ∃ B', ((Reader.source B).Read n).2 = .source B' := by
  unfold Reader.Read
  split
  · exact ⟨_, rfl⟩
  · split <;> exact ⟨_, rfl⟩

theorem makeslicePanics_false {elemSize : Nat} {len : Int}
    (h : ¬ makeslicePanics elemSize len = true) :
    0 ≤ len ∧ elemSize * len.toNat ≤ maxAlloc := by
  unfold makeslicePanics at h
  simp only [decide_eq_true_eq, not_or, not_lt] at h
  exact h

theorem makeslicePanics_neg {elemSize : Nat} {len : Int} (h : len < 0) :
    makeslicePanics elemSize len = true := by
  unfold makeslicePanics
  simp only [decide_eq_true_eq]
  exact Or.inl h

theorem makeslicePanics_of_le {elemSize : Nat} {len : Int} (h0 : 0 ≤ len)
    (h : elemSize * len.toNat ≤ maxAlloc) : makeslicePanics elemSize len = false := by
  unfold makeslicePanics
  simp only [decide_eq_false_iff_not, not_or, not_lt]
  exact ⟨h0, h⟩

theorem readLengthPrefixed_frame : Frame readLengthPrefixed := by
  intro B R v r' h
  unfold readLengthPrefixed at h ⊢
  cases hl : readLong (.source B) with
  | mk res r1 =>
    rw [hl] at h
    cases res with
    | ok length =>
      obtain ⟨B1, hB1, hext⟩ := readLong_frame B R length r1 hl
      subst hB1
      rw [hext]
      simp only [] at h ⊢
      by_cases hbig : makeslicePanics 1 length = true
      · simp [hbig] at h
      · have hneg := (makeslicePanics_false hbig).1
        simp only [hbig, Bool.false_eq_true, if_false] at h ⊢
        cases hr : (Reader.source B1).Read length.toNat with
        | mk out r2 =>
          obtain ⟨got, err⟩ := out
          rw [hr] at h
          cases err with
          | some e => simp at h
          | none =>
            simp only [] at h
            by_cases hlen : (got.length : Int) ≠ length
            · simp [hlen] at h
            · simp only [hlen, if_false] at h
              have hlen' : got.length = length.toNat := by omega
              obtain ⟨B2, hB2, hext2⟩ := Reader_Read_source_full R hr hlen'
              rw [hext2]
              simp only [hlen, if_false]
              injection h with h1 h2
              subst h2
              exact ⟨B2, hB2, by rw [h1]⟩
    | error e => simp at h
    | panic m => simp at h
    | fuel => simp at h

theorem AvroFixed_Read_frame (size : Int) : Frame (AvroFixed.Read size) := by
  intro B R v r' h
  unfold AvroFixed.Read at h ⊢
  by_cases hbig : makeslicePanics 1 size = true
  · simp [hbig] at h
  · have hneg := (makeslicePanics_false hbig).1
    simp only [hbig, Bool.false_eq_true, if_false] at h ⊢
    cases hr : (Reader.source B).Read size.toNat with
    | mk out r2 =>
      obtain ⟨got, err⟩ := out
      rw [hr] at h
      cases err with
      | some e => simp at h
      | none =>
        simp only [] at h
        by_cases hlen : (got.length : Int) ≠ size
        · simp [hlen] at h
        · simp only [hlen, if_false] at h
          have hlen' : got.length = size.toNat := by omega
          obtain ⟨B2, hB2, hext2⟩ := Reader_Read_source_full R hr hlen'
          rw [hext2]
          simp only [hlen, if_false]
          injection h with h1 h2
          subst h2
          exact ⟨B2, hB2, by rw [h1]⟩

theorem ReadFull_loop_nil_not_ok (fuel min : Nat) (buf : List Byte) (hlt : buf.length < min) :
    (ReadFull.loop fuel min buf (.source [])).1.isOk = false := by
  cases fuel with
  | zero => simp [ReadFull.loop, hlt, Res.isOk]
  | succ fuel =>
    have hn : min - buf.length ≠ 0 := by omega
    have hge : ¬ (buf.length ≥ min) := by omega
    simp only [ReadFull.loop, hlt, if_true, Reader.Read, hn, if_false, List.isEmpty_nil,
      List.length_nil, Nat.add_zero, hge]
    split <;> rfl

theorem ReadFull_loop_frame : ∀ (fuel min : Nat) (buf : List Byte),
    Frame (ReadFull.loop fuel min buf) := by
  intro fuel
  induction fuel with
  | zero =>
    intro min buf B R v r' h
    unfold ReadFull.loop at h ⊢
    split at h
    · cases h
    · rename_i hlt
      simp only [hlt, if_false]
      injection h with h1 h2
      subst h2
      exact ⟨B, rfl, by rw [h1]⟩
  | succ fuel ih =>
    intro min buf B R v r' h
    rw [ReadFull.loop] at h ⊢
    by_cases hlt : buf.length < min
    · simp only [hlt, if_true] at h ⊢
      have hn : min - buf.length ≠ 0 := by omega
      cases B with
      | nil =>
        exfalso
        simp only [Reader.Read, hn, if_false, List.isEmpty_nil, if_true, List.length_nil,
          Nat.add_zero] at h
        have hge : ¬ (buf.length ≥ min) := by omega
        simp only [hge, if_false] at h
        split at h <;> cases h
      | cons b t =>
        have hr : (Reader.source (b :: t)).Read (min - buf.length)
            = (((b :: t).take (min - buf.length), none),
                .source ((b :: t).drop (min - buf.length))) := by
          simp [Reader.Read, hn]
        rw [hr] at h
        simp only [] at h
        by_cases hle : min - buf.length ≤ (b :: t).length
        · have hlen : ((b :: t).take (min - buf.length)).length = min - buf.length :=
            List.length_take_of_le hle
          obtain ⟨B2, hB2, hext2⟩ := Reader_Read_source_full R hr hlen
          rw [hext2]
          simp only []
          injection hB2 with hB2
          rw [← hB2]
          exact ih _ _ _ R v r' h
        · exfalso
          have hdrop : (b :: t).drop (min - buf.length) = [] :=
            List.drop_eq_nil_of_le (by omega)
          rw [hdrop] at h
          have hshort : (buf ++ (b :: t).take (min - buf.length)).length < min := by
            rw [List.length_append, List.length_take]
            omega
          have := ReadFull_loop_nil_not_ok fuel min _ hshort
          rw [h] at this
          simp [Res.isOk] at this
    · simp only [hlt, if_false] at h ⊢
      injection h with h1 h2
      subst h2
      exact ⟨B, rfl, by rw [h1]⟩

theorem ReadFull_frame (n : Nat) : Frame (fun r => ReadFull r n) :=
  ReadFull_loop_frame n n []

theorem AvroBoolean_Read_frame : Frame AvroBoolean.Read := by
  apply ReadByte_frame.post AvroBoolean.Read
    (fun item => if item = 0 then .ok (.bool false) else .ok (.bool true))
  · intro r v r' h
    simp only [AvroBoolean.Read, h]
    split <;> rfl
  · intro r h
    unfold AvroBoolean.Read
    split <;> simp_all [Res.isOk]

theorem AvroFloat_Read_frame : Frame AvroFloat.Read := by
  apply (ReadFull_frame 4).post AvroFloat.Read (fun bs => .ok (.float32 (littleEndian bs)))
  · intro r v r' h
    simp only [AvroFloat.Read, h]
  · intro r h
    unfold AvroFloat.Read
    split <;> simp_all [Res.isOk]

theorem AvroDouble_Read_frame : Frame AvroDouble.Read := by
  apply (ReadFull_frame 8).post AvroDouble.Read (fun bs => .ok (.float64 (littleEndian bs)))
  · intro r v r' h
    simp only [AvroDouble.Read, h]
  · intro r h
    unfold AvroDouble.Read
    split <;> simp_all [Res.isOk]

theorem AvroBytes_Read_frame : Frame AvroBytes.Read := by
  apply readLengthPrefixed_frame.post AvroBytes.Read (fun result => .ok (.bytes result))
  · intro r v r' h
    simp only [AvroBytes.Read, h]
  · intro r h
    unfold AvroBytes.Read
    split <;> simp_all [Res.isOk]

theorem readString_frame : Frame readString := readLengthPrefixed_frame

theorem AvroString_Read_frame : Frame AvroString.Read := by
  apply readString_frame.post AvroString.Read (fun result => .ok (.string result))
  · intro r v r' h
    simp only [AvroString.Read, h]
  · intro r h
    unfold AvroString.Read
    split <;> simp_all [Res.isOk]

theorem AvroEnum_Read_frame (symbols : List String) (defaultValue : Option String) :
    Frame (AvroEnum.Read symbols defaultValue) := by
  apply readInt_frame.post (AvroEnum.Read symbols defaultValue) (fun value =>
      if value ≥ int32 symbols.length ∨ value < 0 then
        match defaultValue with
        | some d =>
            if value ≥ 0 then .ok (.symbolPtr d)
            else .error (.errorf "no enum constant defined")
        | none => .error (.errorf "no enum constant defined")
      else
        match symbols.get? value.toNat with
        | some s => .ok (.symbol s)
        | none => .panic "index out of range")
  · intro r v r' h
    simp only [AvroEnum.Read, h]
    split
    · split
      · split <;> rfl
      · rfl
    · split <;> rfl
  · intro r h
    unfold AvroEnum.Read
    split <;> simp_all [Res.isOk]

theorem readBlockHeader_frame (count : Int) : Frame (readBlockHeader count) := by
  intro B R v r' h
  unfold readBlockHeader at h ⊢
  by_cases hneg : count < 0
  · simp only [hneg, if_true] at h ⊢
    cases hl : readLong (.source B) with
    | mk res r1 =>
      rw [hl] at h
      cases res with
      | ok skip =>
        obtain ⟨B1, hB1, hext⟩ := readLong_frame B R skip r1 hl
        rw [hext]
        simp only [] at h ⊢
        injection h with h1 h2
        subst h2
        exact ⟨B1, hB1, by rw [h1]⟩
      | error e => simp at h
      | panic m => simp at h
      | fuel => simp at h
  · simp only [hneg, if_false] at h ⊢
    injection h with h1 h2
    subst h2
    exact ⟨B, rfl, by rw [h1]⟩

theorem AvroArray_items_frame {readItem : Reader → Res Value × Reader} (hf : Frame readItem) :
    ∀ (n idx : Nat) (result : List Value), Frame (AvroArray.items readItem n idx result) := by
  intro n
  induction n with
  | zero =>
    intro idx result B R v r' h
    simp only [AvroArray.items] at h ⊢
    injection h with h1 h2
    subst h2
    exact ⟨B, rfl, by rw [h1]⟩
  | succ n ih =>
    intro idx result B R v r' h
    rw [AvroArray.items] at h ⊢
    cases hi : readItem (.source B) with
    | mk res r1 =>
      rw [hi] at h
      cases res with
      | ok value =>
        obtain ⟨B1, hB1, hext⟩ := hf B R value r1 hi
        subst hB1
        rw [hext]
        simp only [] at h ⊢
        by_cases hidx : idx < result.length
        · simp only [hidx, if_true] at h ⊢
          exact ih _ _ B1 R v r' h
        · simp [hidx] at h
      | error e =>
        simp only [] at h
        split at h <;> cases h
      | panic m => simp at h
      | fuel => simp at h

theorem AvroArray_blocks_frame {readItem : Reader → Res Value × Reader} (hf : Frame readItem) :
    ∀ (fuel fuel' : Nat) (result : Option (List Value)) (B R : List Byte) (v : Value)
      (r' : Reader), fuel ≤ fuel' →
      AvroArray.blocks readItem fuel result (.source B) = (.ok v, r') →
      ∃ B', r' = .source B' ∧
        AvroArray.blocks readItem fuel' result (.source (B ++ R)) = (.ok v, .source (B' ++ R)) := by
  intro fuel
  induction fuel with
  | zero => intro fuel' result B R v r' _ h; simp [AvroArray.blocks] at h
  | succ fuel ih =>
    intro fuel' result B R v r' hle h
    obtain ⟨fuel'', rfl⟩ : ∃ k, fuel' = k + 1 := ⟨fuel' - 1, by omega⟩
    rw [AvroArray.blocks] at h ⊢
    cases hl : readLong (.source B) with
    | mk res r1 =>
      rw [hl] at h
      cases res with
      | ok count =>
        obtain ⟨B1, hB1, hext⟩ := readLong_frame B R count r1 hl
        subst hB1
        rw [hext]
        simp only [] at h ⊢
        by_cases hz : count = 0
        · simp only [hz, if_true] at h ⊢
          injection h with h1 h2
          subst h2
          exact ⟨B1, rfl, by rw [h1]⟩
        · simp only [hz, if_false] at h ⊢
          cases hh : readBlockHeader count (.source B1) with
          | mk res2 r2 =>
            rw [hh] at h
            cases res2 with
            | ok count' =>
              obtain ⟨B2, hB2, hext2⟩ := readBlockHeader_frame count B1 R count' r2 hh
              subst hB2
              rw [hext2]
              simp only [] at h ⊢
              by_cases hm : result.isNone ∧ makeslicePanics 16 count' = true
              · simp [hm] at h
              · simp only [hm, if_false] at h ⊢
                cases hit : AvroArray.items readItem count'.toNat 0
                    (result.getD (List.replicate count'.toNat Value.nil)) (.source B2) with
                | mk res3 r3 =>
                  rw [hit] at h
                  cases res3 with
                  | ok result' =>
                    obtain ⟨B3, hB3, hext3⟩ :=
                      AvroArray_items_frame hf _ _ _ B2 R result' r3 hit
                    subst hB3
                    rw [hext3]
                    simp only [] at h ⊢
                    exact ih fuel'' _ B3 R v r' (by omega) h
                  | error e => simp at h
                  | panic m => simp at h
                  | fuel => simp at h
            | error e => simp at h
            | panic m => simp at h
            | fuel => simp at h
      | error e => simp at h
      | panic m => simp at h
      | fuel => simp at h

theorem AvroMap_items_frame {readValue : Reader → Res Value × Reader} (hf : Frame readValue) :
    ∀ (n : Nat) (result : List (List Byte × Value)),
      Frame (AvroMap.items readValue n result) := by
  intro n
  induction n with
  | zero =>
    intro result B R v r' h
    simp only [AvroMap.items] at h ⊢
    injection h with h1 h2
    subst h2
    exact ⟨B, rfl, by rw [h1]⟩
  | succ n ih =>
    intro result B R v r' h
    rw [AvroMap.items] at h ⊢
    cases hs : readString (.source B) with
    | mk res r1 =>
      rw [hs] at h
      cases res with
      | ok name =>
        obtain ⟨B1, hB1, hext⟩ := readString_frame B R name r1 hs
        subst hB1
        rw [hext]
        simp only [] at h ⊢
        cases hi : readValue (.source B1) with
        | mk res2 r2 =>
          rw [hi] at h
          cases res2 with
          | ok value =>
            obtain ⟨B2, hB2, hext2⟩ := hf B1 R value r2 hi
            subst hB2
            rw [hext2]
            simp only [] at h ⊢
            exact ih _ B2 R v r' h
          | error e => simp at h
          | panic m => simp at h
          | fuel => simp at h
      | error e => simp at h
      | panic m => simp at h
      | fuel => simp at h

theorem AvroMap_blocks_frame {readValue : Reader → Res Value × Reader} (hf : Frame readValue) :
    ∀ (fuel fuel' : Nat) (result : List (List Byte × Value)) (B R : List Byte) (v : Value)
      (r' : Reader), fuel ≤ fuel' →
      AvroMap.blocks readValue fuel result (.source B) = (.ok v, r') →
      ∃ B', r' = .source B' ∧
        AvroMap.blocks readValue fuel' result (.source (B ++ R)) = (.ok v, .source (B' ++ R)) := by
  intro fuel
  induction fuel with
  | zero => intro fuel' result B R v r' _ h; simp [AvroMap.blocks] at h
  | succ fuel ih =>
    intro fuel' result B R v r' hle h
    obtain ⟨fuel'', rfl⟩ : ∃ k, fuel' = k + 1 := ⟨fuel' - 1, by omega⟩
    rw [AvroMap.blocks] at h ⊢
    cases hl : readLong (.source B) with
    | mk res r1 =>
      rw [hl] at h
      cases res with
      | ok count =>
        obtain ⟨B1, hB1, hext⟩ := readLong_frame B R count r1 hl
        subst hB1
        rw [hext]
        simp only [] at h ⊢
        by_cases hz : count = 0
        · simp only [hz, if_true] at h ⊢
          injection h with h1 h2
          subst h2
          exact ⟨B1, rfl, by rw [h1]⟩
        · simp only [hz, if_false] at h ⊢
          cases hh : readBlockHeader count (.source B1) with
          | mk res2 r2 =>
            rw [hh] at h
            cases res2 with
            | ok count' =>
              obtain ⟨B2, hB2, hext2⟩ := readBlockHeader_frame count B1 R count' r2 hh
              subst hB2
              rw [hext2]
              simp only [] at h ⊢
              cases hit : AvroMap.items readValue count'.toNat result (.source B2) with
              | mk res3 r3 =>
                rw [hit] at h
                cases res3 with
                | ok result' =>
                  obtain ⟨B3, hB3, hext3⟩ := AvroMap_items_frame hf _ _ B2 R result' r3 hit
                  subst hB3
                  rw [hext3]
                  simp only [] at h ⊢
                  exact ih fuel'' _ B3 R v r' (by omega) h
                | error e => simp at h
                | panic m => simp at h
                | fuel => simp at h
            | error e => simp at h
            | panic m => simp at h
            | fuel => simp at h
      | error e => simp at h
      | panic m => simp at h
      | fuel => simp at h

theorem Frame.ofInt {f : Reader → Res Int × Reader} (hf : Frame f) (c : Int → Value)
    (F : Reader → Res Value × Reader)
    (hF : ∀ r, F r = match f r with
      | (.ok v, r') => (.ok (c v), r')
      | (.error err, r') => (.error err, r')
      | (.panic msg, r') => (.panic msg, r')
      | (.fuel, r') => (.fuel, r')) : Frame F := by
  apply hf.post F (fun v => .ok (c v))
  · intro r v r' h
    rw [hF, h]
  · intro r h
    rw [hF]
    split <;> simp_all [Res.isOk]

mutual
theorem ItemSchema_Read_frame : ∀ (S : ItemSchema), Frame S.Read
  | .AvroNull => by
      intro B R v r' h
      simp only [ItemSchema.Read] at h ⊢
      injection h with h1 h2
      subst h2
      exact ⟨B, rfl, by rw [h1]⟩
  | .AvroBoolean => by
      intro B R v r' h
      simp only [ItemSchema.Read] at h ⊢
      exact AvroBoolean_Read_frame B R v r' h
  | .AvroInt => readInt_frame.ofInt Value.int32 _ (fun r => by simp only [ItemSchema.Read])
  | .AvroLong => readLong_frame.ofInt Value.int64 _ (fun r => by simp only [ItemSchema.Read])
  | .AvroFloat => by
      intro B R v r' h
      simp only [ItemSchema.Read] at h ⊢
      exact AvroFloat_Read_frame B R v r' h
  | .AvroDouble => by
      intro B R v r' h
      simp only [ItemSchema.Read] at h ⊢
      exact AvroDouble_Read_frame B R v r' h
  | .AvroBytes => by
      intro B R v r' h
      simp only [ItemSchema.Read] at h ⊢
      exact AvroBytes_Read_frame B R v r' h
  | .AvroString => by
      intro B R v r' h
      simp only [ItemSchema.Read] at h ⊢
      exact AvroString_Read_frame B R v r' h
  | .AvroRecord _ _ _ _ fields => by
      intro B R v r' h
      simp only [ItemSchema.Read] at h ⊢
      exact AvroRecord_ReadFields_frame fields [] B R v r' h
  | .AvroEnum _ _ _ _ symbols defaultValue => by
      intro B R v r' h
      simp only [ItemSchema.Read] at h ⊢
      exact AvroEnum_Read_frame symbols defaultValue B R v r' h
  | .AvroArray itemSchema => by
      intro B R v r' h
      simp only [ItemSchema.Read] at h ⊢
      exact AvroArray_blocks_frame (ItemSchema_Read_frame itemSchema) _ _ none B R v r'
        (by simp only [blockFuel, Reader.unread, List.length_append]; omega) h
  | .AvroFixed _ _ _ _ size => by
      intro B R v r' h
      simp only [ItemSchema.Read] at h ⊢
      exact AvroFixed_Read_frame size B R v r' h
  | .AvroUnion elements => by
      intro B R v r' h
      simp only [ItemSchema.Read] at h ⊢
      cases hi : readInt (.source B) with
      | mk res r1 =>
        rw [hi] at h
        cases res with
        | ok idx =>
          obtain ⟨B1, hB1, hext⟩ := readInt_frame B R idx r1 hi
          subst hB1
          rw [hext]
          simp only [] at h ⊢
          by_cases hidx : idx < 0 ∨ idx ≥ elements.length
          · simp [hidx] at h
          · simp only [hidx, if_false] at h ⊢
            exact AvroUnion_ReadElement_frame elements _ B1 R v r' h
        | error e => simp at h
        | panic m => simp at h
        | fuel => simp at h
  | .AvroMap values => by
      intro B R v r' h
      simp only [ItemSchema.Read] at h ⊢
      exact AvroMap_blocks_frame (ItemSchema_Read_frame values) _ _ [] B R v r'
        (by simp only [blockFuel, Reader.unread, List.length_append]; omega) h
  | .avroReferenceSchema _ none => by
      intro B R v r' h
      simp [ItemSchema.Read] at h
  | .avroReferenceSchema _ (some ref) => by
      intro B R v r' h
      simp only [ItemSchema.Read] at h ⊢
      exact ItemSchema_Read_frame ref B R v r' h
theorem AvroRecord_ReadFields_frame :
    ∀ (fields : List AvroRecordField) (result : List (String × Value)),
      Frame (AvroRecord.ReadFields fields result)
  | [], result => by
      intro B R v r' h
      simp only [AvroRecord.ReadFields] at h ⊢
      injection h with h1 h2
      subst h2
      exact ⟨B, rfl, by rw [h1]⟩
  | .mk name _ fieldType _ _ _ :: fields, result => by
      intro B R v r' h
      simp only [AvroRecord.ReadFields] at h ⊢
      cases hi : ItemSchema.Read fieldType (.source B) with
      | mk res r1 =>
        rw [hi] at h
        cases res with
        | ok value =>
          obtain ⟨B1, hB1, hext⟩ := ItemSchema_Read_frame fieldType B R value r1 hi
          subst hB1
          rw [hext]
          simp only [] at h ⊢
          exact AvroRecord_ReadFields_frame fields _ B1 R v r' h
        | error e => simp at h
        | panic m => simp at h
        | fuel => simp at h
theorem AvroUnion_ReadElement_frame :
    ∀ (elements : List ItemSchema) (idx : Nat), Frame (AvroUnion.ReadElement elements idx)
  | [], _ => by
      intro B R v r' h
      simp [AvroUnion.ReadElement] at h
  | element :: _, 0 => by
      intro B R v r' h
      simp only [AvroUnion.ReadElement] at h ⊢
      exact ItemSchema_Read_frame element B R v r' h
  | _ :: elements, idx + 1 => by
      intro B R v r' h
      simp only [AvroUnion.ReadElement] at h ⊢
      exact AvroUnion_ReadElement_frame elements idx B R v r' h
end

theorem ItemSchema_Read_append (S : ItemSchema) (B R : List Byte) (V : Value)
    (h : S.Read (.source B) = (.ok V, .source [])) :
    S.Read (.source (B ++ R)) = (.ok V, .source R) := by
  obtain ⟨B', hB', hext⟩ := ItemSchema_Read_frame S B R V _ h
  injection hB' with hB'
  subst hB'
  simpa using hext

/-- C8 (code defect): positional exactness fails on a source that delivers a
read in parts.  A pipe holding the string `ab` as the bytes 04 61 62 in one
chunk decodes to `ab` and is consumed; a pipe holding the same bytes followed
by ff, delivered as 04 61 and then 62 ff, makes the single `Read` of
`readString` return one byte of two, and decoding fails.  The same holds for
`AvroBytes.Read` and `AvroFixed.Read`.  `AvroFloat.Read`, which reads through
`io.ReadFull`, decodes across the same kind of split.  On a source that fills
every read the property holds (`ItemSchema_Read_append`). -/
theorem C8_short_read_breaks_exactness :
    ItemSchema.AvroString.Read (.pipe [[0x04, 0x61, 0x62]])
      = (.ok (.string [0x61, 0x62]), .pipe []) ∧
    (Reader.pipe [[0x04, 0x61], [0x62, 0xff]]).unread = [0x04, 0x61, 0x62] ++ [0xff] ∧
    ItemSchema.AvroString.Read (.pipe [[0x04, 0x61], [0x62, 0xff]])
      = (.error (.errorf "not enough bytes"), .pipe [[0x62, 0xff]]) ∧
    ItemSchema.AvroString.Read (.source ([0x04, 0x61, 0x62] ++ [0xff]))
      = (.ok (.string [0x61, 0x62]), .source [0xff]) ∧
    ItemSchema.AvroBytes.Read (.pipe [[0x04, 0x61], [0x62, 0xff]])
      = (.error (.errorf "not enough bytes"), .pipe [[0x62, 0xff]]) ∧
    (ItemSchema.AvroFixed "F" "" [] "" 2).Read (.pipe [[0x61], [0x62, 0xff]])
      = (.error (.errorf "number of fixed bytes read is not equal to expected"),
          .pipe [[0x62, 0xff]]) ∧
    ItemSchema.AvroFloat.Read (.pipe [[0x00, 0x00], [0x80, 0x3f, 0xff]])
      = (.ok (.float32 0x3f800000), .pipe [[0xff]]) := by
  refine ⟨rfl, rfl, rfl, rfl, rfl, rfl, rfl⟩

/-! ## Map blocks -/

theorem readString_encodeString (key rest : List Byte) (hmax : key.length ≤ maxAlloc) :
    readString (.source (encodeString key ++ rest)) = (.ok key, .source rest) := by
  have hlen : (key.length : Int) < 2 ^ 63 := by unfold maxAlloc at hmax; omega
  have hfits : makeslicePanics 1 (key.length : Int) = false :=
    makeslicePanics_of_le (by omega) (by simpa using hmax)
  unfold readString readLengthPrefixed encodeString
  rw [List.append_assoc]
  by_cases h0 : key.length = 0
  · have hk : key = [] := List.length_eq_zero.mp h0
    subst hk
    have : encodeLong ((([] : List Byte).length : Nat) : Int) = [0] := by decide
    rw [this]
    have hl : readLong (.source ([0] ++ ([] ++ rest))) = (.ok 0, .source rest) := by
      simp [readLong, ReadUvarint, ReadUvarint_loop_last (ReadByte_cons _ _), MaxVarintLen64,
        MaxUint64, u64, int64]
    rw [hl]
    have h1 : makeslicePanics 1 0 = false := by decide
    simp [Reader.Read, h1]
  · rw [readLong_encodeLong _ (by omega) hlen]
    simp only [hfits, Bool.false_eq_true, if_false, Int.toNat_ofNat]
    cases key with
    | nil => simp at h0
    | cons b t =>
      simp [Reader.Read]

theorem neg64_neg (n : Nat) (h1 : (n : Int) < 2 ^ 63) : neg64 (-(n : Int)) = n := by
  unfold neg64 uint64 int64
  rw [neg_neg]
  have h2 : ((n : Int) % 2 ^ 64).toNat = n := by omega
  rw [h2]
  have h3 : n < 2 ^ 63 := by omega
  rw [if_pos h3]

theorem encodeUvarint_go_length_pos (n u : Nat) : 0 < (encodeUvarint.go n u).length := by
  cases n with
  | zero => simp [encodeUvarint.go]
  | succ n =>
    unfold encodeUvarint.go
    split <;> simp

theorem encodeLong_length_pos (v : Int) : 0 < (encodeLong v).length :=
  encodeUvarint_go_length_pos _ _

theorem mapGet_mapSet {κ α : Type} [DecidableEq κ] (m : List (κ × α)) (k' k : κ) (v : α) :
    mapGet (mapSet m k' v) k = if k' = k then some v else mapGet m k := by
  induction m with
  | nil => simp [mapSet, mapGet]
  | cons e m ih =>
    obtain ⟨k0, v0⟩ := e
    unfold mapSet
    by_cases h1 : k0 = k'
    · subst h1
      simp only [if_true, mapGet]
      by_cases h2 : k0 = k <;> simp [h2]
    · simp only [h1, if_false, mapGet, ih]
      by_cases h2 : k0 = k
      · subst h2
        have : ¬ k' = k0 := fun h => h1 h.symm
        simp [this]
      · simp [h2]

theorem mapOfEntries_append (m : List (List Byte × Value)) (es fs : List MapEntry) :
    mapOfEntries m (es ++ fs) = mapOfEntries (mapOfEntries m es) fs := by
  induction es generalizing m with
  | nil => rfl
  | cons e es ih =>
    rw [List.cons_append, mapOfEntries, mapOfEntries]
    exact ih _

theorem mapGet_mapOfEntries (es : List MapEntry) (m : List (List Byte × Value)) (k : List Byte) :
    mapGet (mapOfEntries m es) k
      = match lastOnWire es k with
        | some v => some v
        | none => mapGet m k := by
  induction es generalizing m with
  | nil => simp [mapOfEntries, lastOnWire]
  | cons e es ih =>
    simp only [mapOfEntries, lastOnWire, ih, mapGet_mapSet]
    cases lastOnWire es k with
    | some v => rfl
    | none =>
      by_cases hk : e.key = k <;> simp [hk]

theorem AvroMap_items_encode (values : ItemSchema) :
    ∀ (es : List MapEntry) (m : List (List Byte × Value)) (rest : List Byte),
      (∀ e ∈ es, e.key.length ≤ maxAlloc ∧
        values.Read (.source e.bytes) = (.ok e.value, .source [])) →
      AvroMap.items values.Read es.length m (.source (encodeEntries es ++ rest))
        = (.ok (mapOfEntries m es), .source rest) := by
  intro es
  induction es with
  | nil => intro m rest _; simp [AvroMap.items, encodeEntries, mapOfEntries]
  | cons e es ih =>
    intro m rest h
    have he := h e (List.mem_cons_self _ _)
    simp only [List.length_cons, encodeEntries, List.append_assoc]
    rw [AvroMap.items, readString_encodeString _ _ he.1]
    simp only []
    rw [ItemSchema_Read_append values e.bytes _ e.value he.2]
    simp only []
    rw [mapOfEntries]
    exact ih _ _ (fun e' he' => h e' (List.mem_cons_of_mem _ he'))

theorem readLong_zero (rest : List Byte) :
    readLong (.source (encodeLong 0 ++ rest)) = (.ok 0, .source rest) := by
  have : encodeLong 0 = [0] := by decide
  rw [this]
  simp [readLong, ReadUvarint, ReadUvarint_loop_last (ReadByte_cons _ _), MaxVarintLen64,
    MaxUint64, u64, int64]

theorem readBlock_encodeHeader (b : MapBlock)
    (h0 : 0 < b.entries.length) (h1 : (b.entries.length : Int) < 2 ^ 63)
    (h2 : ∀ hint, b.hint = some hint → -2 ^ 63 < hint ∧ hint < 2 ^ 63) (rest : List Byte) :
    ∃ count : Int, count ≠ 0 ∧
      readLong (.source (b.encodeHeader ++ rest)) = (.ok count, .source
        (match b.hint with
          | none => rest
          | some hint => encodeLong hint ++ rest)) ∧
      readBlockHeader count (.source
        (match b.hint with
          | none => rest
          | some hint => encodeLong hint ++ rest))
        = (.ok (b.entries.length : Int), .source rest) := by
  unfold MapBlock.encodeHeader
  cases hh : b.hint with
  | none =>
    refine ⟨b.entries.length, by omega, ?_, ?_⟩
    · simp only []
      exact readLong_encodeLong _ (by omega) h1 rest
    · simp only [readBlockHeader]
      have : ¬ ((b.entries.length : Int) < 0) := by omega
      simp only [this, if_false]
  | some hint =>
    obtain ⟨h3, h4⟩ := h2 hint hh
    refine ⟨-(b.entries.length : Int), by omega, ?_, ?_⟩
    · simp only [List.append_assoc]
      exact readLong_encodeLong _ (by omega) (by omega) _
    · simp only [readBlockHeader]
      have : (-(b.entries.length : Int) < 0) := by omega
      simp only [this, if_true]
      rw [readLong_encodeLong _ h3 h4]
      simp only []
      rw [neg64_neg _ h1]

theorem AvroMap_blocks_encode (values : ItemSchema) :
    ∀ (blocks : List MapBlock) (fuel : Nat) (m : List (List Byte × Value)) (rest : List Byte),
      blocks.length < fuel → (∀ b ∈ blocks, b.WellFormed values) →
      AvroMap.blocks values.Read fuel m (.source (encodeMapBlocks blocks ++ rest))
        = (.ok (.map (mapOfEntries m (wireEntries blocks))), .source rest) := by
  intro blocks
  induction blocks with
  | nil =>
    intro fuel m rest hf _
    obtain ⟨fuel', rfl⟩ : ∃ k, fuel = k + 1 := ⟨fuel - 1, by simp at hf; omega⟩
    rw [encodeMapBlocks, AvroMap.blocks, readLong_zero]
    simp [wireEntries, mapOfEntries]
  | cons b bs ih =>
    intro fuel m rest hf hwf
    obtain ⟨fuel', rfl⟩ : ∃ k, fuel = k + 1 := ⟨fuel - 1, by simp at hf; omega⟩
    obtain ⟨h0, h1, h2, h3⟩ := hwf b (List.mem_cons_self _ _)
    rw [encodeMapBlocks, List.append_assoc, List.append_assoc, AvroMap.blocks]
    obtain ⟨count, hc, hl, hh⟩ := readBlock_encodeHeader b h0 h1 h2
      (encodeEntries b.entries ++ (encodeMapBlocks bs ++ rest))
    rw [hl]
    simp only [hc, if_false]
    rw [hh]
    simp only [Int.toNat_ofNat]
    rw [AvroMap_items_encode values b.entries m _ h3]
    simp only []
    rw [wireEntries, mapOfEntries_append]
    exact ih fuel' _ rest (by simp at hf; omega) (fun b' hb' => hwf b' (List.mem_cons_of_mem _ hb'))

theorem encodeMapBlocks_length (blocks : List MapBlock) :
    blocks.length < (encodeMapBlocks blocks).length := by
  induction blocks with
  | nil => simpa [encodeMapBlocks] using encodeLong_length_pos 0
  | cons b bs ih =>
    have hh : 0 < b.encodeHeader.length := by
      unfold MapBlock.encodeHeader
      split
      · exact encodeLong_length_pos _
      · rw [List.length_append]
        have := encodeLong_length_pos (-(b.entries.length : Int))
        omega
    simp only [encodeMapBlocks, List.length_append, List.length_cons]
    omega

theorem AvroMap_Read_encodeMapBlocks (values : ItemSchema) (blocks : List MapBlock)
    (rest : List Byte) (hwf : ∀ b ∈ blocks, b.WellFormed values) :
    ∃ m, (ItemSchema.AvroMap values).Read (.source (encodeMapBlocks blocks ++ rest))
        = (.ok (.map m), .source rest) ∧
      ∀ k, mapGet m k = lastOnWire (wireEntries blocks) k := by
  refine ⟨mapOfEntries [] (wireEntries blocks), ?_, ?_⟩
  · simp only [ItemSchema.Read]
    apply AvroMap_blocks_encode values blocks _ [] rest _ hwf
    have := encodeMapBlocks_length blocks
    simp only [blockFuel, Reader.unread, List.length_append]
    omega
  · intro k
    rw [mapGet_mapOfEntries]
    cases lastOnWire (wireEntries blocks) k <;> simp [mapGet]

/-- C5 (code defect): the well-formed map of longs with the one pair `ab` ↦ 1,
bytes 02 04 61 62 02 00, decodes from a source that fills every read, but not
from a pipe that delivers 02 04 61 and then 62 02 00: the single `Read` of
`readString` returns one byte of the key and `AvroMap.Read` fails with
`not enough bytes`, where the map `ab` ↦ 1 is due.  On a source that fills
every read, blocks do accumulate (`AvroMap_Read_encodeMapBlocks`). -/
theorem C5_map_key_split_by_short_read :
    encodeMapBlocks [⟨none, [⟨[0x61, 0x62], [0x02], .int64 1⟩]⟩]
      = [0x02, 0x04, 0x61, 0x62, 0x02, 0x00] ∧
    (ItemSchema.AvroMap .AvroLong).Read (.source [0x02, 0x04, 0x61, 0x62, 0x02, 0x00])
      = (.ok (.map [([0x61, 0x62], .int64 1)]), .source []) ∧
    (Reader.pipe [[0x02, 0x04, 0x61], [0x62, 0x02, 0x00]]).unread
      = [0x02, 0x04, 0x61, 0x62, 0x02, 0x00] ∧
    (ItemSchema.AvroMap .AvroLong).Read (.pipe [[0x02, 0x04, 0x61], [0x62, 0x02, 0x00]])
      = (.error (.wrap "failed to read name in map" (.errorf "not enough bytes")),
          .pipe [[0x62, 0x02, 0x00]]) := by
  refine ⟨by decide, rfl, rfl, rfl⟩

/-! ## Compilation of references -/

/-- C6 (code defect): `ParseSchema` accepts the linked-list record `Node`, but
the Reference node of the returned tree is left with a nil `ref`: the resolution
loop assigns to a copy.  Decoding through an unbound Reference dereferences nil,
so a list element whose `next` selects the `Node` branch makes the decoder
panic instead of decoding with the record. -/
theorem C6_reference_left_unbound :
    ParseSchema linkedListDoc = .ok linkedListTree ∧
    (∀ r, (ItemSchema.avroReferenceSchema "Node" none).Read r
      = (.panic "nil pointer dereference", r)) ∧
    linkedListTree.Read (.source [0x02, 0x04, 0x04, 0x00])
      = (.panic "nil pointer dereference", .source [0x04, 0x00]) := by
  refine ⟨rfl, fun r => ?_, rfl⟩
  simp only [ItemSchema.Read]

theorem schemaBuilder_resolve_ok (namedSchemas : List (String × ItemSchema)) :
    ∀ (references : List avroReferenceSchema),
      (∀ ref ∈ references, ∃ node, mapGet namedSchemas ref.name = some node) →
      schemaBuilder.resolve namedSchemas references = .ok () := by
  intro references
  induction references with
  | nil => intro _; rfl
  | cons reference references ih =>
    intro h
    obtain ⟨node, hnode⟩ := h reference (List.mem_cons_self _ _)
    rw [schemaBuilder.resolve, hnode]
    exact ih (fun ref href => h ref (List.mem_cons_of_mem _ href))

theorem schemaBuilder_resolve_error (namedSchemas : List (String × ItemSchema)) :
    ∀ (references : List avroReferenceSchema),
      (∃ ref ∈ references, mapGet namedSchemas ref.name = none) →
      schemaBuilder.resolve namedSchemas references
        = .error (.errorf "failed to find reference to schema with name") := by
  intro references
  induction references with
  | nil => intro h; obtain ⟨ref, href, _⟩ := h; cases href
  | cons reference references ih =>
    intro h
    rw [schemaBuilder.resolve]
    cases hl : mapGet namedSchemas reference.name with
    | none => rfl
    | some node =>
      simp only []
      apply ih
      obtain ⟨ref, href, hnone⟩ := h
      rcases List.mem_cons.mp href with rfl | hmem
      · rw [hl] at hnone; cases hnone
      · exact ⟨ref, hmem, hnone⟩

/-- C7: for every schema document whose recursive walk succeeds (with root
`root`, deferred references `b.references` and registry `b.namedSchemas`),
`ParseSchema` returns an error when some deferred Reference has a name absent
from the registry, and returns the walked root when every deferred Reference
has a registered name.  The registry is the one left by the whole walk, so a
reference that precedes the declaration of its target is accepted. -/
theorem C7_unresolved_reference_fails (doc : Dyn) (root : ItemSchema) (b : schemaBuilder)
    (hwalk : schemaBuilder.readSchemaElement doc { references := [], namedSchemas := [] }
      = .ok (root, b)) :
    ((∃ ref ∈ b.references, mapGet b.namedSchemas ref.name = none) →
      ParseSchema doc = .error (.errorf "failed to find reference to schema with name")) ∧
    ((∀ ref ∈ b.references, ∃ node, mapGet b.namedSchemas ref.name = some node) →
      ParseSchema doc = .ok root) := by
  constructor
  · intro h
    simp only [ParseSchema, schemaBuilder.read, hwalk, schemaBuilder_resolve_error _ _ h]
  · intro h
    simp only [ParseSchema, schemaBuilder.read, hwalk, schemaBuilder_resolve_ok _ _ h]

/-- Witness of C7: the union of the name `E` and the enum `E` declared after it
compiles, and the union holding only the name `E` does not. -/
theorem C7_unresolved_reference_fails_witness :
    ParseSchema forwardReferenceDoc
      = .ok (.AvroUnion [.avroReferenceSchema "E" none,
          .AvroEnum "E" "" [] "" ["A"] none]) ∧
    ParseSchema (.slice [.string "E"])
      = .error (.errorf "failed to find reference to schema with name") :=
  ⟨(C7_unresolved_reference_fails forwardReferenceDoc
      (.AvroUnion [.avroReferenceSchema "E" none, .AvroEnum "E" "" [] "" ["A"] none])
      { references := [{ name := "E", ref := none }],
        namedSchemas := [("E", .AvroEnum "E" "" [] "" ["A"] none)] } rfl).2
      (by
        intro ref href
        simp only [List.mem_singleton] at href
        subst href
        exact ⟨_, rfl⟩),
    (C7_unresolved_reference_fails (.slice [.string "E"])
      (.AvroUnion [.avroReferenceSchema "E" none])
      { references := [{ name := "E", ref := none }], namedSchemas := [] } rfl).1
      ⟨{ name := "E", ref := none }, List.mem_singleton.mpr rfl, rfl⟩⟩

/-! ## The driver -/

/-- C10 (code defect): for the record `R` of two longs and the one-byte stream
02, the first iteration reads the field `a` (the byte is consumed, nothing is
left unread) and fails with end of file at the field `b`.  The counter of the
`CountingReader` is still 0, because it is advanced only by reads that return an
error, so the driver ends cleanly with no output instead of aborting on the
truncated value. -/
theorem C10_truncated_value_ends_cleanly :
    ParseSchema twoLongsDoc = .ok twoLongsTree ∧
    StaticFileSchema.Next twoLongsTree (NewCountingReader (.source [0x02]))
      = (.error (.wrap "failed reading field in type" (.wrap "failed to read value" .EOF)),
          .counting 0 (.source [])) ∧
    main.loop twoLongsTree 1 (.source [0x02]) [] = .clean [] := by
  refine ⟨rfl, rfl, rfl⟩


/-! ## Decoding on an empty source -/

theorem Exhausted_source_nil : (Reader.source []).Exhausted := by
  intro n
  cases n <;> rfl

theorem Exhausted_pipe_nil : (Reader.pipe []).Exhausted := by
  intro n
  cases n <;> rfl

theorem Exhausted_counting {r : Reader} (bytesRead : Int) (hr : r.Exhausted) :
    (Reader.counting bytesRead r).Exhausted := by
  intro n
  simp [Reader.Read, hr n]

theorem ReadByte_exhausted {r : Reader} (hr : r.Exhausted) :
    ReadByte r = (.error .EOF, r) := by
  simp [ReadByte, hr 1]

theorem ReadUvarint_exhausted {r : Reader} (hr : r.Exhausted) :
    ReadUvarint r = (.error .EOF, r) := by
  simp [ReadUvarint, MaxVarintLen64, ReadUvarint.loop, ReadByte_exhausted hr]

theorem readLong_exhausted {r : Reader} (hr : r.Exhausted) :
    readLong r = (.error (.wrap "failed to read value" .EOF), r) := by
  simp [readLong, ReadUvarint_exhausted hr]

theorem readInt_exhausted {r : Reader} (hr : r.Exhausted) :
    readInt r = (.error (.wrap "failed to read value" .EOF), r) := by
  simp [readInt, ReadVarint, ReadUvarint_exhausted hr]

theorem ReadFull_exhausted {r : Reader} (hr : r.Exhausted) (n : Nat) :
    ReadFull r (n + 1) = (.error .EOF, r) := by
  simp [ReadFull, ReadFull.loop, hr (n + 1)]

theorem AvroFixed_Read_exhausted {r : Reader} (hr : r.Exhausted) (size : Int) :
    AvroFixed.Read size r
      = if makeslicePanics 1 size then (.panic "makeslice: len out of range", r)
        else if size = 0 then (.ok (.bytes []), r)
        else (.error (.wrap "failed to read fixed value" .EOF), r) := by
  unfold AvroFixed.Read
  by_cases hbig : makeslicePanics 1 size = true
  · simp [hbig]
  · have h0 := (makeslicePanics_false hbig).1
    simp only [hbig, Bool.false_eq_true, if_false, hr size.toNat]
    by_cases hz : size = 0
    · subst hz
      simp
    · have h1 : size.toNat ≠ 0 := by omega
      simp [hz, h1]

mutual
theorem ItemSchema_Read_exhausted {r : Reader} (hr : r.Exhausted) : ∀ (S : ItemSchema),
    (S.onEmpty = .succeeds → ∃ v, S.Read r = (.ok v, r)) ∧
    (S.onEmpty = .fails → ∃ err, S.Read r = (.error err, r)) ∧
    (S.onEmpty = .crashes → ∃ msg, S.Read r = (.panic msg, r))
  | .AvroNull => by simp [ItemSchema.onEmpty, ItemSchema.Read]
  | .AvroBoolean => by
      simp [ItemSchema.onEmpty, ItemSchema.Read, AvroBoolean.Read, ReadByte_exhausted hr]
  | .AvroInt => by simp [ItemSchema.onEmpty, ItemSchema.Read, readInt_exhausted hr]
  | .AvroLong => by simp [ItemSchema.onEmpty, ItemSchema.Read, readLong_exhausted hr]
  | .AvroFloat => by
      simp [ItemSchema.onEmpty, ItemSchema.Read, AvroFloat.Read, ReadFull_exhausted hr]
  | .AvroDouble => by
      simp [ItemSchema.onEmpty, ItemSchema.Read, AvroDouble.Read, ReadFull_exhausted hr]
  | .AvroBytes => by
      simp [ItemSchema.onEmpty, ItemSchema.Read, AvroBytes.Read, readLengthPrefixed,
        readLong_exhausted hr]
  | .AvroString => by
      simp [ItemSchema.onEmpty, ItemSchema.Read, AvroString.Read, readString,
        readLengthPrefixed, readLong_exhausted hr]
  | .AvroRecord _ _ _ _ fields => by
      simp only [ItemSchema.Read, ItemSchema.onEmpty]
      exact AvroRecord_ReadFields_exhausted hr fields []
  | .AvroEnum _ _ _ _ symbols defaultValue => by
      simp [ItemSchema.onEmpty, ItemSchema.Read, AvroEnum.Read, readInt_exhausted hr]
  | .AvroArray itemSchema => by
      simp [ItemSchema.onEmpty, ItemSchema.Read, blockFuel, AvroArray.blocks,
        readLong_exhausted hr]
  | .AvroFixed _ _ _ _ size => by
      simp only [ItemSchema.Read, ItemSchema.onEmpty, AvroFixed_Read_exhausted hr]
      by_cases hbig : makeslicePanics 1 size = true
      · simp [hbig]
      · by_cases hz : size = 0
        · subst hz
          have h0 : makeslicePanics 1 0 = false := by decide
          simp [h0]
        · simp [hbig, hz]
  | .AvroUnion elements => by
      simp [ItemSchema.onEmpty, ItemSchema.Read, readInt_exhausted hr]
  | .AvroMap values => by
      simp [ItemSchema.onEmpty, ItemSchema.Read, blockFuel, AvroMap.blocks,
        readLong_exhausted hr]
  | .avroReferenceSchema _ none => by simp [ItemSchema.onEmpty, ItemSchema.Read]
  | .avroReferenceSchema _ (some ref) => by
      simp only [ItemSchema.Read, ItemSchema.onEmpty]
      exact ItemSchema_Read_exhausted hr ref
theorem AvroRecord_ReadFields_exhausted {r : Reader} (hr : r.Exhausted) :
    ∀ (fields : List AvroRecordField) (result : List (String × Value)),
    (AvroRecordField.onEmpty fields = .succeeds →
      ∃ v, AvroRecord.ReadFields fields result r = (.ok v, r)) ∧
    (AvroRecordField.onEmpty fields = .fails →
      ∃ err, AvroRecord.ReadFields fields result r = (.error err, r)) ∧
    (AvroRecordField.onEmpty fields = .crashes →
      ∃ msg, AvroRecord.ReadFields fields result r = (.panic msg, r))
  | [], _ => by simp [AvroRecordField.onEmpty, AvroRecord.ReadFields]
  | .mk name _ fieldType _ _ _ :: fields, result => by
      obtain ⟨h1, h2, h3⟩ := ItemSchema_Read_exhausted hr fieldType
      simp only [AvroRecord.ReadFields, AvroRecordField.onEmpty]
      cases ho : ItemSchema.onEmpty fieldType with
      | succeeds =>
        obtain ⟨v, hv⟩ := h1 ho
        simp only [hv]
        exact AvroRecord_ReadFields_exhausted hr fields _
      | fails =>
        obtain ⟨err, hv⟩ := h2 ho
        simp [hv]
      | crashes =>
        obtain ⟨msg, hv⟩ := h3 ho
        simp [hv]
end

/-- C9, as stated, fails: the record with no field is not the Null node, and
decoding it on an empty source succeeds with the empty mapping. -/
theorem C9_empty_record_decodes_from_empty_source :
    ParseSchema (.map [("type", .string "record"), ("name", .string "R"),
        ("fields", .slice [])])
      = .ok (.AvroRecord "R" "" "" [] []) ∧
    (ItemSchema.AvroRecord "R" "" "" [] []).Read (.source [])
      = (.ok (.record []), .source []) := by
  constructor <;> rfl

/-- C9, amended: on a source with no byte left, decoding succeeds, and leaves
the source as it is, exactly for the nodes that need no byte (Null, which
yields the null marker; a Fixed of size 0; a Record all of whose field types
need no byte; a Reference bound to such a node); for every node that needs a
byte (Boolean, Int, Long, Float, Double, Bytes, String, Enum, Array, Map,
Union, Fixed of a positive size that `make` accepts, a Record whose first
field type not decoding from zero bytes needs a byte, a Reference bound to such
a node) decoding returns an error and no value. -/
theorem C9_empty_source (S : ItemSchema) (r : Reader) (hr : r.Exhausted) :
    (S.onEmpty = .succeeds → ∃ v, S.Read r = (.ok v, r)) ∧
    (S.onEmpty = .fails → ∃ err, S.Read r = (.error err, r)) ∧
    ((S.Read r).1.isOk = true → S.onEmpty = .succeeds) ∧
    ItemSchema.AvroNull.Read r = (.ok .nil, r) := by
  obtain ⟨h1, h2, h3⟩ := ItemSchema_Read_exhausted hr S
  refine ⟨h1, h2, ?_, by simp [ItemSchema.Read]⟩
  intro hok
  cases ho : S.onEmpty with
  | succeeds => rfl
  | fails =>
    obtain ⟨err, he⟩ := h2 ho
    rw [he] at hok
    simp [Res.isOk] at hok
  | crashes =>
    obtain ⟨msg, he⟩ := h3 ho
    rw [he] at hok
    simp [Res.isOk] at hok

/-- Witness of C9 (amended): the record of two longs returns an error on the
empty in-memory source and on the empty pipe. -/
theorem C9_empty_source_witness :
    ((Reader.source []).Exhausted ∧ twoLongsTree.onEmpty = .fails ∧
      ∃ err, twoLongsTree.Read (.source []) = (.error err, .source [])) ∧
    ((Reader.pipe []).Exhausted ∧
      ∃ err, twoLongsTree.Read (.pipe []) = (.error err, .pipe [])) :=
  ⟨⟨Exhausted_source_nil, rfl,
      (C9_empty_source twoLongsTree (.source []) Exhausted_source_nil).2.1 rfl⟩,
    ⟨Exhausted_pipe_nil,
      (C9_empty_source twoLongsTree (.pipe []) Exhausted_pipe_nil).2.1 rfl⟩⟩

/-! ## The step budget of the block loops is never exhausted -/

theorem pipeRead_unread : ∀ (chunks : List (List Byte)) (n : Nat), 0 < n →
    (pipeRead chunks n).2.flatten.length + (pipeRead chunks n).1.1.length
        = chunks.flatten.length ∧
    ((pipeRead chunks n).1.2 = none → 0 < (pipeRead chunks n).1.1.length)
  | [], n, _ => by simp [pipeRead]
  | chunk :: chunks, n, hn => by
      have ih := pipeRead_unread chunks n hn
      unfold pipeRead
      cases chunk with
      | nil => simpa using ih
      | cons b t =>
        simp only [List.isEmpty_cons, Bool.false_eq_true, if_false]
        split
        · rename_i hd
          have hd' : (b :: t).length ≤ n := by
            simpa [List.drop_eq_nil_iff] using hd
          simp only [List.flatten_cons, List.length_append, List.length_take]
          constructor
          · simp only [List.length_cons] at hd' ⊢; omega
          · intro _; simp only [List.length_cons] at hd' ⊢; omega
        · simp only [List.flatten_cons, List.length_append, List.length_take,
            List.length_drop, List.length_cons]
          constructor
          · omega
          · intro _; omega

theorem Reader_Read_unread : ∀ (r : Reader) (n : Nat),
    (r.Read n).2.unread.length + (r.Read n).1.1.length = r.unread.length ∧
    ((r.Read n).1.2 = none → 0 < n → 0 < (r.Read n).1.1.length)
  | .source data, n => by
      unfold Reader.Read
      by_cases hn : n = 0
      · simp [hn, Reader.unread]
      · cases data with
        | nil => simp [hn, Reader.unread]
        | cons b t =>
          simp only [hn, if_false, List.isEmpty_cons, Bool.false_eq_true, Reader.unread,
            List.length_drop, List.length_take, List.length_cons]
          omega
  | .pipe chunks, n => by
      unfold Reader.Read
      by_cases hn : n = 0
      · simp [hn, Reader.unread]
      · have h := pipeRead_unread chunks n (Nat.pos_of_ne_zero hn)
        simp only [hn, if_false, Reader.unread]
        exact ⟨h.1, fun he _ => h.2 he⟩
  | .counting c inner, n => by
      have ih := Reader_Read_unread inner n
      simp only [Reader.Read, Reader.unread]
      exact ih

theorem Tame.post_tame {α β : Type} {f : Reader → Res α × Reader} (hf : Tame f)
    (F : Reader → Res β × Reader)
    (h2 : ∀ r, (F r).2 = (f r).2)
    (h1 : ∀ r, (F r).1 = .fuel → (f r).1 = .fuel) : Tame F := by
  intro r
  refine ⟨fun h => (hf r).1 (h1 r h), ?_⟩
  rw [h2]
  exact (hf r).2

theorem Consuming.post_consuming {α β : Type} {f : Reader → Res α × Reader} (hf : Consuming f)
    (F : Reader → Res β × Reader)
    (h : ∀ r w r', F r = (.ok w, r') → ∃ v, f r = (.ok v, r')) : Consuming F := by
  intro r w r' hF
  obtain ⟨v, hv⟩ := h r w r' hF
  exact hf r v r' hv

theorem ReadByte_spec (r : Reader) :
    (ReadByte r).1 ≠ .fuel ∧ (ReadByte r).2.unread.length ≤ r.unread.length ∧
    (∀ b, (ReadByte r).1 = .ok b → (ReadByte r).2.unread.length < r.unread.length) := by
  obtain ⟨h1, h2⟩ := Reader_Read_unread r 1
  unfold ReadByte
  cases hr : r.Read 1 with
  | mk out r' =>
    obtain ⟨got, err⟩ := out
    rw [hr] at h1 h2
    simp only [] at h1 h2
    cases err with
    | some e =>
      dsimp only
      exact ⟨by simp, by omega, by simp⟩
    | none =>
      have := h2 rfl (by decide)
      by_cases hlen : got.length ≠ 1
      · dsimp only
        rw [if_pos hlen]
        exact ⟨by simp, by dsimp only; omega, by simp⟩
      · dsimp only
        rw [if_neg hlen]
        exact ⟨by simp, by dsimp only; omega, fun _ _ => by dsimp only; omega⟩

theorem ReadByte_tame : Tame ReadByte := fun r => ⟨(ReadByte_spec r).1, (ReadByte_spec r).2.1⟩

theorem ReadByte_consuming : Consuming ReadByte := by
  intro r v r' h
  have := (ReadByte_spec r).2.2 v (by rw [h])
  rw [h] at this
  exact this

theorem ReadUvarint_loop_tame : ∀ (n i x s : Nat), Tame (ReadUvarint.loop n i x s) := by
  intro n
  induction n with
  | zero => intro i x s r; simp [ReadUvarint.loop]
  | succ n ih =>
    intro i x s r
    have hb := ReadByte_tame r
    rw [ReadUvarint.loop]
    cases hr : ReadByte r with
    | mk res r' =>
      rw [hr] at hb
      simp only [] at hb
      cases res with
      | ok b =>
        simp only []
        split
        · split
          · exact ⟨by simp, hb.2⟩
          · exact ⟨by simp, hb.2⟩
        · have := ih (i + 1) (x ||| u64 ((b.val &&& 0x7f) <<< s)) (s + 7) r'
          exact ⟨this.1, le_trans this.2 hb.2⟩
      | error e => exact ⟨by simp, hb.2⟩
      | panic m => exact ⟨by simp, hb.2⟩
      | fuel => exact absurd rfl hb.1

theorem ReadUvarint_loop_consuming : ∀ (n i x s : Nat), Consuming (ReadUvarint.loop n i x s) := by
  intro n
  induction n with
  | zero => intro i x s r v r' h; simp [ReadUvarint.loop] at h
  | succ n ih =>
    intro i x s r v r' h
    rw [ReadUvarint.loop] at h
    cases hr : ReadByte r with
    | mk res r1 =>
      rw [hr] at h
      cases res with
      | ok b =>
        have hlt := ReadByte_consuming r b r1 hr
        simp only [] at h
        split at h
        · split at h
          · cases h
          · injection h with _ h2
            subst h2
            exact hlt
        · have h1 := ih _ _ _ r1 v r' h
          have h2 := (ReadUvarint_loop_tame n (i + 1) (x ||| u64 ((b.val &&& 0x7f) <<< s))
            (s + 7) r1).2
          omega
      | error e => simp at h
      | panic m => simp at h
      | fuel => simp at h

theorem ReadUvarint_tame : Tame ReadUvarint := ReadUvarint_loop_tame _ _ _ _

theorem ReadUvarint_consuming : Consuming ReadUvarint := ReadUvarint_loop_consuming _ _ _ _

theorem readLong_tame : Tame readLong := by
  apply ReadUvarint_tame.post_tame readLong
  · intro r
    unfold readLong
    split
    · split <;> simp_all
    all_goals simp_all
  · intro r
    unfold readLong
    split
    · split <;> simp
    all_goals simp_all

theorem readLong_consuming : Consuming readLong := by
  apply ReadUvarint_consuming.post_consuming readLong
  intro r w r' h
  unfold readLong at h
  split at h
  · rename_i result r1 heq
    split at h
    · cases h
    · injection h with _ h2
      subst h2
      exact ⟨result, heq⟩
  · cases h
  · cases h
  · cases h

theorem ReadVarint_tame : Tame ReadVarint := by
  apply ReadUvarint_tame.post_tame ReadVarint
  · intro r; unfold ReadVarint; split <;> simp_all
  · intro r; unfold ReadVarint; split <;> simp_all

theorem readInt_tame : Tame readInt := by
  apply ReadVarint_tame.post_tame readInt
  · intro r
    unfold readInt
    split
    · split <;> simp_all
    all_goals simp_all
  · intro r
    unfold readInt
    split
    · split <;> simp
    all_goals simp_all

theorem readLengthPrefixed_tame : Tame readLengthPrefixed := by
  intro r
  have hl := readLong_tame r
  unfold readLengthPrefixed
  cases hr : readLong r with
  | mk res r1 =>
    rw [hr] at hl
    simp only [] at hl
    cases res with
    | ok length =>
      dsimp only
      by_cases hneg : makeslicePanics 1 length = true
      · rw [if_pos hneg]
        exact ⟨by simp, hl.2⟩
      · rw [if_neg hneg]
        have h1 := (Reader_Read_unread r1 length.toNat).1
        cases hr2 : r1.Read length.toNat with
        | mk out r2 =>
          obtain ⟨got, err⟩ := out
          rw [hr2] at h1
          simp only [] at h1
          cases err with
          | some e => exact ⟨by simp, by dsimp only; omega⟩
          | none =>
            dsimp only
            split
            · exact ⟨by simp, by dsimp only; omega⟩
            · exact ⟨by simp, by dsimp only; omega⟩
    | error e => exact ⟨by simp, hl.2⟩
    | panic m => exact ⟨by simp, hl.2⟩
    | fuel => exact absurd rfl hl.1

theorem AvroFixed_Read_tame (size : Int) : Tame (AvroFixed.Read size) := by
  intro r
  unfold AvroFixed.Read
  by_cases hneg : makeslicePanics 1 size = true
  · rw [if_pos hneg]
    exact ⟨by simp, le_refl _⟩
  · rw [if_neg hneg]
    have h1 := (Reader_Read_unread r size.toNat).1
    cases hr2 : r.Read size.toNat with
    | mk out r2 =>
      obtain ⟨got, err⟩ := out
      rw [hr2] at h1
      simp only [] at h1
      cases err with
      | some e => exact ⟨by simp, by dsimp only; omega⟩
      | none =>
        dsimp only
        split
        · exact ⟨by simp, by dsimp only; omega⟩
        · exact ⟨by simp, by dsimp only; omega⟩

theorem ReadFull_loop_tame : ∀ (fuel min : Nat) (buf : List Byte) (r : Reader),
    min ≤ fuel + buf.length →
    (ReadFull.loop fuel min buf r).1 ≠ .fuel ∧
      (ReadFull.loop fuel min buf r).2.unread.length ≤ r.unread.length := by
  intro fuel
  induction fuel with
  | zero =>
    intro min buf r h
    have : ¬ buf.length < min := by omega
    simp [ReadFull.loop, this]
  | succ fuel ih =>
    intro min buf r h
    rw [ReadFull.loop]
    by_cases hlt : buf.length < min
    · rw [if_pos hlt]
      obtain ⟨h1, h2⟩ := Reader_Read_unread r (min - buf.length)
      cases hr : r.Read (min - buf.length) with
      | mk out r' =>
        obtain ⟨got, err⟩ := out
        rw [hr] at h1 h2
        simp only [] at h1 h2
        cases err with
        | none =>
          dsimp only
          have hpos := h2 rfl (by omega)
          have := ih min (buf ++ got) r' (by rw [List.length_append]; omega)
          exact ⟨this.1, by omega⟩
        | some e =>
          dsimp only
          split
          · exact ⟨by simp, by dsimp only; omega⟩
          · split
            · exact ⟨by simp, by dsimp only; omega⟩
            · exact ⟨by simp, by dsimp only; omega⟩
    · rw [if_neg hlt]
      exact ⟨by simp, le_refl _⟩

theorem ReadFull_tame (n : Nat) : Tame (fun r => ReadFull r n) := fun r =>
  ReadFull_loop_tame n n [] r (by simp)

theorem AvroBoolean_Read_tame : Tame AvroBoolean.Read := by
  apply ReadByte_tame.post_tame AvroBoolean.Read
  · intro r
    unfold AvroBoolean.Read
    split
    · split <;> simp_all
    all_goals simp_all
  · intro r
    unfold AvroBoolean.Read
    split
    · split <;> simp
    all_goals simp_all

theorem AvroFloat_Read_tame : Tame AvroFloat.Read := by
  apply (ReadFull_tame 4).post_tame AvroFloat.Read
  · intro r; unfold AvroFloat.Read; split <;> simp_all
  · intro r; unfold AvroFloat.Read; split <;> simp_all

theorem AvroDouble_Read_tame : Tame AvroDouble.Read := by
  apply (ReadFull_tame 8).post_tame AvroDouble.Read
  · intro r; unfold AvroDouble.Read; split <;> simp_all
  · intro r; unfold AvroDouble.Read; split <;> simp_all

theorem AvroBytes_Read_tame : Tame AvroBytes.Read := by
  apply readLengthPrefixed_tame.post_tame AvroBytes.Read
  · intro r; unfold AvroBytes.Read; split <;> simp_all
  · intro r; unfold AvroBytes.Read; split <;> simp_all

theorem readString_tame : Tame readString := readLengthPrefixed_tame

theorem AvroString_Read_tame : Tame AvroString.Read := by
  apply readString_tame.post_tame AvroString.Read
  · intro r; unfold AvroString.Read; split <;> simp_all
  · intro r; unfold AvroString.Read; split <;> simp_all

theorem AvroEnum_Read_tame (symbols : List String) (defaultValue : Option String) :
    Tame (AvroEnum.Read symbols defaultValue) := by
  apply readInt_tame.post_tame (AvroEnum.Read symbols defaultValue)
  · intro r
    unfold AvroEnum.Read
    split
    · rename_i heq
      rw [heq]
      split
      · split
        · split <;> rfl
        · rfl
      · split <;> rfl
    all_goals simp_all
  · intro r
    unfold AvroEnum.Read
    split
    · split
      · split
        · split <;> simp
        · simp
      · split <;> simp
    all_goals simp_all

theorem readBlockHeader_tame (count : Int) : Tame (readBlockHeader count) := by
  intro r
  unfold readBlockHeader
  by_cases hneg : count < 0
  · rw [if_pos hneg]
    have hl := readLong_tame r
    cases hr : readLong r with
    | mk res r1 =>
      rw [hr] at hl
      cases res with
      | ok v => exact ⟨by simp, hl.2⟩
      | error e => exact ⟨by simp, hl.2⟩
      | panic m => exact ⟨by simp, hl.2⟩
      | fuel => exact absurd rfl hl.1
  · rw [if_neg hneg]
    exact ⟨by simp, le_refl _⟩

theorem AvroArray_items_tame {readItem : Reader → Res Value × Reader} (hf : Tame readItem) :
    ∀ (n idx : Nat) (result : List Value), Tame (AvroArray.items readItem n idx result) := by
  intro n
  induction n with
  | zero => intro idx result r; simp [AvroArray.items]
  | succ n ih =>
    intro idx result r
    have hi := hf r
    rw [AvroArray.items]
    cases hr : readItem r with
    | mk res r1 =>
      rw [hr] at hi
      simp only [] at hi
      cases res with
      | ok value =>
        dsimp only
        split
        · have := ih (idx + 1) (result.set idx value) r1
          exact ⟨this.1, le_trans this.2 hi.2⟩
        · exact ⟨by simp, hi.2⟩
      | error e =>
        dsimp only
        split
        · exact ⟨by simp, hi.2⟩
        · exact ⟨by simp, hi.2⟩
      | panic m => exact ⟨by simp, hi.2⟩
      | fuel => exact absurd rfl hi.1

theorem AvroMap_items_tame {readValue : Reader → Res Value × Reader} (hf : Tame readValue) :
    ∀ (n : Nat) (result : List (List Byte × Value)), Tame (AvroMap.items readValue n result) := by
  intro n
  induction n with
  | zero => intro result r; simp [AvroMap.items]
  | succ n ih =>
    intro result r
    have hs := readString_tame r
    rw [AvroMap.items]
    cases hr : readString r with
    | mk res r1 =>
      rw [hr] at hs
      simp only [] at hs
      cases res with
      | ok name =>
        dsimp only
        have hi := hf r1
        cases hr2 : readValue r1 with
        | mk res2 r2 =>
          rw [hr2] at hi
          simp only [] at hi
          cases res2 with
          | ok value =>
            have := ih (mapSet result name value) r2
            exact ⟨this.1, by dsimp only; omega⟩
          | error e => exact ⟨by simp, by dsimp only; omega⟩
          | panic m => exact ⟨by simp, by dsimp only; omega⟩
          | fuel => exact absurd rfl hi.1
      | error e => exact ⟨by simp, hs.2⟩
      | panic m => exact ⟨by simp, hs.2⟩
      | fuel => exact absurd rfl hs.1

theorem AvroArray_blocks_tame {readItem : Reader → Res Value × Reader} (hf : Tame readItem) :
    ∀ (fuel : Nat) (result : Option (List Value)) (r : Reader), r.unread.length < fuel →
      (AvroArray.blocks readItem fuel result r).1 ≠ .fuel ∧
        (AvroArray.blocks readItem fuel result r).2.unread.length ≤ r.unread.length := by
  intro fuel
  induction fuel with
  | zero => intro result r h; omega
  | succ fuel ih =>
    intro result r h
    have hl := readLong_tame r
    rw [AvroArray.blocks]
    cases hr : readLong r with
    | mk res r1 =>
      rw [hr] at hl
      simp only [] at hl
      cases res with
      | ok count =>
        have hlt := readLong_consuming r count r1 hr
        dsimp only
        split
        · exact ⟨by simp, hl.2⟩
        · have hh := readBlockHeader_tame count r1
          cases hr2 : readBlockHeader count r1 with
          | mk res2 r2 =>
            rw [hr2] at hh
            simp only [] at hh
            cases res2 with
            | ok count' =>
              dsimp only
              split
              · exact ⟨by simp, by dsimp only; omega⟩
              · have hit := AvroArray_items_tame hf count'.toNat 0
                  (result.getD (List.replicate count'.toNat Value.nil)) r2
                cases hr3 : AvroArray.items readItem count'.toNat 0
                    (result.getD (List.replicate count'.toNat Value.nil)) r2 with
                | mk res3 r3 =>
                  rw [hr3] at hit
                  simp only [] at hit
                  cases res3 with
                  | ok result' =>
                    have := ih (some result') r3 (by omega)
                    exact ⟨this.1, by dsimp only; omega⟩
                  | error e => exact ⟨by simp, by dsimp only; omega⟩
                  | panic m => exact ⟨by simp, by dsimp only; omega⟩
                  | fuel => exact absurd rfl hit.1
            | error e => exact ⟨by simp, by dsimp only; omega⟩
            | panic m => exact ⟨by simp, by dsimp only; omega⟩
            | fuel => exact absurd rfl hh.1
      | error e => exact ⟨by simp, hl.2⟩
      | panic m => exact ⟨by simp, hl.2⟩
      | fuel => exact absurd rfl hl.1

theorem AvroMap_blocks_tame {readValue : Reader → Res Value × Reader} (hf : Tame readValue) :
    ∀ (fuel : Nat) (result : List (List Byte × Value)) (r : Reader), r.unread.length < fuel →
      (AvroMap.blocks readValue fuel result r).1 ≠ .fuel ∧
        (AvroMap.blocks readValue fuel result r).2.unread.length ≤ r.unread.length := by
  intro fuel
  induction fuel with
  | zero => intro result r h; omega
  | succ fuel ih =>
    intro result r h
    have hl := readLong_tame r
    rw [AvroMap.blocks]
    cases hr : readLong r with
    | mk res r1 =>
      rw [hr] at hl
      simp only [] at hl
      cases res with
      | ok count =>
        have hlt := readLong_consuming r count r1 hr
        dsimp only
        split
        · exact ⟨by simp, hl.2⟩
        · have hh := readBlockHeader_tame count r1
          cases hr2 : readBlockHeader count r1 with
          | mk res2 r2 =>
            rw [hr2] at hh
            simp only [] at hh
            cases res2 with
            | ok count' =>
              dsimp only
              have hit := AvroMap_items_tame hf count'.toNat result r2
              cases hr3 : AvroMap.items readValue count'.toNat result r2 with
              | mk res3 r3 =>
                rw [hr3] at hit
                simp only [] at hit
                cases res3 with
                | ok result' =>
                  have := ih result' r3 (by omega)
                  exact ⟨this.1, by dsimp only; omega⟩
                | error e => exact ⟨by simp, by dsimp only; omega⟩
                | panic m => exact ⟨by simp, by dsimp only; omega⟩
                | fuel => exact absurd rfl hit.1
            | error e => exact ⟨by simp, by dsimp only; omega⟩
            | panic m => exact ⟨by simp, by dsimp only; omega⟩
            | fuel => exact absurd rfl hh.1
      | error e => exact ⟨by simp, hl.2⟩
      | panic m => exact ⟨by simp, hl.2⟩
      | fuel => exact absurd rfl hl.1

theorem Tame.ofInt_tame {f : Reader → Res Int × Reader} (hf : Tame f) (c : Int → Value)
    (F : Reader → Res Value × Reader)
    (hF : ∀ r, F r = match f r with
      | (.ok v, r') => (.ok (c v), r')
      | (.error err, r') => (.error err, r')
      | (.panic msg, r') => (.panic msg, r')
      | (.fuel, r') => (.fuel, r')) : Tame F := by
  apply hf.post_tame F
  · intro r; rw [hF]; split <;> simp_all
  · intro r; rw [hF]; split <;> simp_all

mutual
theorem ItemSchema_Read_tame : ∀ (S : ItemSchema), Tame S.Read
  | .AvroNull => fun r => by simp [ItemSchema.Read]
  | .AvroBoolean => fun r => by
      simp only [ItemSchema.Read]
      exact AvroBoolean_Read_tame r
  | .AvroInt => readInt_tame.ofInt_tame Value.int32 _ (fun r => by simp only [ItemSchema.Read])
  | .AvroLong => readLong_tame.ofInt_tame Value.int64 _ (fun r => by simp only [ItemSchema.Read])
  | .AvroFloat => fun r => by
      simp only [ItemSchema.Read]
      exact AvroFloat_Read_tame r
  | .AvroDouble => fun r => by
      simp only [ItemSchema.Read]
      exact AvroDouble_Read_tame r
  | .AvroBytes => fun r => by
      simp only [ItemSchema.Read]
      exact AvroBytes_Read_tame r
  | .AvroString => fun r => by
      simp only [ItemSchema.Read]
      exact AvroString_Read_tame r
  | .AvroRecord _ _ _ _ fields => fun r => by
      simp only [ItemSchema.Read]
      exact AvroRecord_ReadFields_tame fields [] r
  | .AvroEnum _ _ _ _ symbols defaultValue => fun r => by
      simp only [ItemSchema.Read]
      exact AvroEnum_Read_tame symbols defaultValue r
  | .AvroArray itemSchema => fun r => by
      simp only [ItemSchema.Read]
      exact AvroArray_blocks_tame (ItemSchema_Read_tame itemSchema) _ none r
        (by simp [blockFuel])
  | .AvroFixed _ _ _ _ size => fun r => by
      simp only [ItemSchema.Read]
      exact AvroFixed_Read_tame size r
  | .AvroUnion elements => fun r => by
      simp only [ItemSchema.Read]
      have hi := readInt_tame r
      cases hr : readInt r with
      | mk res r1 =>
        rw [hr] at hi
        simp only [] at hi
        cases res with
        | ok idx =>
          dsimp only
          split
          · exact ⟨by simp, hi.2⟩
          · have := AvroUnion_ReadElement_tame elements idx.toNat r1
            exact ⟨this.1, le_trans this.2 hi.2⟩
        | error e => exact ⟨by simp, hi.2⟩
        | panic m => exact ⟨by simp, hi.2⟩
        | fuel => exact absurd rfl hi.1
  | .AvroMap values => fun r => by
      simp only [ItemSchema.Read]
      exact AvroMap_blocks_tame (ItemSchema_Read_tame values) _ [] r (by simp [blockFuel])
  | .avroReferenceSchema _ none => fun r => by simp [ItemSchema.Read]
  | .avroReferenceSchema _ (some ref) => fun r => by
      simp only [ItemSchema.Read]
      exact ItemSchema_Read_tame ref r
theorem AvroRecord_ReadFields_tame :
    ∀ (fields : List AvroRecordField) (result : List (String × Value)),
      Tame (AvroRecord.ReadFields fields result)
  | [], result => fun r => by simp [AvroRecord.ReadFields]
  | .mk name _ fieldType _ _ _ :: fields, result => fun r => by
      simp only [AvroRecord.ReadFields]
      have hi := ItemSchema_Read_tame fieldType r
      cases hr : ItemSchema.Read fieldType r with
      | mk res r1 =>
        rw [hr] at hi
        simp only [] at hi
        cases res with
        | ok value =>
          have := AvroRecord_ReadFields_tame fields (mapSet result name value) r1
          exact ⟨this.1, le_trans this.2 hi.2⟩
        | error e => exact ⟨by simp, hi.2⟩
        | panic m => exact ⟨by simp, hi.2⟩
        | fuel => exact absurd rfl hi.1
theorem AvroUnion_ReadElement_tame :
    ∀ (elements : List ItemSchema) (idx : Nat), Tame (AvroUnion.ReadElement elements idx)
  | [], _ => fun r => by simp [AvroUnion.ReadElement]
  | element :: _, 0 => fun r => by
      simp only [AvroUnion.ReadElement]
      exact ItemSchema_Read_tame element r
  | _ :: elements, idx + 1 => fun r => by
      simp only [AvroUnion.ReadElement]
      exact AvroUnion_ReadElement_tame elements idx r
end

/-- The decoder is total in the model: for every schema node and every reader
the step budget of the block loops suffices, and nothing is given back to the
source. -/
theorem ItemSchema_Read_total (S : ItemSchema) (r : Reader) :
    (S.Read r).1 ≠ .fuel ∧ (S.Read r).2.unread.length ≤ r.unread.length :=
  ItemSchema_Read_tame S r

/-! ## The byte counter -/

/-- C11 (code defect): a fresh `CountingReader` over a source holding three bytes
returns all three bytes, without error, on a read into a buffer of three bytes,
and `ReadBytes()` is still 0 afterwards instead of 3: the counter is advanced
only by reads that return an error. -/
theorem C11_successful_read_is_not_counted :
    (NewCountingReader (.source [0x01, 0x02, 0x03])).Read 3
      = (([0x01, 0x02, 0x03], none), .counting 0 (.source [])) ∧
    ((NewCountingReader (.source [0x01, 0x02, 0x03])).Read 3).2.ReadBytes = 0 := by
  decide

/-! ## Length prefixes -/

/-- C14 (code defect): on the source holding the single byte 01, whose zig-zag
long is the length -1, `AvroBytes.Read` and `readString` do not return an
error: `make([]byte, length)` panics on the negative length. -/
theorem C14_negative_length_panics :
    readLong (.source [0x01]) = (.ok (-1), .source []) ∧
    AvroBytes.Read (.source [0x01]) = (.panic "makeslice: len out of range", .source []) ∧
    readString (.source [0x01]) = (.panic "makeslice: len out of range", .source []) := by
  refine ⟨by decide, rfl, by decide⟩


/-! ## Text scalars, duplicate names and fixed sizes in the compiler -/

/-- C16, as stated, fails: the walk of the text scalar `record` returns an error
(the required attribute `name` is looked up in a nil map), not a Reference, and
`ParseSchema` fails on it. -/
theorem C16_text_scalar_record_fails :
    schemaBuilder.readSchemaElement (.string "record") { references := [], namedSchemas := [] }
      = .error (.errorf "required field not found") ∧
    ParseSchema (.string "record") = .error (.errorf "required field not found") := by
  constructor <;> rfl

/-- C16, amended: for every text scalar `T` and every builder, the walk returns
the corresponding primitive node, leaving the builder unchanged, when `T` is one
of the eight primitive names; it fails with an error when `T` is one of the five
composite tags `record`, `enum`, `array`, `map`, `fixed`; and for every other
`T` it returns the placeholder Reference(`T`) with a nil `ref` and appends that
placeholder to the deferred-reference list. -/
theorem C16_text_scalar_dispatch (T : String) (builder : schemaBuilder) :
    (T = "null" → schemaBuilder.readSchemaElement (.string T) builder
      = .ok (.AvroNull, builder)) ∧
    (T = "boolean" → schemaBuilder.readSchemaElement (.string T) builder
      = .ok (.AvroBoolean, builder)) ∧
    (T = "int" → schemaBuilder.readSchemaElement (.string T) builder
      = .ok (.AvroInt, builder)) ∧
    (T = "long" → schemaBuilder.readSchemaElement (.string T) builder
      = .ok (.AvroLong, builder)) ∧
    (T = "float" → schemaBuilder.readSchemaElement (.string T) builder
      = .ok (.AvroFloat, builder)) ∧
    (T = "double" → schemaBuilder.readSchemaElement (.string T) builder
      = .ok (.AvroDouble, builder)) ∧
    (T = "bytes" → schemaBuilder.readSchemaElement (.string T) builder
      = .ok (.AvroBytes, builder)) ∧
    (T = "string" → schemaBuilder.readSchemaElement (.string T) builder
      = .ok (.AvroString, builder)) ∧
    (T ∈ ["record", "enum", "array", "map", "fixed"] →
      ∃ err, schemaBuilder.readSchemaElement (.string T) builder = .error err) ∧
    (T ∉ reservedTypeNames →
      schemaBuilder.readSchemaElement (.string T) builder
        = .ok (.avroReferenceSchema T none,
            { builder with references := builder.references ++ [{ name := T, ref := none }] })) := by
  refine ⟨?_, ?_, ?_, ?_, ?_, ?_, ?_, ?_, ?_, ?_⟩
  · rintro rfl; rfl
  · rintro rfl; rfl
  · rintro rfl; rfl
  · rintro rfl; rfl
  · rintro rfl; rfl
  · rintro rfl; rfl
  · rintro rfl; rfl
  · rintro rfl; rfl
  · intro h
    simp only [List.mem_cons, List.mem_singleton, List.not_mem_nil, or_false] at h
    rcases h with rfl | rfl | rfl | rfl | rfl <;> exact ⟨_, rfl⟩
  · intro h
    simp only [reservedTypeNames, List.mem_cons, List.mem_singleton, List.not_mem_nil,
      or_false, not_or] at h
    obtain ⟨h1, h2, h3, h4, h5, h6, h7, h8, h9, h10, h11, h12, h13⟩ := h
    simp only [schemaBuilder.readSchemaElement, primitiveSchema, h1, h2, h3, h4, h5, h6, h7,
      h8, h9, h10, h11, h12, h13, if_false, schemaBuilder.readReference]

/-- Witness of C16 (amended): the text scalar `Node` becomes a placeholder that
is appended to the deferred references. -/
theorem C16_text_scalar_dispatch_witness :
    "Node" ∉ reservedTypeNames ∧
    schemaBuilder.readSchemaElement (.string "Node") { references := [], namedSchemas := [] }
      = .ok (.avroReferenceSchema "Node" none,
          { references := [{ name := "Node", ref := none }], namedSchemas := [] }) :=
  ⟨by decide,
    (C16_text_scalar_dispatch "Node" { references := [], namedSchemas := [] }).2.2.2.2.2.2.2.2.2
      (by decide)⟩

/-- C17, as stated, fails: the union of two enums that are both named `E` is
compiled without error; both nodes are in the returned tree and the registry
keeps the second one under `E`. -/
theorem C17_duplicate_name_is_accepted :
    ParseSchema duplicateEnumDoc
      = .ok (.AvroUnion [.AvroEnum "E" "" [] "" ["A"] none, .AvroEnum "E" "" [] "" ["B"] none]) ∧
    schemaBuilder.readSchemaElement duplicateEnumDoc { references := [], namedSchemas := [] }
      = .ok (.AvroUnion [.AvroEnum "E" "" [] "" ["A"] none, .AvroEnum "E" "" [] "" ["B"] none],
          { references := [], namedSchemas := [("E", .AvroEnum "E" "" [] "" ["B"] none)] }) := by
  constructor <;> rfl

/-- C18 (code defect): the fixed mapping whose `size` is the integer -1 is
compiled to a Fixed node of size -1, and `AvroFixed.Read` on that node panics
in `make([]byte, v.size)` whatever the source holds. -/
theorem C18_negative_fixed_size_is_accepted :
    ParseSchema negativeFixedDoc = .ok (.AvroFixed "F" "" [] "" (-1)) ∧
    ∀ r, (ItemSchema.AvroFixed "F" "" [] "" (-1)).Read r
      = (.panic "makeslice: len out of range", r) := by
  refine ⟨rfl, fun r => ?_⟩
  simp [ItemSchema.Read, AvroFixed.Read, makeslicePanics]

/-! ## End-of-file detection -/

theorem Err_unwrapN_cyclic (msg : String) : ∀ n, Err.unwrapN n (.cyclic msg) = some (.cyclic msg)
  | 0 => rfl
  | n + 1 => by
      simp only [Err.unwrapN, Err.Unwrap]
      exact Err_unwrapN_cyclic msg n

theorem IsEof_chain_iff : ∀ (err : Err),
    IsEof.chain err = true ↔ ∃ n, Err.unwrapN n err = some .EOF
  | .EOF => ⟨fun _ => ⟨0, rfl⟩, fun _ => rfl⟩
  | .ErrUnexpectedEOF => by
      constructor
      · intro h; cases h
      · rintro ⟨n, hn⟩
        cases n with
        | zero => cases hn
        | succ n => cases hn
  | .errOverflow => by
      constructor
      · intro h; cases h
      · rintro ⟨n, hn⟩
        cases n with
        | zero => cases hn
        | succ n => cases hn
  | .errorf msg => by
      constructor
      · intro h; cases h
      · rintro ⟨n, hn⟩
        cases n with
        | zero => cases hn
        | succ n => cases hn
  | .cyclic msg => by
      constructor
      · intro h; cases h
      · rintro ⟨n, hn⟩
        rw [Err_unwrapN_cyclic] at hn
        cases hn
  | .wrap msg err => by
      have ih := IsEof_chain_iff err
      constructor
      · intro h
        obtain ⟨n, hn⟩ := ih.mp h
        exact ⟨n + 1, hn⟩
      · rintro ⟨n, hn⟩
        cases n with
        | zero => cases hn
        | succ n => exact ih.mpr ⟨n, hn⟩

/-- C20: for every error value, `IsEof` returns true if and only if `io.EOF` is
the error itself or is reached from it by repeated `errors.Unwrap`; `IsEof`
returns false for an error that unwraps to itself and for the nil error. -/
theorem C20_IsEof_iff_EOF_in_chain (err : Err) :
    (IsEof (some err) = true ↔ ∃ n, Err.unwrapN n err = some .EOF) ∧
    (∀ msg, IsEof (some (.cyclic msg)) = false) ∧
    IsEof none = false :=
  ⟨IsEof_chain_iff err, fun _ => rfl, rfl⟩


theorem mapGet_mapSet_self {κ α : Type} [DecidableEq κ] (m : List (κ × α)) (k : κ) (v : α) :
    mapGet (mapSet m k v) k = some v := by
  rw [mapGet_mapSet]; simp

theorem readEnum_registers (data : List (String × Dyn)) (builder builder' : schemaBuilder)
    (result : ItemSchema) (h : schemaBuilder.readEnum data builder = .ok (result, builder')) :
    ∃ name, getStringValue data "name" true = .ok name ∧
      mapGet builder'.namedSchemas name = some result := by
  unfold schemaBuilder.readEnum at h
  split at h
  · rename_i name hname
    refine ⟨name, hname, ?_⟩
    split at h
    · split at h
      · split at h
        · split at h
          · split at h
            · simp only [Res.ok.injEq, Prod.mk.injEq] at h
              obtain ⟨h1, h2⟩ := h
              subst h1 h2
              exact mapGet_mapSet_self _ _ _
            all_goals cases h
          all_goals cases h
        all_goals cases h
      all_goals cases h
    all_goals cases h
  all_goals cases h

theorem readFixed_registers (data : List (String × Dyn)) (builder builder' : schemaBuilder)
    (result : ItemSchema) (h : schemaBuilder.readFixed data builder = .ok (result, builder')) :
    ∃ name, getStringValue data "name" true = .ok name ∧
      mapGet builder'.namedSchemas name = some result := by
  unfold schemaBuilder.readFixed at h
  split at h
  · rename_i name hname
    refine ⟨name, hname, ?_⟩
    split at h
    · split at h
      · split at h
        · split at h
          · simp only [Res.ok.injEq, Prod.mk.injEq] at h
            obtain ⟨h1, h2⟩ := h
            subst h1 h2
            exact mapGet_mapSet_self _ _ _
          all_goals cases h
        all_goals cases h
      all_goals cases h
    all_goals cases h
  all_goals cases h

theorem readRecord_registers (readFields : SubWalk (List AvroRecordField))
    (data : List (String × Dyn)) (builder builder' : schemaBuilder)
    (result : ItemSchema)
    (h : schemaBuilder.readRecord readFields data builder = .ok (result, builder')) :
    ∃ name, getStringValue data "name" true = .ok name ∧
      mapGet builder'.namedSchemas name = some result := by
  unfold schemaBuilder.readRecord at h
  split at h
  · rename_i name hname
    refine ⟨name, hname, ?_⟩
    split at h
    · split at h
      · split at h
        · split at h
          · simp only [Res.ok.injEq, Prod.mk.injEq] at h
            obtain ⟨h1, h2⟩ := h
            subst h1 h2
            exact mapGet_mapSet_self _ _ _
          all_goals cases h
        all_goals cases h
      all_goals cases h
    all_goals cases h
  all_goals cases h

/-- C17, amended: a second named type with a name already in use is not
rejected.  Whatever the registry holds, every successful compilation of an
enum, fixed or record mapping stores the new node in the registry under the
mapping's `name`, so that the latest declaration of a name replaces the earlier
one. -/
theorem C17_registration_replaces (data : List (String × Dyn))
    (builder builder' : schemaBuilder) (result : ItemSchema) :
    (schemaBuilder.readEnum data builder = .ok (result, builder') →
      ∃ name, getStringValue data "name" true = .ok name ∧
        mapGet builder'.namedSchemas name = some result) ∧
    (schemaBuilder.readFixed data builder = .ok (result, builder') →
      ∃ name, getStringValue data "name" true = .ok name ∧
        mapGet builder'.namedSchemas name = some result) ∧
    (∀ readFields, schemaBuilder.readRecord readFields data builder = .ok (result, builder') →
      ∃ name, getStringValue data "name" true = .ok name ∧
        mapGet builder'.namedSchemas name = some result) :=
  ⟨readEnum_registers data builder builder' result,
    readFixed_registers data builder builder' result,
    fun readFields => readRecord_registers readFields data builder builder' result⟩

/-- Witness of C17 (amended): with the enum `E` of symbol `A` already registered,
compiling the enum `E` of symbol `B` succeeds and leaves the second enum under
`E`. -/
theorem C17_registration_replaces_witness :
    schemaBuilder.readEnum
        [("type", .string "enum"), ("name", .string "E"), ("symbols", .slice [.string "B"])]
        { references := [], namedSchemas := [("E", .AvroEnum "E" "" [] "" ["A"] none)] }
      = .ok (.AvroEnum "E" "" [] "" ["B"] none,
          { references := [], namedSchemas := [("E", .AvroEnum "E" "" [] "" ["B"] none)] }) ∧
    ∃ name, getStringValue
        [("type", .string "enum"), ("name", .string "E"), ("symbols", .slice [.string "B"])]
        "name" true = .ok name ∧
      mapGet [("E", ItemSchema.AvroEnum "E" "" [] "" ["B"] none)] name
        = some (.AvroEnum "E" "" [] "" ["B"] none) :=
  ⟨rfl, (C17_registration_replaces
      [("type", .string "enum"), ("name", .string "E"), ("symbols", .slice [.string "B"])]
      { references := [], namedSchemas := [("E", .AvroEnum "E" "" [] "" ["A"] none)] }
      { references := [], namedSchemas := [("E", .AvroEnum "E" "" [] "" ["B"] none)] }
      (.AvroEnum "E" "" [] "" ["B"] none)).1 rfl⟩


/-! ## Enum and record decoding -/

theorem int32_length {n : Nat} (h : n < 2 ^ 31) : int32 (n : Int) = n := by
  unfold int32
  omega

/-- C12: for every enum node with fewer than 2^31 symbols and every reader: when
the int reader yields the index `i`, `AvroEnum.Read` returns `symbols[i]` if
`0 ≤ i < len(symbols)`, returns the default symbol if `i ≥ len(symbols)` and a
default exists, and fails with an error in every other case (`i < 0`, or
`i ≥ len(symbols)` with no default); when the int reader fails, `AvroEnum.Read`
fails with that error wrapped. -/
theorem C12_enum_on_decoded_index (name nspace : String) (aliases : List String)
    (doc : String) (symbols : List String) (defaultValue : Option String) (r : Reader)
    (hlen : symbols.length < 2 ^ 31) :
    (∀ i r', readInt r = (.ok i, r') →
      (0 ≤ i → i < symbols.length →
        ∃ s, symbols.get? i.toNat = some s ∧
          (ItemSchema.AvroEnum name nspace aliases doc symbols defaultValue).Read r
            = (.ok (.symbol s), r')) ∧
      (∀ d, (symbols.length : Int) ≤ i → defaultValue = some d →
        (ItemSchema.AvroEnum name nspace aliases doc symbols defaultValue).Read r
          = (.ok (.symbolPtr d), r')) ∧
      (i < 0 ∨ ((symbols.length : Int) ≤ i ∧ defaultValue = none) →
        ∃ err, (ItemSchema.AvroEnum name nspace aliases doc symbols defaultValue).Read r
          = (.error err, r'))) ∧
    (∀ err r', readInt r = (.error err, r') →
      (ItemSchema.AvroEnum name nspace aliases doc symbols defaultValue).Read r
        = (.error (.wrap "failed to read enum value" err), r')) := by
  constructor
  · intro i r' hi
    simp only [ItemSchema.Read, AvroEnum.Read, hi, int32_length hlen]
    refine ⟨?_, ?_, ?_⟩
    · intro h0 h1
      have hnot : ¬ (i ≥ (symbols.length : Int) ∨ i < 0) := by omega
      rw [if_neg hnot]
      have hlt : i.toNat < symbols.length := by omega
      refine ⟨symbols.get ⟨i.toNat, hlt⟩, List.get?_eq_get hlt, ?_⟩
      rw [List.get?_eq_get hlt]
    · intro d h1 hd
      have hyes : (i ≥ (symbols.length : Int) ∨ i < 0) := Or.inl h1
      have h0 : i ≥ 0 := by omega
      rw [if_pos hyes, hd]
      simp only [h0, if_true]
    · intro h
      have hyes : (i ≥ (symbols.length : Int) ∨ i < 0) := by omega
      rw [if_pos hyes]
      rcases h with h | ⟨_, hd⟩
      · cases defaultValue with
        | none => exact ⟨_, rfl⟩
        | some d =>
          have : ¬ i ≥ 0 := by omega
          simp only [this, if_false]
          exact ⟨_, rfl⟩
      · rw [hd]
        exact ⟨_, rfl⟩
  · intro err r' hi
    simp only [ItemSchema.Read, AvroEnum.Read, hi]

/-- Witness of C12: the enum with the symbols A, B and the default A on the
byte 02, which the int reader reads as the index -1. -/
theorem C12_enum_on_decoded_index_witness :
    readInt (.source [0x02]) = (.ok (-1), .source []) ∧
    ∃ err, (ItemSchema.AvroEnum "E" "" [] "" ["A", "B"] (some "A")).Read (.source [0x02])
      = (.error err, .source []) :=
  ⟨by decide,
    ((C12_enum_on_decoded_index "E" "" [] "" ["A", "B"] (some "A") (.source [0x02])
      (by decide)).1 (-1) (.source []) (by decide)).2.2 (Or.inl (by decide))⟩

theorem ReadFields_of_DecodesInOrder : ∀ (fields : List AvroRecordField)
    (result : List (String × Value)) (r : Reader) (values : List (String × Value))
    (r' : Reader), DecodesInOrder fields r values r' →
    AvroRecord.ReadFields fields result r = (.ok (.record (recordOf result values)), r') := by
  intro fields
  induction fields with
  | nil =>
    intro result r values r' h
    obtain ⟨h1, h2⟩ := h
    subst h1 h2
    rfl
  | cons f fields ih =>
    intro result r values r' h
    obtain ⟨v, r1, rest, hv, hread, hrest⟩ := h
    subst hv
    cases f with
    | mk name doc fieldType defaultValue order aliases =>
      simp only [AvroRecordField.fieldType] at hread
      simp only [AvroRecord.ReadFields, hread, AvroRecordField.name, recordOf]
      exact ih _ _ _ _ hrest

theorem DecodesInOrder_of_ReadFields : ∀ (fields : List AvroRecordField)
    (result : List (String × Value)) (r : Reader) (v : Value) (r' : Reader),
    AvroRecord.ReadFields fields result r = (.ok v, r') →
    ∃ values, DecodesInOrder fields r values r' ∧ v = .record (recordOf result values) := by
  intro fields
  induction fields with
  | nil =>
    intro result r v r' h
    simp only [AvroRecord.ReadFields, Prod.mk.injEq, Res.ok.injEq] at h
    obtain ⟨h1, h2⟩ := h
    exact ⟨[], ⟨rfl, h2.symm⟩, h1.symm⟩
  | cons f fields ih =>
    intro result r v r' h
    cases f with
    | mk name doc fieldType defaultValue order aliases =>
      simp only [AvroRecord.ReadFields] at h
      cases hread : ItemSchema.Read fieldType r with
      | mk res r1 =>
        rw [hread] at h
        cases res with
        | ok value =>
          obtain ⟨rest, hrest, hv⟩ := ih _ _ _ _ h
          exact ⟨(name, value) :: rest, ⟨value, r1, rest, rfl, hread, hrest⟩, hv⟩
        | error e => simp at h
        | panic m => simp at h
        | fuel => simp at h

theorem ReadFields_first_failure : ∀ (pre : List AvroRecordField) (f : AvroRecordField)
    (post : List AvroRecordField) (result : List (String × Value)) (r : Reader)
    (values : List (String × Value)) (r1 : Reader) (err : Err) (r2 : Reader),
    DecodesInOrder pre r values r1 → f.fieldType.Read r1 = (.error err, r2) →
    AvroRecord.ReadFields (pre ++ f :: post) result r
      = (.error (.wrap "failed reading field in type" err), r2) := by
  intro pre
  induction pre with
  | nil =>
    intro f post result r values r1 err r2 h hf
    obtain ⟨_, h2⟩ := h
    subst h2
    cases f with
    | mk name doc fieldType defaultValue order aliases =>
      simp only [AvroRecordField.fieldType] at hf
      simp only [List.nil_append, AvroRecord.ReadFields, hf]
  | cons g pre ih =>
    intro f post result r values r1 err r2 h hf
    obtain ⟨v, r0, rest, hv, hread, hrest⟩ := h
    cases g with
    | mk name doc fieldType defaultValue order aliases =>
      simp only [AvroRecordField.fieldType] at hread
      simp only [List.cons_append, AvroRecord.ReadFields, hread]
      exact ih f post _ r0 rest r1 err r2 hrest hf

theorem ReadFields_first_panic : ∀ (pre : List AvroRecordField) (f : AvroRecordField)
    (post : List AvroRecordField) (result : List (String × Value)) (r : Reader)
    (values : List (String × Value)) (r1 : Reader) (msg : String) (r2 : Reader),
    DecodesInOrder pre r values r1 → f.fieldType.Read r1 = (.panic msg, r2) →
    AvroRecord.ReadFields (pre ++ f :: post) result r = (.panic msg, r2) := by
  intro pre
  induction pre with
  | nil =>
    intro f post result r values r1 msg r2 h hf
    obtain ⟨_, h2⟩ := h
    subst h2
    cases f with
    | mk name doc fieldType defaultValue order aliases =>
      simp only [AvroRecordField.fieldType] at hf
      simp only [List.nil_append, AvroRecord.ReadFields, hf]
  | cons g pre ih =>
    intro f post result r values r1 msg r2 h hf
    obtain ⟨v, r0, rest, hv, hread, hrest⟩ := h
    cases g with
    | mk name doc fieldType defaultValue order aliases =>
      simp only [AvroRecordField.fieldType] at hread
      simp only [List.cons_append, AvroRecord.ReadFields, hread]
      exact ih f post _ r0 rest r1 msg r2 hrest hf

/-- C13: for every record node and every reader, `AvroRecord.Read` succeeds if
and only if the field types decode one after another, in declaration order,
from consecutive positions; it then returns the mapping built by assigning to
each field name its decoded value and stops where the last field stopped.  When
the fields before some field decode and that field fails with an error,
`AvroRecord.Read` fails with that error wrapped and the reader is left where the
failing field left it, whatever fields follow; a panic of that field is
likewise the outcome of `AvroRecord.Read`. -/
theorem C13_record_declaration_order (name nspace doc : String) (aliases : List String)
    (fields : List AvroRecordField) (r : Reader) :
    (∀ v r', (ItemSchema.AvroRecord name nspace doc aliases fields).Read r = (.ok v, r') ↔
      ∃ values, DecodesInOrder fields r values r' ∧ v = .record (recordOf [] values)) ∧
    (∀ pre f post values r1 err r2, fields = pre ++ f :: post →
      DecodesInOrder pre r values r1 → f.fieldType.Read r1 = (.error err, r2) →
      (ItemSchema.AvroRecord name nspace doc aliases fields).Read r
        = (.error (.wrap "failed reading field in type" err), r2)) ∧
    (∀ pre f post values r1 msg r2, fields = pre ++ f :: post →
      DecodesInOrder pre r values r1 → f.fieldType.Read r1 = (.panic msg, r2) →
      (ItemSchema.AvroRecord name nspace doc aliases fields).Read r = (.panic msg, r2)) := by
  refine ⟨?_, ?_, ?_⟩
  · intro v r'
    simp only [ItemSchema.Read]
    constructor
    · exact DecodesInOrder_of_ReadFields fields [] r v r'
    · rintro ⟨values, h, rfl⟩
      exact ReadFields_of_DecodesInOrder fields [] r values r' h
  · intro pre f post values r1 err r2 hfields h hf
    subst hfields
    simp only [ItemSchema.Read]
    exact ReadFields_first_failure pre f post [] r values r1 err r2 h hf
  · intro pre f post values r1 msg r2 hfields h hf
    subst hfields
    simp only [ItemSchema.Read]
    exact ReadFields_first_panic pre f post [] r values r1 msg r2 h hf

/-- Witness of C13: the record of the longs `a` and `b` on the single byte 02
decodes `a` and fails at `b`. -/
theorem C13_record_declaration_order_witness :
    DecodesInOrder [.mk "a" "" .AvroLong .null "" []] (.source [0x02])
      [("a", .int64 1)] (.source []) ∧
    twoLongsTree.Read (.source [0x02])
      = (.error (.wrap "failed reading field in type" (.wrap "failed to read value" .EOF)),
          .source []) :=
  ⟨⟨.int64 1, .source [], [], rfl, rfl, rfl, rfl⟩,
    (C13_record_declaration_order "R" "" "" []
      [.mk "a" "" .AvroLong .null "" [], .mk "b" "" .AvroLong .null "" []]
      (.source [0x02])).2.1
      [.mk "a" "" .AvroLong .null "" []] (.mk "b" "" .AvroLong .null "" []) [] [("a", .int64 1)]
      (.source []) (.wrap "failed to read value" .EOF) (.source []) rfl
      ⟨.int64 1, .source [], [], rfl, rfl, rfl, rfl⟩ rfl⟩


/-! ## Failure cases of the varint reader -/

theorem ReadUvarint_loop_short : ∀ (n i x s : Nat) (B : List Byte), B.length < n →
    (∀ b ∈ B, 0x80 ≤ b.val) →
    ReadUvarint.loop n i x s (.source B)
      = (.error (if 0 < i + B.length then .ErrUnexpectedEOF else .EOF), .source []) := by
  intro n
  induction n with
  | zero => intro i x s B h; omega
  | succ n ih =>
    intro i x s B hlen hB
    cases B with
    | nil =>
      rw [ReadUvarint.loop, ReadByte_nil]
      simp
    | cons b t =>
      have hb : ¬ b.val < 0x80 := by
        have := hB b (List.mem_cons_self _ _)
        omega
      rw [ReadUvarint_loop_more (ReadByte_cons _ _) hb,
        ih _ _ _ t (by simpa using hlen) (fun c hc => hB c (List.mem_cons_of_mem _ hc))]
      have h1 : 0 < i + 1 + t.length := by omega
      have h2 : 0 < i + (b :: t).length := by simp
      rw [if_pos h1, if_pos h2]

theorem ReadUvarint_loop_long : ∀ (n i x s : Nat) (B : List Byte), n ≤ B.length →
    (∀ b ∈ B.take n, 0x80 ≤ b.val) →
    ReadUvarint.loop n i x s (.source B) = (.error .errOverflow, .source (B.drop n)) := by
  intro n
  induction n with
  | zero => intro i x s B _ _; rfl
  | succ n ih =>
    intro i x s B hlen hB
    cases B with
    | nil => simp at hlen
    | cons b t =>
      have hb : ¬ b.val < 0x80 := by
        have := hB b (by simp)
        omega
      rw [ReadUvarint_loop_more (ReadByte_cons _ _) hb,
        ih _ _ _ t (by simpa using hlen) (fun c hc => hB c (by simp [hc]))]
      rfl

theorem ReadUvarint_loop_consumes : ∀ (n i x s : Nat) (B : List Byte),
    ∃ k, k ≤ n ∧ (ReadUvarint.loop n i x s (.source B)).2 = .source (B.drop k) := by
  intro n
  induction n with
  | zero => intro i x s B; exact ⟨0, le_refl _, rfl⟩
  | succ n ih =>
    intro i x s B
    cases B with
    | nil =>
      refine ⟨0, Nat.zero_le _, ?_⟩
      rw [ReadUvarint.loop, ReadByte_nil]
      rfl
    | cons b t =>
      by_cases hb : b.val < 0x80
      · refine ⟨1, by omega, ?_⟩
        rw [ReadUvarint.loop, ReadByte_cons]
        simp only [hb, if_true]
        split <;> rfl
      · obtain ⟨k, hk, hr⟩ := ih (i + 1) (x ||| u64 ((b.val &&& 0x7f) <<< s)) (s + 7) t
        refine ⟨k + 1, by omega, ?_⟩
        rw [ReadUvarint_loop_more (ReadByte_cons _ _) hb, hr]
        rfl

theorem readLong_of_ReadUvarint_error {r r' : Reader} {err : Err}
    (h : ReadUvarint r = (.error err, r')) :
    readLong r = (.error (.wrap "failed to read value" err), r') := by
  simp only [readLong, h]

theorem readLong_snd (r : Reader) : (readLong r).2 = (ReadUvarint r).2 := by
  unfold readLong
  split
  · rename_i heq
    rw [heq]
    split <;> rfl
  all_goals (rename_i heq; rw [heq])

/-- C19: for every byte source, the long reader fails with an error when the
source ends before a byte with a clear continuation bit is reached (end of file
on an empty source, unexpected end of file after at least one byte), and fails
with the varint overflow error when the first ten bytes all have the
continuation bit set; in every case what it leaves unread is the source without
its first `k` bytes for some `k ≤ 10`. -/
theorem C19_varint_failure_cases (B : List Byte) :
    (B.length < 10 → (∀ b ∈ B, 0x80 ≤ b.val) →
      readLong (.source B)
        = (.error (.wrap "failed to read value"
            (if 0 < B.length then .ErrUnexpectedEOF else .EOF)), .source [])) ∧
    (10 ≤ B.length → (∀ b ∈ B.take 10, 0x80 ≤ b.val) →
      readLong (.source B)
        = (.error (.wrap "failed to read value" .errOverflow), .source (B.drop 10))) ∧
    (∃ k, k ≤ 10 ∧ (readLong (.source B)).2 = .source (B.drop k)) := by
  refine ⟨?_, ?_, ?_⟩
  · intro hlen hB
    apply readLong_of_ReadUvarint_error
    have := ReadUvarint_loop_short MaxVarintLen64 0 0 0 B hlen hB
    simpa [ReadUvarint] using this
  · intro hlen hB
    apply readLong_of_ReadUvarint_error
    exact ReadUvarint_loop_long MaxVarintLen64 0 0 0 B hlen hB
  · rw [readLong_snd]
    exact ReadUvarint_loop_consumes MaxVarintLen64 0 0 0 B

/-- Witness of C19: two continuation bytes and then the end of the source; and
eleven continuation bytes, of which ten are consumed. -/
theorem C19_varint_failure_cases_witness :
    readLong (.source [0x80, 0x80])
      = (.error (.wrap "failed to read value" .ErrUnexpectedEOF), .source []) ∧
    readLong (.source [0x80, 0x80, 0x80, 0x80, 0x80, 0x80, 0x80, 0x80, 0x80, 0x80, 0x80])
      = (.error (.wrap "failed to read value" .errOverflow), .source [0x80]) :=
  ⟨(C19_varint_failure_cases [0x80, 0x80]).1 (by decide)
      (fun b hb => by
        simp only [List.mem_cons, List.mem_singleton, List.not_mem_nil, or_false, or_self] at hb
        subst hb
        decide),
    (C19_varint_failure_cases
      [0x80, 0x80, 0x80, 0x80, 0x80, 0x80, 0x80, 0x80, 0x80, 0x80, 0x80]).2.1
      (by decide)
      (fun b hb => by
        simp only [List.take, List.mem_cons, List.mem_singleton, List.not_mem_nil, or_false,
          or_self] at hb
        subst hb
        decide)⟩


/-! ## Required attributes -/

theorem getStringValue_ne_fuel (items : List (String × Dyn)) (name : String) (required : Bool) :
    getStringValue items name required ≠ .fuel := by
  unfold getStringValue
  split
  · split <;> simp
  · simp
  · simp

theorem getStringValue_ne_panic (items : List (String × Dyn)) (name : String)
    (required : Bool) (msg : String) : getStringValue items name required ≠ .panic msg := by
  unfold getStringValue
  split
  · split <;> simp
  · simp
  · simp

theorem getStringValue_required {items : List (String × Dyn)} {name : String} {s : String}
    (h : getStringValue items name true = .ok s) : (mapGet items name).isSome = true := by
  unfold getStringValue at h
  split at h
  · simp at h
  · rename_i heq; rw [heq]; rfl
  · rename_i heq; rw [heq]; rfl

theorem getStringValue_missing {items : List (String × Dyn)} {name : String}
    (h : mapGet items name = none) :
    getStringValue items name true = .error (.errorf "required field not found") := by
  simp [getStringValue, h]

theorem getIntValue_ne_fuel (items : List (String × Dyn)) (name : String) (required : Bool) :
    getIntValue items name required ≠ .fuel := by
  unfold getIntValue
  split
  · split <;> simp
  · simp
  · simp

theorem getIntValue_required {items : List (String × Dyn)} {name : String} {i : Int}
    (h : getIntValue items name true = .ok i) : (mapGet items name).isSome = true := by
  unfold getIntValue at h
  split at h
  · simp at h
  · rename_i heq; rw [heq]; rfl
  · rename_i heq; rw [heq]; rfl

theorem readStringArray_loop_ne_fuel : ∀ (items : List Dyn) (resultValues : List String),
    readStringArray.loop items resultValues ≠ .fuel
  | [], _ => by simp [readStringArray.loop]
  | .string _ :: items, resultValues => by
      rw [readStringArray.loop]
      exact readStringArray_loop_ne_fuel items _
  | .null :: _, _ => by simp [readStringArray.loop]
  | .bool _ :: _, _ => by simp [readStringArray.loop]
  | .int _ :: _, _ => by simp [readStringArray.loop]
  | .float64 _ :: _, _ => by simp [readStringArray.loop]
  | .slice _ :: _, _ => by simp [readStringArray.loop]
  | .map _ :: _, _ => by simp [readStringArray.loop]

theorem readStringArray_ne_fuel (data : List (String × Dyn)) (name : String) (required : Bool) :
    readStringArray data name required ≠ .fuel := by
  unfold readStringArray
  split
  · split <;> simp
  · simp
  · exact readStringArray_loop_ne_fuel _ _
  · simp

theorem readStringArray_required {data : List (String × Dyn)} {name : String}
    {values : List String} (h : readStringArray data name true = .ok values) :
    (mapGet data name).isSome = true := by
  unfold readStringArray at h
  split at h
  · simp at h
  · rename_i heq; rw [heq]; rfl
  · rename_i heq; rw [heq]; rfl
  · rename_i heq; rw [heq]; rfl


theorem readRecord_ok {readFields : SubWalk (List AvroRecordField)}
    {data : List (String × Dyn)} {builder : schemaBuilder} {x : ItemSchema × schemaBuilder}
    (h : schemaBuilder.readRecord readFields data builder = .ok x) :
    (mapGet data "name").isSome = true ∧
      (readFields builder = none ∨ ∃ y, readFields builder = some (.ok y)) := by
  unfold schemaBuilder.readRecord at h
  split at h
  · rename_i name hname
    refine ⟨getStringValue_required hname, ?_⟩
    split at h
    · split at h
      · split at h
        · cases hf : readFields builder with
          | none => exact Or.inl rfl
          | some res =>
            rw [hf] at h
            cases res with
            | ok y => exact Or.inr ⟨y, rfl⟩
            | error e => simp at h
            | panic m => simp at h
            | fuel => simp at h
        all_goals cases h
      all_goals cases h
    all_goals cases h
  all_goals cases h

theorem readRecord_ne_fuel {readFields : SubWalk (List AvroRecordField)}
    {data : List (String × Dyn)} {builder : schemaBuilder}
    (hf : readFields builder ≠ some .fuel) :
    schemaBuilder.readRecord readFields data builder ≠ .fuel := by
  intro h
  unfold schemaBuilder.readRecord at h
  split at h
  · split at h
    · split at h
      · split at h
        · cases hr : readFields builder with
          | none => rw [hr] at h; simp at h
          | some res =>
            rw [hr] at h
            cases res with
            | ok y => simp at h
            | error e => simp at h
            | panic m => simp at h
            | fuel => exact hf hr
        · cases h
        · cases h
        · rename_i heq; exact readStringArray_ne_fuel _ _ _ heq
      · cases h
      · cases h
      · rename_i heq; exact getStringValue_ne_fuel _ _ _ heq
    · cases h
    · cases h
    · rename_i heq; exact getStringValue_ne_fuel _ _ _ heq
  · cases h
  · cases h
  · rename_i heq; exact getStringValue_ne_fuel _ _ _ heq

theorem readRecordField_ok {readType : SubWalk ItemSchema}
    {data : List (String × Dyn)} {builder : schemaBuilder}
    {x : AvroRecordField × schemaBuilder}
    (h : schemaBuilder.readRecordField readType data builder = .ok x) :
    (mapGet data "name").isSome = true ∧ ∃ y, readType builder = some (.ok y) := by
  unfold schemaBuilder.readRecordField at h
  split at h
  · rename_i name hname
    refine ⟨getStringValue_required hname, ?_⟩
    split at h
    · split at h
      · cases h
      · rename_i heq
        exact ⟨_, heq⟩
      all_goals cases h
    all_goals cases h
  all_goals cases h

theorem readRecordField_ne_fuel {readType : SubWalk ItemSchema}
    {data : List (String × Dyn)} {builder : schemaBuilder}
    (hf : readType builder ≠ some .fuel) :
    schemaBuilder.readRecordField readType data builder ≠ .fuel := by
  intro h
  unfold schemaBuilder.readRecordField at h
  split at h
  · split at h
    · split at h
      · cases h
      · split at h
        · cases h
        · cases h
        · cases h
        · rename_i heq; exact readStringArray_ne_fuel _ _ _ heq
      · cases h
      · cases h
      · rename_i heq; exact hf heq
    · cases h
    · cases h
    · rename_i heq; exact getStringValue_ne_fuel _ _ _ heq
  · cases h
  · cases h
  · rename_i heq; exact getStringValue_ne_fuel _ _ _ heq

theorem readEnum_ok {data : List (String × Dyn)} {builder : schemaBuilder}
    {x : ItemSchema × schemaBuilder} (h : schemaBuilder.readEnum data builder = .ok x) :
    (mapGet data "name").isSome = true ∧ (mapGet data "symbols").isSome = true := by
  unfold schemaBuilder.readEnum at h
  split at h
  · rename_i name hname
    refine ⟨getStringValue_required hname, ?_⟩
    split at h
    · split at h
      · split at h
        · split at h
          · split at h
            · rename_i hsym
              exact readStringArray_required hsym
            all_goals cases h
          all_goals cases h
        all_goals cases h
      all_goals cases h
    all_goals cases h
  all_goals cases h

theorem readEnum_ne_fuel (data : List (String × Dyn)) (builder : schemaBuilder) :
    schemaBuilder.readEnum data builder ≠ .fuel := by
  intro h
  unfold schemaBuilder.readEnum at h
  split at h
  · split at h
    · split at h
      · split at h
        · split at h
          · split at h
            · cases h
            · cases h
            · cases h
            · rename_i heq; exact readStringArray_ne_fuel _ _ _ heq
          · cases h
          · cases h
          · rename_i heq
            split at heq <;> cases heq
        · cases h
        · cases h
        · rename_i heq; exact readStringArray_ne_fuel _ _ _ heq
      · cases h
      · cases h
      · rename_i heq; exact getStringValue_ne_fuel _ _ _ heq
    · cases h
    · cases h
    · rename_i heq; exact getStringValue_ne_fuel _ _ _ heq
  · cases h
  · cases h
  · rename_i heq; exact getStringValue_ne_fuel _ _ _ heq

theorem readFixed_ok {data : List (String × Dyn)} {builder : schemaBuilder}
    {x : ItemSchema × schemaBuilder} (h : schemaBuilder.readFixed data builder = .ok x) :
    (mapGet data "name").isSome = true ∧ (mapGet data "size").isSome = true := by
  unfold schemaBuilder.readFixed at h
  split at h
  · rename_i name hname
    refine ⟨getStringValue_required hname, ?_⟩
    split at h
    · split at h
      · split at h
        · split at h
          · rename_i hsize
            exact getIntValue_required hsize
          all_goals cases h
        all_goals cases h
      all_goals cases h
    all_goals cases h
  all_goals cases h

theorem readFixed_ne_fuel (data : List (String × Dyn)) (builder : schemaBuilder) :
    schemaBuilder.readFixed data builder ≠ .fuel := by
  intro h
  unfold schemaBuilder.readFixed at h
  split at h
  · split at h
    · split at h
      · split at h
        · split at h
          · cases h
          · cases h
          · cases h
          · rename_i heq; exact getIntValue_ne_fuel _ _ _ heq
        · cases h
        · cases h
        · rename_i heq; exact readStringArray_ne_fuel _ _ _ heq
      · cases h
      · cases h
      · rename_i heq; exact getStringValue_ne_fuel _ _ _ heq
    · cases h
    · cases h
    · rename_i heq; exact getStringValue_ne_fuel _ _ _ heq
  · cases h
  · cases h
  · rename_i heq; exact getStringValue_ne_fuel _ _ _ heq

theorem readArray_ok {readItems : SubWalk ItemSchema} {builder : schemaBuilder}
    {x : ItemSchema × schemaBuilder} (h : schemaBuilder.readArray readItems builder = .ok x) :
    ∃ y, readItems builder = some (.ok y) := by
  unfold schemaBuilder.readArray at h
  split at h
  · cases h
  · rename_i heq; exact ⟨_, heq⟩
  all_goals cases h

theorem readArray_ne_fuel {readItems : SubWalk ItemSchema} {builder : schemaBuilder}
    (hf : readItems builder ≠ some .fuel) :
    schemaBuilder.readArray readItems builder ≠ .fuel := by
  intro h
  unfold schemaBuilder.readArray at h
  split at h
  · cases h
  · cases h
  · cases h
  · cases h
  · rename_i heq; exact hf heq

theorem readMap_ok {readValues : SubWalk ItemSchema} {builder : schemaBuilder}
    {x : ItemSchema × schemaBuilder} (h : schemaBuilder.readMap readValues builder = .ok x) :
    ∃ y, readValues builder = some (.ok y) := by
  unfold schemaBuilder.readMap at h
  split at h
  · cases h
  · rename_i heq; exact ⟨_, heq⟩
  all_goals cases h

theorem readMap_ne_fuel {readValues : SubWalk ItemSchema} {builder : schemaBuilder}
    (hf : readValues builder ≠ some .fuel) :
    schemaBuilder.readMap readValues builder ≠ .fuel := by
  intro h
  unfold schemaBuilder.readMap at h
  split at h
  · cases h
  · cases h
  · cases h
  · cases h
  · rename_i heq; exact hf heq


mutual
theorem readSchemaElement_required : ∀ (schema : Dyn) (builder : schemaBuilder),
    schemaBuilder.readSchemaElement schema builder ≠ .fuel ∧
      (∀ x, schemaBuilder.readSchemaElement schema builder = .ok x →
        schema.requiredPresent = true)
  | .null, builder => by simp [schemaBuilder.readSchemaElement]
  | .bool _, builder => by simp [schemaBuilder.readSchemaElement]
  | .int _, builder => by simp [schemaBuilder.readSchemaElement]
  | .float64 _, builder => by simp [schemaBuilder.readSchemaElement]
  | .string typeName, builder => by
      refine ⟨?_, fun _ _ => by simp [Dyn.requiredPresent]⟩
      simp only [schemaBuilder.readSchemaElement]
      split
      · simp
      · split_ifs
        · exact readRecord_ne_fuel (by simp)
        · exact readEnum_ne_fuel _ _
        · exact readArray_ne_fuel (by simp)
        · exact readMap_ne_fuel (by simp)
        · exact readFixed_ne_fuel _ _
        · simp [schemaBuilder.readReference]
  | .slice schemaItems, builder => by
      have ih := readUnion_required schemaItems [] builder
      simp only [schemaBuilder.readSchemaElement, Dyn.requiredPresent]
      cases hu : schemaBuilder.readUnion schemaItems [] builder with
      | ok y => rw [hu] at ih; exact ⟨by simp, fun _ _ => ih.2 y rfl⟩
      | error e => simp
      | panic m => simp
      | fuel => exact absurd hu ih.1
  | .map m, builder => by
      simp only [schemaBuilder.readSchemaElement, Dyn.requiredPresent]
      cases ht : mapGet m "type" with
      | none => simp
      | some t =>
        cases t with
        | string typeName =>
          simp only []
          cases hp : primitiveSchema typeName with
          | some node => simp
          | none =>
            simp only []
            by_cases h1 : typeName = "record"
            · rw [if_pos h1, if_pos h1]
              have ih := readFieldsAt_required m builder
              refine ⟨readRecord_ne_fuel ih.1, fun x hx => ?_⟩
              obtain ⟨hn, hf⟩ := readRecord_ok hx
              rw [hn, ih.2 hf]
              rfl
            · rw [if_neg h1, if_neg h1]
              by_cases h2 : typeName = "enum"
              · rw [if_pos h2, if_pos h2]
                refine ⟨readEnum_ne_fuel _ _, fun x hx => ?_⟩
                obtain ⟨hn, hs⟩ := readEnum_ok hx
                rw [hn, hs]
                rfl
              · rw [if_neg h2, if_neg h2]
                by_cases h3 : typeName = "array"
                · rw [if_pos h3, if_pos h3]
                  have ih := readSchemaElementAt_required m "items" builder
                  refine ⟨readArray_ne_fuel ih.1, fun x hx => ?_⟩
                  obtain ⟨y, hy⟩ := readArray_ok hx
                  exact ih.2 y hy
                · rw [if_neg h3, if_neg h3]
                  by_cases h4 : typeName = "map"
                  · rw [if_pos h4, if_pos h4]
                    have ih := readSchemaElementAt_required m "values" builder
                    refine ⟨readMap_ne_fuel ih.1, fun x hx => ?_⟩
                    obtain ⟨y, hy⟩ := readMap_ok hx
                    exact ih.2 y hy
                  · rw [if_neg h4, if_neg h4]
                    by_cases h5 : typeName = "fixed"
                    · rw [if_pos h5, if_pos h5]
                      refine ⟨readFixed_ne_fuel _ _, fun x hx => ?_⟩
                      obtain ⟨hn, hs⟩ := readFixed_ok hx
                      rw [hn, hs]
                      rfl
                    · rw [if_neg h5, if_neg h5]
                      simp [schemaBuilder.readReference]
        | null => simp
        | bool _ => simp
        | int _ => simp
        | float64 _ => simp
        | slice _ => simp
        | map _ => simp
theorem readUnion_required : ∀ (schemaItems : List Dyn) (schemas : List ItemSchema)
    (builder : schemaBuilder),
    schemaBuilder.readUnion schemaItems schemas builder ≠ .fuel ∧
      (∀ x, schemaBuilder.readUnion schemaItems schemas builder = .ok x →
        Dyn.requiredPresentAll schemaItems = true)
  | [], schemas, builder => by simp [schemaBuilder.readUnion, Dyn.requiredPresentAll]
  | elem :: schemaItems, schemas, builder => by
      have ih := readSchemaElement_required elem builder
      simp only [schemaBuilder.readUnion, Dyn.requiredPresentAll]
      cases he : schemaBuilder.readSchemaElement elem builder with
      | ok y =>
        rw [he] at ih
        obtain ⟨value, builder'⟩ := y
        have ih2 := readUnion_required schemaItems (schemas ++ [value]) builder'
        refine ⟨ih2.1, fun x hx => ?_⟩
        rw [ih.2 _ rfl, ih2.2 x hx]
        rfl
      | error e => simp
      | panic m => simp
      | fuel => exact absurd he ih.1
theorem readSchemaElementAt_required : ∀ (data : List (String × Dyn)) (name : String)
    (builder : schemaBuilder),
    schemaBuilder.readSchemaElementAt name data builder ≠ some .fuel ∧
      (∀ x, schemaBuilder.readSchemaElementAt name data builder = some (.ok x) →
        Dyn.requiredPresentAt name data = true)
  | [], name, builder => by simp [schemaBuilder.readSchemaElementAt]
  | (key, value) :: data, name, builder => by
      simp only [schemaBuilder.readSchemaElementAt, Dyn.requiredPresentAt]
      by_cases hk : key = name
      · rw [if_pos hk, if_pos hk]
        have ih := readSchemaElement_required value builder
        refine ⟨fun h => ih.1 (Option.some.inj h), fun x hx => ih.2 x (Option.some.inj hx)⟩
      · rw [if_neg hk, if_neg hk]
        exact readSchemaElementAt_required data name builder
theorem readFieldsAt_required : ∀ (data : List (String × Dyn)) (builder : schemaBuilder),
    schemaBuilder.readFieldsAt data builder ≠ some .fuel ∧
      ((schemaBuilder.readFieldsAt data builder = none ∨
          ∃ y, schemaBuilder.readFieldsAt data builder = some (.ok y)) →
        Dyn.requiredPresentFieldsAt data = true)
  | [], builder => by simp [schemaBuilder.readFieldsAt, Dyn.requiredPresentFieldsAt]
  | (key, value) :: data, builder => by
      simp only [schemaBuilder.readFieldsAt, Dyn.requiredPresentFieldsAt]
      by_cases hk : key = "fields"
      · rw [if_pos hk, if_pos hk]
        have ih := readFieldsValue_required value builder
        refine ⟨fun h => ih.1 (Option.some.inj h), fun h => ?_⟩
        rcases h with h | ⟨y, hy⟩
        · cases h
        · exact ih.2 y (Option.some.inj hy)
      · rw [if_neg hk, if_neg hk]
        exact readFieldsAt_required data builder
theorem readFieldsValue_required : ∀ (value : Dyn) (builder : schemaBuilder),
    schemaBuilder.readFieldsValue value builder ≠ .fuel ∧
      (∀ x, schemaBuilder.readFieldsValue value builder = .ok x →
        Dyn.requiredPresentFieldsValue value = true)
  | .null, builder => by simp [schemaBuilder.readFieldsValue]
  | .bool _, builder => by simp [schemaBuilder.readFieldsValue]
  | .int _, builder => by simp [schemaBuilder.readFieldsValue]
  | .float64 _, builder => by simp [schemaBuilder.readFieldsValue]
  | .string _, builder => by simp [schemaBuilder.readFieldsValue]
  | .map _, builder => by simp [schemaBuilder.readFieldsValue]
  | .slice fields, builder => by
      simp only [schemaBuilder.readFieldsValue, Dyn.requiredPresentFieldsValue]
      exact readFieldList_required fields [] builder
theorem readFieldList_required : ∀ (fieldData : List Dyn) (fields : List AvroRecordField)
    (builder : schemaBuilder),
    schemaBuilder.readFieldList fieldData fields builder ≠ .fuel ∧
      (∀ x, schemaBuilder.readFieldList fieldData fields builder = .ok x →
        Dyn.requiredPresentFieldList fieldData = true)
  | [], fields, builder => by simp [schemaBuilder.readFieldList, Dyn.requiredPresentFieldList]
  | .null :: _, fields, builder => by simp [schemaBuilder.readFieldList]
  | .bool _ :: _, fields, builder => by simp [schemaBuilder.readFieldList]
  | .int _ :: _, fields, builder => by simp [schemaBuilder.readFieldList]
  | .float64 _ :: _, fields, builder => by simp [schemaBuilder.readFieldList]
  | .string _ :: _, fields, builder => by simp [schemaBuilder.readFieldList]
  | .slice _ :: _, fields, builder => by simp [schemaBuilder.readFieldList]
  | .map fieldDataMap :: rest, fields, builder => by
      have ih := readSchemaElementAt_required fieldDataMap "type" builder
      simp only [schemaBuilder.readFieldList, Dyn.requiredPresentFieldList]
      cases hf : schemaBuilder.readRecordField
          (schemaBuilder.readSchemaElementAt "type" fieldDataMap) fieldDataMap builder with
      | ok y =>
        obtain ⟨fieldObject, builder'⟩ := y
        obtain ⟨hn, z, hz⟩ := readRecordField_ok hf
        have ih2 := readFieldList_required rest (fields ++ [fieldObject]) builder'
        refine ⟨ih2.1, fun x hx => ?_⟩
        rw [hn, ih.2 z hz, ih2.2 x hx]
        rfl
      | error e => simp
      | panic m => simp
      | fuel => exact absurd hf (readRecordField_ne_fuel ih.1)
end


theorem getIntValue_ne_panic (items : List (String × Dyn)) (name : String)
    (required : Bool) (msg : String) : getIntValue items name required ≠ .panic msg := by
  unfold getIntValue
  split
  · split <;> simp
  · simp
  · simp

theorem readStringArray_loop_ne_panic : ∀ (items : List Dyn) (resultValues : List String)
    (msg : String), readStringArray.loop items resultValues ≠ .panic msg
  | [], _, _ => by simp [readStringArray.loop]
  | .string _ :: items, resultValues, msg => by
      rw [readStringArray.loop]
      exact readStringArray_loop_ne_panic items _ msg
  | .null :: _, _, _ => by simp [readStringArray.loop]
  | .bool _ :: _, _, _ => by simp [readStringArray.loop]
  | .int _ :: _, _, _ => by simp [readStringArray.loop]
  | .float64 _ :: _, _, _ => by simp [readStringArray.loop]
  | .slice _ :: _, _, _ => by simp [readStringArray.loop]
  | .map _ :: _, _, _ => by simp [readStringArray.loop]

theorem readStringArray_panic {data : List (String × Dyn)} {name : String} {required : Bool}
    {msg : String} (h : readStringArray data name required = .panic msg) :
    notNilAt data name = false := by
  unfold readStringArray at h
  split at h
  · split at h <;> cases h
  · rename_i heq
    simp [notNilAt, heq]
  · exact absurd h (readStringArray_loop_ne_panic _ _ _)
  · cases h

theorem readRecord_panic {readFields : SubWalk (List AvroRecordField)}
    {data : List (String × Dyn)} {builder : schemaBuilder} {msg : String}
    (h : schemaBuilder.readRecord readFields data builder = .panic msg) :
    notNilAt data "aliases" = false ∨ readFields builder = some (.panic msg) := by
  unfold schemaBuilder.readRecord at h
  split at h
  · split at h
    · split at h
      · split at h
        · cases hr : readFields builder with
          | none => rw [hr] at h; simp at h
          | some res =>
            rw [hr] at h
            cases res with
            | ok y => simp at h
            | error e => simp at h
            | panic m =>
              simp only [Option.getD_some, Res.panic.injEq] at h
              subst h
              exact Or.inr rfl
            | fuel => simp at h
        · cases h
        · rename_i heq; exact Or.inl (readStringArray_panic heq)
        · cases h
      · cases h
      · rename_i heq; exact absurd heq (getStringValue_ne_panic _ _ _ _)
      · cases h
    · cases h
    · rename_i heq; exact absurd heq (getStringValue_ne_panic _ _ _ _)
    · cases h
  · cases h
  · rename_i heq; exact absurd heq (getStringValue_ne_panic _ _ _ _)
  · cases h

theorem readRecordField_panic {readType : SubWalk ItemSchema}
    {data : List (String × Dyn)} {builder : schemaBuilder} {msg : String}
    (h : schemaBuilder.readRecordField readType data builder = .panic msg) :
    notNilAt data "aliases" = false ∨ readType builder = some (.panic msg) := by
  unfold schemaBuilder.readRecordField at h
  split at h
  · split at h
    · split at h
      · cases h
      · split at h
        · cases h
        · cases h
        · rename_i heq; exact Or.inl (readStringArray_panic heq)
        · cases h
      · cases h
      · rename_i heq
        simp only [Res.panic.injEq] at h
        subst h
        exact Or.inr heq
      · cases h
    · cases h
    · rename_i heq; exact absurd heq (getStringValue_ne_panic _ _ _ _)
    · cases h
  · cases h
  · rename_i heq; exact absurd heq (getStringValue_ne_panic _ _ _ _)
  · cases h

theorem readEnum_panic {data : List (String × Dyn)} {builder : schemaBuilder} {msg : String}
    (h : schemaBuilder.readEnum data builder = .panic msg) :
    notNilAt data "aliases" = false ∨ notNilAt data "symbols" = false := by
  unfold schemaBuilder.readEnum at h
  split at h
  · split at h
    · split at h
      · split at h
        · split at h
          · split at h
            · cases h
            · cases h
            · rename_i heq; exact Or.inr (readStringArray_panic heq)
            · cases h
          · cases h
          · rename_i heq
            split at heq <;> cases heq
          · cases h
        · cases h
        · rename_i heq; exact Or.inl (readStringArray_panic heq)
        · cases h
      · cases h
      · rename_i heq; exact absurd heq (getStringValue_ne_panic _ _ _ _)
      · cases h
    · cases h
    · rename_i heq; exact absurd heq (getStringValue_ne_panic _ _ _ _)
    · cases h
  · cases h
  · rename_i heq; exact absurd heq (getStringValue_ne_panic _ _ _ _)
  · cases h

theorem readFixed_panic {data : List (String × Dyn)} {builder : schemaBuilder} {msg : String}
    (h : schemaBuilder.readFixed data builder = .panic msg) :
    notNilAt data "aliases" = false := by
  unfold schemaBuilder.readFixed at h
  split at h
  · split at h
    · split at h
      · split at h
        · split at h
          · cases h
          · cases h
          · rename_i heq; exact absurd heq (getIntValue_ne_panic _ _ _ _)
          · cases h
        · cases h
        · rename_i heq; exact readStringArray_panic heq
        · cases h
      · cases h
      · rename_i heq; exact absurd heq (getStringValue_ne_panic _ _ _ _)
      · cases h
    · cases h
    · rename_i heq; exact absurd heq (getStringValue_ne_panic _ _ _ _)
    · cases h
  · cases h
  · rename_i heq; exact absurd heq (getStringValue_ne_panic _ _ _ _)
  · cases h

theorem readArray_panic {readItems : SubWalk ItemSchema} {builder : schemaBuilder}
    {msg : String} (h : schemaBuilder.readArray readItems builder = .panic msg) :
    readItems builder = some (.panic msg) := by
  unfold schemaBuilder.readArray at h
  split at h
  · cases h
  · cases h
  · cases h
  · rename_i heq
    simp only [Res.panic.injEq] at h
    subst h
    exact heq
  · cases h

theorem readMap_panic {readValues : SubWalk ItemSchema} {builder : schemaBuilder}
    {msg : String} (h : schemaBuilder.readMap readValues builder = .panic msg) :
    readValues builder = some (.panic msg) := by
  unfold schemaBuilder.readMap at h
  split at h
  · cases h
  · cases h
  · cases h
  · rename_i heq
    simp only [Res.panic.injEq] at h
    subst h
    exact heq
  · cases h

mutual
theorem readSchemaElement_nilFree : ∀ (schema : Dyn) (builder : schemaBuilder) (msg : String),
    schema.nilFree = true → schemaBuilder.readSchemaElement schema builder ≠ .panic msg
  | .null, _, _ => by simp [Dyn.nilFree]
  | .bool _, _, _ => by simp [schemaBuilder.readSchemaElement]
  | .int _, _, _ => by simp [schemaBuilder.readSchemaElement]
  | .float64 _, _, _ => by simp [schemaBuilder.readSchemaElement]
  | .string typeName, builder, msg => by
      intro _
      simp only [schemaBuilder.readSchemaElement]
      split
      · simp
      · split_ifs
        · intro h
          rcases readRecord_panic h with h | h
          · simp [notNilAt, mapGet] at h
          · cases h
        · intro h
          rcases readEnum_panic h with h | h <;> simp [notNilAt, mapGet] at h
        · intro h
          cases readArray_panic h
        · intro h
          cases readMap_panic h
        · intro h
          have := readFixed_panic h
          simp [notNilAt, mapGet] at this
        · simp [schemaBuilder.readReference]
  | .slice schemaItems, builder, msg => by
      intro hn
      simp only [Dyn.nilFree] at hn
      have ih := readUnion_nilFree schemaItems [] builder msg hn
      simp only [schemaBuilder.readSchemaElement]
      cases hu : schemaBuilder.readUnion schemaItems [] builder with
      | ok y => simp
      | error e => simp
      | panic m =>
        simp only [ne_eq, Res.panic.injEq]
        intro hm
        subst hm
        exact ih hu
      | fuel => simp
  | .map m, builder, msg => by
      simp only [schemaBuilder.readSchemaElement, Dyn.nilFree]
      cases ht : mapGet m "type" with
      | none => simp
      | some t =>
        cases t with
        | string typeName =>
          simp only []
          cases hp : primitiveSchema typeName with
          | some node => simp
          | none =>
            simp only []
            by_cases h1 : typeName = "record"
            · rw [if_pos h1, if_pos h1]
              intro hn h
              simp only [Bool.and_eq_true] at hn
              rcases readRecord_panic h with ha | hf
              · rw [hn.1] at ha; cases ha
              · exact readFieldsAt_nilFree m builder msg hn.2 hf
            · rw [if_neg h1, if_neg h1]
              by_cases h2 : typeName = "enum"
              · rw [if_pos h2, if_pos h2]
                intro hn h
                simp only [Bool.and_eq_true] at hn
                rcases readEnum_panic h with ha | hs
                · rw [hn.1] at ha; cases ha
                · rw [hn.2] at hs; cases hs
              · rw [if_neg h2, if_neg h2]
                by_cases h3 : typeName = "array"
                · rw [if_pos h3, if_pos h3]
                  intro hn h
                  exact readSchemaElementAt_nilFree m "items" builder msg hn (readArray_panic h)
                · rw [if_neg h3, if_neg h3]
                  by_cases h4 : typeName = "map"
                  · rw [if_pos h4, if_pos h4]
                    intro hn h
                    exact readSchemaElementAt_nilFree m "values" builder msg hn
                      (readMap_panic h)
                  · rw [if_neg h4, if_neg h4]
                    by_cases h5 : typeName = "fixed"
                    · rw [if_pos h5, if_pos h5]
                      intro hn h
                      have ha := readFixed_panic h
                      rw [hn] at ha
                      cases ha
                    · rw [if_neg h5, if_neg h5]
                      simp [schemaBuilder.readReference]
        | null => simp
        | bool _ => simp
        | int _ => simp
        | float64 _ => simp
        | slice _ => simp
        | map _ => simp
theorem readUnion_nilFree : ∀ (schemaItems : List Dyn) (schemas : List ItemSchema)
    (builder : schemaBuilder) (msg : String), Dyn.nilFreeAll schemaItems = true →
    schemaBuilder.readUnion schemaItems schemas builder ≠ .panic msg
  | [], schemas, builder, msg => by simp [schemaBuilder.readUnion]
  | elem :: schemaItems, schemas, builder, msg => by
      intro hn
      simp only [Dyn.nilFreeAll, Bool.and_eq_true] at hn
      have ih := readSchemaElement_nilFree elem builder
      simp only [schemaBuilder.readUnion]
      cases he : schemaBuilder.readSchemaElement elem builder with
      | ok y =>
        obtain ⟨value, builder'⟩ := y
        exact readUnion_nilFree schemaItems (schemas ++ [value]) builder' msg hn.2
      | error e => simp
      | panic m =>
        exact absurd he (ih m hn.1)
      | fuel => simp
theorem readSchemaElementAt_nilFree : ∀ (data : List (String × Dyn)) (name : String)
    (builder : schemaBuilder) (msg : String), Dyn.nilFreeAt name data = true →
    schemaBuilder.readSchemaElementAt name data builder ≠ some (.panic msg)
  | [], name, builder, msg => by simp [schemaBuilder.readSchemaElementAt]
  | (key, value) :: data, name, builder, msg => by
      simp only [schemaBuilder.readSchemaElementAt, Dyn.nilFreeAt]
      by_cases hk : key = name
      · rw [if_pos hk, if_pos hk]
        intro hn h
        exact readSchemaElement_nilFree value builder msg hn (Option.some.inj h)
      · rw [if_neg hk, if_neg hk]
        exact readSchemaElementAt_nilFree data name builder msg
theorem readFieldsAt_nilFree : ∀ (data : List (String × Dyn)) (builder : schemaBuilder)
    (msg : String), Dyn.nilFreeFieldsAt data = true →
    schemaBuilder.readFieldsAt data builder ≠ some (.panic msg)
  | [], builder, msg => by simp [schemaBuilder.readFieldsAt]
  | (key, value) :: data, builder, msg => by
      simp only [schemaBuilder.readFieldsAt, Dyn.nilFreeFieldsAt]
      by_cases hk : key = "fields"
      · rw [if_pos hk, if_pos hk]
        intro hn h
        exact readFieldsValue_nilFree value builder msg hn (Option.some.inj h)
      · rw [if_neg hk, if_neg hk]
        exact readFieldsAt_nilFree data builder msg
theorem readFieldsValue_nilFree : ∀ (value : Dyn) (builder : schemaBuilder) (msg : String),
    Dyn.nilFreeFieldsValue value = true →
    schemaBuilder.readFieldsValue value builder ≠ .panic msg
  | .null, _, _ => by simp [Dyn.nilFreeFieldsValue]
  | .bool _, _, _ => by simp [schemaBuilder.readFieldsValue]
  | .int _, _, _ => by simp [schemaBuilder.readFieldsValue]
  | .float64 _, _, _ => by simp [schemaBuilder.readFieldsValue]
  | .string _, _, _ => by simp [schemaBuilder.readFieldsValue]
  | .map _, _, _ => by simp [schemaBuilder.readFieldsValue]
  | .slice fields, builder, msg => by
      simp only [schemaBuilder.readFieldsValue, Dyn.nilFreeFieldsValue]
      exact readFieldList_nilFree fields [] builder msg
theorem readFieldList_nilFree : ∀ (fieldData : List Dyn) (fields : List AvroRecordField)
    (builder : schemaBuilder) (msg : String), Dyn.nilFreeFieldList fieldData = true →
    schemaBuilder.readFieldList fieldData fields builder ≠ .panic msg
  | [], fields, builder, msg => by simp [schemaBuilder.readFieldList]
  | .null :: _, fields, builder, msg => by simp [schemaBuilder.readFieldList]
  | .bool _ :: _, fields, builder, msg => by simp [schemaBuilder.readFieldList]
  | .int _ :: _, fields, builder, msg => by simp [schemaBuilder.readFieldList]
  | .float64 _ :: _, fields, builder, msg => by simp [schemaBuilder.readFieldList]
  | .string _ :: _, fields, builder, msg => by simp [schemaBuilder.readFieldList]
  | .slice _ :: _, fields, builder, msg => by simp [schemaBuilder.readFieldList]
  | .map fieldDataMap :: rest, fields, builder, msg => by
      intro hn
      simp only [Dyn.nilFreeFieldList, Bool.and_eq_true] at hn
      obtain ⟨⟨ht, ha⟩, hrest⟩ := hn
      simp only [schemaBuilder.readFieldList]
      cases hf : schemaBuilder.readRecordField
          (schemaBuilder.readSchemaElementAt "type" fieldDataMap) fieldDataMap builder with
      | ok y =>
        obtain ⟨fieldObject, builder'⟩ := y
        exact readFieldList_nilFree rest (fields ++ [fieldObject]) builder' msg hrest
      | error e => simp
      | panic m =>
        rcases readRecordField_panic hf with h | h
        · rw [ha] at h; cases h
        · exact absurd h (readSchemaElementAt_nilFree fieldDataMap "type" builder m ht)
      | fuel => simp
end

theorem readSchemaElementAt_missing : ∀ (data : List (String × Dyn)) (name : String)
    (builder : schemaBuilder), mapGet data name = none →
    schemaBuilder.readSchemaElementAt name data builder = none
  | [], _, _, _ => rfl
  | (key, value) :: data, name, builder, h => by
      simp only [mapGet] at h
      simp only [schemaBuilder.readSchemaElementAt]
      by_cases hk : key = name
      · rw [if_pos hk] at h; cases h
      · rw [if_neg hk] at h ⊢
        exact readSchemaElementAt_missing data name builder h

theorem readRecordField_missing (data : List (String × Dyn)) (builder : schemaBuilder)
    (h : mapGet data "name" = none ∨ mapGet data "type" = none) :
    ∃ err, schemaBuilder.readRecordField (schemaBuilder.readSchemaElementAt "type" data)
      data builder = .error err := by
  unfold schemaBuilder.readRecordField
  cases hn : getStringValue data "name" true with
  | ok name =>
    simp only []
    cases hd : getStringValue data "doc" false with
    | ok docv =>
      simp only []
      rcases h with h | h
      · rw [getStringValue_missing h] at hn; cases hn
      · rw [readSchemaElementAt_missing data "type" builder h]
        exact ⟨_, rfl⟩
    | error e => exact ⟨_, rfl⟩
    | panic m => exact absurd hd (getStringValue_ne_panic _ _ _ _)
    | fuel => exact absurd hd (getStringValue_ne_fuel _ _ _)
  | error e => exact ⟨_, rfl⟩
  | panic m => exact absurd hn (getStringValue_ne_panic _ _ _ _)
  | fuel => exact absurd hn (getStringValue_ne_fuel _ _ _)

theorem ParseSchema_of_walk_error {doc : Dyn} {err : Err}
    (h : schemaBuilder.readSchemaElement doc { references := [], namedSchemas := [] }
      = .error err) : ParseSchema doc = .error err := by
  simp only [ParseSchema, schemaBuilder.read, h]

theorem ParseSchema_not_ok_of_missing (doc : Dyn) (h : doc.requiredPresent = false) :
    (∃ err, ParseSchema doc = .error err) ∨ (∃ msg, ParseSchema doc = .panic msg) := by
  have hw := readSchemaElement_required doc { references := [], namedSchemas := [] }
  cases hr : schemaBuilder.readSchemaElement doc { references := [], namedSchemas := [] } with
  | ok x =>
    have := hw.2 x hr
    rw [h] at this
    cases this
  | error e => exact Or.inl ⟨e, ParseSchema_of_walk_error hr⟩
  | panic m => exact Or.inr ⟨m, by simp only [ParseSchema, schemaBuilder.read, hr]⟩
  | fuel => exact absurd hr hw.1

theorem primitiveSchema_composite {typeName : String}
    (h : typeName ∈ ["record", "enum", "array", "map", "fixed"]) :
    primitiveSchema typeName = none := by
  simp only [List.mem_cons, List.mem_singleton, List.not_mem_nil, or_false] at h
  rcases h with rfl | rfl | rfl | rfl | rfl <;> rfl

theorem readRecord_missing_name (readFields : SubWalk (List AvroRecordField))
    (data : List (String × Dyn)) (builder : schemaBuilder) (h : mapGet data "name" = none) :
    schemaBuilder.readRecord readFields data builder
      = .error (.errorf "required field not found") := by
  simp only [schemaBuilder.readRecord, getStringValue_missing h]

theorem readEnum_missing_name (data : List (String × Dyn)) (builder : schemaBuilder)
    (h : mapGet data "name" = none) :
    schemaBuilder.readEnum data builder = .error (.errorf "required field not found") := by
  simp only [schemaBuilder.readEnum, getStringValue_missing h]

theorem readFixed_missing_name (data : List (String × Dyn)) (builder : schemaBuilder)
    (h : mapGet data "name" = none) :
    schemaBuilder.readFixed data builder = .error (.errorf "required field not found") := by
  simp only [schemaBuilder.readFixed, getStringValue_missing h]

/-- C15, as stated, fails: the record mapping with `type` and `name` and without
`fields` is compiled, to a record with no fields. -/
theorem C15_record_without_fields_compiles :
    mapGet [("type", Dyn.string "record"), ("name", Dyn.string "R")] "fields" = none ∧
    ParseSchema (.map [("type", .string "record"), ("name", .string "R")])
      = .ok (.AvroRecord "R" "" "" [] []) := by
  constructor <;> rfl

theorem ParseSchema_error_of_missing (doc : Dyn) (hn : doc.nilFree = true)
    (h : doc.requiredPresent = false) : ∃ err, ParseSchema doc = .error err := by
  have hw := readSchemaElement_required doc { references := [], namedSchemas := [] }
  cases hr : schemaBuilder.readSchemaElement doc { references := [], namedSchemas := [] } with
  | ok x =>
    have := hw.2 x hr
    rw [h] at this
    cases this
  | error e => exact ⟨e, ParseSchema_of_walk_error hr⟩
  | panic m => exact absurd hr (readSchemaElement_nilFree doc _ m hn)
  | fuel => exact absurd hr hw.1

theorem notNilAt_of_missing {data : List (String × Dyn)} {name : String}
    (h : mapGet data name = none) : notNilAt data name = true := by
  simp [notNilAt, h]

/-- C15, amended: `ParseSchema` returns an error for every schema document in
which some composite mapping reached by the walk lacks a required attribute
other than the `fields` of a record (record: `name`; record field: `name` or
`type`; enum: `name` or `symbols`; array: `items`; map: `values`; fixed: `name`
or `size`), provided no position that the walk inspects holds nil.  For a
document that is itself such a mapping the error is returned whatever else the
document holds when `name`, `items` or `values` is missing, and when `aliases`
is not nil for an enum without `symbols` and a fixed without `size`; the reader
of a record field returns an error for every field mapping without `name` or
without `type`.  More generally the error is returned whenever the walk of such
a document does not end in a panic. -/
theorem C15_missing_required_attribute (doc : Dyn) :
    (doc.nilFree = true → doc.requiredPresent = false →
      ∃ err, ParseSchema doc = .error err) ∧
    (∀ m typeName, doc = .map m → mapGet m "type" = some (.string typeName) →
      ((typeName = "record" ∨ typeName = "enum" ∨ typeName = "fixed") →
        mapGet m "name" = none → ∃ err, ParseSchema doc = .error err) ∧
      (typeName = "array" → mapGet m "items" = none → ∃ err, ParseSchema doc = .error err) ∧
      (typeName = "map" → mapGet m "values" = none → ∃ err, ParseSchema doc = .error err) ∧
      (typeName = "enum" → mapGet m "symbols" = none → notNilAt m "aliases" = true →
        ∃ err, ParseSchema doc = .error err) ∧
      (typeName = "fixed" → mapGet m "size" = none → notNilAt m "aliases" = true →
        ∃ err, ParseSchema doc = .error err)) ∧
    (∀ data builder, mapGet data "name" = none ∨ mapGet data "type" = none →
      ∃ err, schemaBuilder.readRecordField (schemaBuilder.readSchemaElementAt "type" data)
        data builder = .error err) ∧
    (doc.requiredPresent = false → (ParseSchema doc).isPanic = false →
      ∃ err, ParseSchema doc = .error err) := by
  refine ⟨ParseSchema_error_of_missing doc, ?_, readRecordField_missing, ?_⟩
  · intro m typeName hdoc ht
    subst hdoc
    refine ⟨?_, ?_, ?_, ?_, ?_⟩
    · intro hk hn
      refine ⟨.errorf "required field not found", ParseSchema_of_walk_error ?_⟩
      rcases hk with rfl | rfl | rfl
      · simp only [schemaBuilder.readSchemaElement, ht]
        exact readRecord_missing_name _ _ _ hn
      · simp only [schemaBuilder.readSchemaElement, ht]
        exact readEnum_missing_name _ _ hn
      · simp only [schemaBuilder.readSchemaElement, ht]
        exact readFixed_missing_name _ _ hn
    · rintro rfl hi
      refine ⟨.errorf "items schema is not set for array", ParseSchema_of_walk_error ?_⟩
      simp only [schemaBuilder.readSchemaElement, ht]
      show schemaBuilder.readArray _ _ = _
      simp only [schemaBuilder.readArray, readSchemaElementAt_missing _ _ _ hi]
    · rintro rfl hv
      refine ⟨.errorf "values schema is not set for map", ParseSchema_of_walk_error ?_⟩
      simp only [schemaBuilder.readSchemaElement, ht]
      show schemaBuilder.readMap _ _ = _
      simp only [schemaBuilder.readMap, readSchemaElementAt_missing _ _ _ hv]
    · rintro rfl hs ha
      apply ParseSchema_error_of_missing
      · have hp : primitiveSchema "enum" = none := rfl
        simp only [Dyn.nilFree, ht, hp]
        simp [ha, notNilAt_of_missing hs]
      · have hp : primitiveSchema "enum" = none := rfl
        simp only [Dyn.requiredPresent, ht, hp]
        simp [hs]
    · rintro rfl hs ha
      apply ParseSchema_error_of_missing
      · have hp : primitiveSchema "fixed" = none := rfl
        simp only [Dyn.nilFree, ht, hp]
        simp [ha]
      · have hp : primitiveSchema "fixed" = none := rfl
        simp only [Dyn.requiredPresent, ht, hp]
        simp [hs]
  · intro h hp
    rcases ParseSchema_not_ok_of_missing doc h with he | ⟨msg, hm⟩
    · exact he
    · rw [hm] at hp
      cases hp

/-- Witness of C15 (amended): a record whose second field has no `type`, and
an enum without `symbols`. -/
theorem C15_missing_required_attribute_witness :
    ((Dyn.map [("type", .string "record"), ("name", .string "R"),
        ("fields", .slice [
          .map [("name", .string "a"), ("type", .string "long")],
          .map [("name", .string "b")]])]).nilFree = true ∧
      (Dyn.map [("type", .string "record"), ("name", .string "R"),
        ("fields", .slice [
          .map [("name", .string "a"), ("type", .string "long")],
          .map [("name", .string "b")]])]).requiredPresent = false ∧
      ∃ err, ParseSchema (.map [("type", .string "record"), ("name", .string "R"),
        ("fields", .slice [
          .map [("name", .string "a"), ("type", .string "long")],
          .map [("name", .string "b")]])]) = .error err) ∧
    (mapGet [("type", Dyn.string "enum"), ("name", Dyn.string "E")] "symbols" = none ∧
      ∃ err, ParseSchema (.map [("type", .string "enum"), ("name", .string "E")])
        = .error err) :=
  ⟨⟨rfl, rfl, (C15_missing_required_attribute _).1 rfl rfl⟩,
    ⟨rfl, ((C15_missing_required_attribute
      (.map [("type", .string "enum"), ("name", .string "E")])).2.1
        _ "enum" rfl rfl).2.2.2.1 rfl rfl rfl⟩⟩

/-! ## Bounds of the array accumulator -/

/-- C21 (code defect): for the array of longs compiled from `longArrayDoc`, the
bytes 02 02 | 04 04 06 | 00 (a block of one item 1, a block of two items 2 and
3, the terminator) make `AvroArray.Read` panic with an index out of range: the
accumulator has the length 1 of the first block, the second block stores its
first item at index 0, and the write `result[1]` of its second item, made after
the item is read, is past the end of the slice. -/
theorem C21_array_write_past_first_block :
    ParseSchema longArrayDoc = .ok (.AvroArray .AvroLong) ∧
    (ItemSchema.AvroArray .AvroLong).Read
        (.source (encodeLong 1 ++ encodeLong 1
          ++ (encodeLong 2 ++ encodeLong 2 ++ encodeLong 3) ++ encodeLong 0))
      = (.panic "index out of range", .source (encodeLong 0)) ∧
    AvroArray.items ItemSchema.AvroLong.Read 1 1 [.int64 2] (.source (encodeLong 3))
      = (.panic "index out of range", .source []) := by
  refine ⟨rfl, rfl, rfl⟩

end Avro
